import Mathlib

/-!
Verification of the `niv` text-editor core against its specification.

The development shallowly embeds the Rust sources:
  * `src/niv_rope/src/rope.rs` — gap-buffer leaves and the red-black rope;
  * `src/niv_fs/src/file/{eol,load,save}.rs`, `src/niv_fs/src/bom.rs`,
    `src/niv_fs/src/encoding/*.rs` — the file I/O pipeline.

Modelling conventions:
  * bytes are `Nat` (values 0..255); machine integers (`usize`, `u64`, `u16`)
    are `Nat`.  All values manipulated by the verified properties stay far
    below the machine bounds (leaf offsets are at most 2048, node counts are
    bounded by hypotheses where relevant), so wrap-around cannot occur and is
    not modelled; the one place the code consults a machine bound
    (`u16::MAX` in `insert_newline_indices`, `u64::MAX` as the `NIL`
    sentinel, `saturating_add`) is kept explicit.
  * a leaf buffer is a total function `Nat → Nat`; `copy_within` and
    `copy_from_slice` become pointwise overlays, which is observationally
    identical to the in-place byte copies of the source.
  * Rust's `while` loops become fuel-indexed recursions.  The fuel passed at
    each call site dominates the loop's iteration count on every state the
    theorems touch, so the fuel-exhaustion branches are dead code.
  * `Result<usize, RBError>` becomes `Except RBError Nat`; `&mut self`
    methods return the updated value next to the `Except`.
  * `Vec::partition_point` is modelled as `List.countP`: the two coincide on
    partitioned lists, and `nl_idx` stays sorted in every reachable state.
  * the `f64` ratio comparisons of the encoding detectors are modelled as
    exact rational comparisons (`mkRat count length`, with denominators
    positive at every call site); at every input evaluated here the ratios
    are far from the thresholds, where double rounding cannot change the
    verdict.
-/

namespace Niv

/-- `rbt_chunk.rs`: the rope error type (`TreeFull`, `InvalidOffset`,
`InsufficientSpace`). -/
inductive RBError where
  | TreeFull
  | InvalidOffset
  | InsufficientSpace
deriving DecidableEq, Repr

/-- `rope.rs`: `NIL`, the `u64::MAX` sentinel for "no node". -/
def NIL : Nat := 18446744073709551615

/-- `rope.rs`: `LEAF_CAPACITY = 2048`. -/
def LEAF_CAPACITY : Nat := 2048

/-- `rope.rs`: `LEAF_USABLE = (LEAF_CAPACITY * 80) / 100`. -/
def LEAF_USABLE : Nat := (LEAF_CAPACITY * 80) / 100

/-- A leaf buffer, modelled as a total function from physical index to byte. -/
def Buf : Type := Nat → Nat

/-- `buf.copy_within(srcStart..srcEnd, dest)` as a functional overlay. -/
def copyWithin (b : Buf) (srcStart srcEnd dest : Nat) : Buf :=
  fun i => if dest ≤ i ∧ i < dest + (srcEnd - srcStart) then b (srcStart + (i - dest)) else b i

/-- `buf[start..start+data.len()].copy_from_slice(data)` as a functional overlay. -/
def copySlice (b : Buf) (start : Nat) (data : List Nat) : Buf :=
  fun i => if start ≤ i ∧ i < start + data.length then data.getD (i - start) 0 else b i

/-- Read `len` consecutive physical bytes of a buffer starting at `start`. -/
def readBuf (b : Buf) (start len : Nat) : List Nat :=
  (List.range len).map (fun i => b (start + i))

/-- Overwrite `out[start..start+data.len()]` with `data` (a slice write into a
caller-owned buffer). -/
def writeRange (out : List Nat) (start : Nat) (data : List Nat) : List Nat :=
  out.take start ++ data ++ out.drop (start + data.length)

/-- `rope.rs`: `struct Leaf` — gap buffer plus sorted newline index. -/
structure Leaf where
  buf : Buf
  gap_lo : Nat
  gap_hi : Nat
  nl_idx : List Nat

/-- `Leaf::new()`: zeroed buffer, gap covering the whole capacity. -/
def Leaf.new : Leaf :=
  { buf := fun _ => 0, gap_lo := 0, gap_hi := LEAF_CAPACITY, nl_idx := [] }

/-- `Leaf::gap_size`. -/
def Leaf.gap_size (l : Leaf) : Nat := l.gap_hi - l.gap_lo

/-- `Leaf::byte_len`. -/
def Leaf.byte_len (l : Leaf) : Nat := l.gap_lo + (LEAF_CAPACITY - l.gap_hi)

/-- `Leaf::move_gap_to`. -/
def Leaf.move_gap_to (l : Leaf) (off : Nat) : Leaf :=
  let gl := l.gap_lo
  let gh := l.gap_hi
  if off < gl then
    let n := gl - off
    { l with buf := copyWithin l.buf off gl (gh - n), gap_lo := off, gap_hi := gh - n }
  else if off > gl then
    let n := off - gl
    { l with buf := copyWithin l.buf gh (gh + n) gl, gap_lo := off, gap_hi := gh + n }
  else l

/-- `Leaf::partition_point_nl`: `nl_idx.partition_point(|p| p < at)`.  On the
sorted lists arising in every reachable state this equals the number of
entries below `at_`. -/
def Leaf.partition_point_nl (l : Leaf) (at_ : Nat) : Nat :=
  l.nl_idx.countP (fun p => decide (p < at_))

/-- `Leaf::insert_newline_indices`. -/
def Leaf.insert_newline_indices (l : Leaf) (at_ : Nat) (data : List Nat) : Leaf :=
  if data.isEmpty then l else
  let new_positions : List Nat :=
    data.enum.filterMap (fun p =>
      if p.2 = 10 ∧ at_ + p.1 ≤ 65535 then some (at_ + p.1) else none)
  if new_positions.isEmpty then l else
  let insert_at := l.partition_point_nl at_
  let added := data.length
  { l with nl_idx :=
      l.nl_idx.take insert_at ++ new_positions ++
        (l.nl_idx.drop insert_at).map (· + added) }

/-- `Leaf::remove_newline_indices_in_range`. -/
def Leaf.remove_newline_indices_in_range (l : Leaf) (start end_ : Nat) : Leaf :=
  if start ≥ end_ then l else
  let start_i := l.partition_point_nl start
  let end_i := l.partition_point_nl end_
  let removed := end_ - start
  { l with nl_idx :=
      l.nl_idx.take start_i ++ (l.nl_idx.drop end_i).map (· - removed) }

/-- `Leaf::insert`. -/
def Leaf.insert (l : Leaf) (off : Nat) (data : List Nat) :
    Leaf × Except RBError Nat :=
  if off > l.byte_len then (l, .error .InvalidOffset) else
  if data.isEmpty then (l, .ok 0) else
  let avail := l.gap_size
  if avail = 0 then (l, .error .InsufficientSpace) else
  let to_copy := min avail data.length
  let l1 := l.move_gap_to off
  let gl := l1.gap_lo
  let l2 := { l1 with buf := copySlice l1.buf gl (data.take to_copy),
                      gap_lo := gl + to_copy }
  (l2.insert_newline_indices off (data.take to_copy), .ok to_copy)

/-- `Leaf::delete`. -/
def Leaf.delete (l : Leaf) (off len : Nat) : Leaf × Except RBError Nat :=
  let cur_len := l.byte_len
  if off > cur_len then (l, .error .InvalidOffset) else
  if len = 0 then (l, .ok 0) else
  let end_ := min cur_len (off + len)
  let actual := end_ - off
  if actual = 0 then (l, .ok 0) else
  let l1 := l.move_gap_to off
  let l2 := { l1 with gap_hi := l1.gap_hi + actual }
  (l2.remove_newline_indices_in_range off (off + actual), .ok actual)

/-- `Leaf::read_into`: returns the updated output buffer next to the result. -/
def Leaf.read_into (l : Leaf) (off : Nat) (out : List Nat) :
    List Nat × Except RBError Nat :=
  let cur_len := l.byte_len
  if off > cur_len then (out, .error .InvalidOffset) else
  let want := min out.length (cur_len - off)
  if want = 0 then (out, .ok 0) else
  let gl := l.gap_lo
  let gh := l.gap_hi
  if off < gl then
    let left := min want (gl - off)
    let out1 := writeRange out 0 (readBuf l.buf off left)
    let remain := want - left
    let out2 := if remain > 0 then writeRange out1 left (readBuf l.buf gh remain) else out1
    (out2, .ok want)
  else
    let phys := off + (gh - gl)
    (writeRange out 0 (readBuf l.buf phys want), .ok want)

/-- `rope.rs`: node colours. -/
inductive Color where
  | Red
  | Black
deriving DecidableEq, Repr

/-- `rope.rs`: `struct Node` (the `Payload` enum has a single `Leaf` variant
and is inlined). -/
structure Node where
  key : Nat
  left : Nat
  right : Nat
  parent : Nat
  color : Color
  sub_bytes : Nat
  sub_lines : Nat
  payload : Leaf

/-- `Node::new`. -/
def Node.new (key : Nat) : Node :=
  { key := key, left := NIL, right := NIL, parent := NIL, color := .Red,
    sub_bytes := 0, sub_lines := 0, payload := Leaf.new }

/-- `rope.rs`: `struct Rope` — arena of nodes plus root index. -/
structure Rope where
  root : Nat
  nodes : List Node

/-- `Rope::new`. -/
def Rope.new : Rope := { root := NIL, nodes := [] }

/-- `self.nodes[i]` (reads in reachable states are always in bounds). -/
def getN (r : Rope) (i : Nat) : Node := r.nodes.getD i (Node.new 0)

/-- Write node `i` of the arena. -/
def setN (r : Rope) (i : Nat) (n : Node) : Rope :=
  { r with nodes := r.nodes.set i n }

def setLeft (r : Rope) (i v : Nat) : Rope := setN r i { getN r i with left := v }

def setRight (r : Rope) (i v : Nat) : Rope := setN r i { getN r i with right := v }

def setParent (r : Rope) (i v : Nat) : Rope := setN r i { getN r i with parent := v }

def setColor (r : Rope) (i : Nat) (c : Color) : Rope := setN r i { getN r i with color := c }

def setPayload (r : Rope) (i : Nat) (l : Leaf) : Rope := setN r i { getN r i with payload := l }

/-- `Rope::len`: sums leaf lengths over the whole arena. -/
def Rope.len (r : Rope) : Nat :=
  (r.nodes.map (fun n => n.payload.byte_len)).sum

/-- `Rope::total_lines`: the root's cached `sub_lines`. -/
def Rope.total_lines (r : Rope) : Nat :=
  if r.root = NIL then 0 else (getN r r.root).sub_lines

/-- `Rope::recompute_node_aggregates`. -/
def recompute_node_aggregates (r : Rope) (node_id : Nat) : Rope :=
  if node_id = NIL then r else
  let left := (getN r node_id).left
  let right := (getN r node_id).right
  let left_bytes := if left = NIL then 0 else (getN r left).sub_bytes
  let right_bytes := if right = NIL then 0 else (getN r right).sub_bytes
  let left_lines := if left = NIL then 0 else (getN r left).sub_lines
  let right_lines := if right = NIL then 0 else (getN r right).sub_lines
  let own := (getN r node_id).payload.byte_len
  let own_lines := (getN r node_id).payload.nl_idx.length
  setN r node_id { getN r node_id with
    sub_bytes := left_bytes + own + right_bytes,
    sub_lines := left_lines + own_lines + right_lines }

/-- `Rope::update_ancestors` (fuel dominates the parent-chain length). -/
def update_ancestors : Nat → Rope → Nat → Rope
  | 0, r, _ => r
  | fuel + 1, r, cur =>
    if cur = NIL then r
    else
      let r1 := recompute_node_aggregates r cur
      update_ancestors fuel r1 (getN r1 cur).parent

/-- Fuel used for every loop of the rope: one more than the arena size. -/
def fuelOf (r : Rope) : Nat := r.nodes.length + 1

/-- `Rope::left_rotate`, statement for statement. -/
def left_rotate (r : Rope) (x : Nat) : Rope :=
  let y := (getN r x).right
  let y_left := (getN r y).left
  let x_parent := (getN r x).parent
  let r1 := setRight r x y_left
  let r2 := if y_left ≠ NIL then setParent r1 y_left x else r1
  let r3 := setParent r2 y x_parent
  let r4 :=
    if x = r3.root then { r3 with root := y }
    else if x = (getN r3 x_parent).left then setLeft r3 x_parent y
    else setRight r3 x_parent y
  let r5 := setLeft r4 y x
  let r6 := setParent r5 x y
  let r7 := recompute_node_aggregates r6 x
  let r8 := recompute_node_aggregates r7 y
  update_ancestors (fuelOf r8) r8 (getN r8 y).parent

/-- `Rope::right_rotate`, statement for statement. -/
def right_rotate (r : Rope) (y : Nat) : Rope :=
  let x := (getN r y).left
  let x_right := (getN r x).right
  let y_parent := (getN r y).parent
  let r1 := setLeft r y x_right
  let r2 := if x_right ≠ NIL then setParent r1 x_right y else r1
  let r3 := setParent r2 x y_parent
  let r4 :=
    if y = r3.root then { r3 with root := x }
    else if y = (getN r3 y_parent).right then setRight r3 y_parent x
    else setLeft r3 y_parent x
  let r5 := setRight r4 x y
  let r6 := setParent r5 y x
  let r7 := recompute_node_aggregates r6 y
  let r8 := recompute_node_aggregates r7 x
  update_ancestors (fuelOf r8) r8 (getN r8 x).parent

/-- The descent loop of `Rope::insert_with_id` (`while cur != NIL`); returns
the final `(parent, is_left)`. -/
def descend : Nat → Rope → Nat → Nat → Nat → Bool → Nat × Bool
  | 0, _, _, _, parent, is_left => (parent, is_left)
  | fuel + 1, r, key, cur, parent, is_left =>
    if cur = NIL then (parent, is_left)
    else if key < (getN r cur).key then descend fuel r key (getN r cur).left cur true
    else descend fuel r key (getN r cur).right cur false

/-- One iteration body of `Rope::insert_fixup`'s `while` loop, returning the
state and the moved `n`; `none` when the loop guard fails. -/
def insert_fixup_loop : Nat → Rope → Nat → Rope × Nat
  | 0, r, n => (r, n)
  | fuel + 1, r, n =>
    if n ≠ r.root ∧ (getN r (getN r n).parent).color = .Red then
      let p := (getN r n).parent
      let g := (getN r p).parent
      if p = (getN r g).left then
        let u := (getN r g).right
        if u ≠ NIL ∧ (getN r u).color = .Red then
          let r1 := setColor r p .Black
          let r2 := setColor r1 u .Black
          let r3 := setColor r2 g .Red
          insert_fixup_loop fuel r3 g
        else
          let step : Rope × Nat :=
            if n = (getN r p).right then (left_rotate r p, p) else (r, n)
          let r1 := step.1
          let n1 := step.2
          let p2 := (getN r1 n1).parent
          let g2 := (getN r1 p2).parent
          let r2 := setColor r1 p2 .Black
          let r3 := setColor r2 g2 .Red
          insert_fixup_loop fuel (right_rotate r3 g2) n1
      else
        let u := (getN r g).left
        if u ≠ NIL ∧ (getN r u).color = .Red then
          let r1 := setColor r p .Black
          let r2 := setColor r1 u .Black
          let r3 := setColor r2 g .Red
          insert_fixup_loop fuel r3 g
        else
          let step : Rope × Nat :=
            if n = (getN r p).left then (right_rotate r p, p) else (r, n)
          let r1 := step.1
          let n1 := step.2
          let p2 := (getN r1 n1).parent
          let g2 := (getN r1 p2).parent
          let r2 := setColor r1 p2 .Black
          let r3 := setColor r2 g2 .Red
          insert_fixup_loop fuel (left_rotate r3 g2) n1
    else (r, n)

/-- `Rope::insert_fixup`. -/
def insert_fixup (r : Rope) (n : Nat) : Rope :=
  let res := insert_fixup_loop (fuelOf r) r n
  let r1 := res.1
  let r2 := setColor r1 r1.root .Black
  update_ancestors (fuelOf r2) r2 res.2

/-- `Rope::insert_with_id`. -/
def insert_with_id (r : Rope) (key : Nat) : Rope × Except RBError Nat :=
  let new_id := r.nodes.length
  if new_id = NIL then (r, .error .TreeFull) else
  let r1 : Rope := { r with nodes := r.nodes ++ [Node.new key] }
  if r1.root = NIL then
    let r2 := setColor { r1 with root := new_id } new_id .Black
    (r2, .ok new_id)
  else
    let pl := descend (fuelOf r1) r1 key r1.root NIL false
    let r2 := setParent r1 new_id pl.1
    let r3 := if pl.2 then setLeft r2 pl.1 new_id else setRight r2 pl.1 new_id
    (insert_fixup r3 new_id, .ok new_id)

/-- `Rope::min_node` (fuel dominates the left-spine length). -/
def min_node : Nat → Rope → Nat → Nat
  | 0, _, n => n
  | fuel + 1, r, n =>
    if n = NIL then NIL
    else if (getN r n).left ≠ NIL then min_node fuel r (getN r n).left
    else n

/-- The climbing loop of `Rope::successor` (`while p != NIL && n == right(p)`). -/
def succ_up : Nat → Rope → Nat → Nat → Nat
  | 0, _, _, p => p
  | fuel + 1, r, n, p =>
    if p ≠ NIL ∧ n = (getN r p).right then succ_up fuel r p (getN r p).parent else p

/-- `Rope::successor`. -/
def successor (r : Rope) (n : Nat) : Nat :=
  if n = NIL then NIL else
  let rt := (getN r n).right
  if rt ≠ NIL then min_node (fuelOf r) r rt
  else succ_up (fuelOf r) r n (getN r n).parent

/-- The leaf-walking loop of `Rope::read_bytes_global`. -/
def read_loop : Nat → Rope → Nat → List Nat → Nat → Nat → List Nat × Except RBError Nat
  | 0, _, _, out, written, _ => (out, .ok written)
  | fuel + 1, r, cur, out, written, skip =>
    if cur ≠ NIL ∧ written < out.length then
      let l := (getN r cur).payload
      let ll := l.byte_len
      if skip ≥ ll then read_loop fuel r (successor r cur) out written (skip - ll)
      else
        let want := min (out.length - written) (ll - skip)
        let res := l.read_into skip ((out.drop written).take want)
        match res.2 with
        | .error e => (out, .error e)
        | .ok w =>
          let out1 := out.take written ++ res.1 ++ out.drop (written + want)
          read_loop fuel r (successor r cur) out1 (written + w) 0
    else (out, .ok written)

/-- `Rope::read_bytes_global`. -/
def read_bytes_global (r : Rope) (off : Nat) (out : List Nat) :
    List Nat × Except RBError Nat :=
  read_loop (fuelOf r) r (min_node (fuelOf r) r r.root) out 0 off

/-- The collection loop of `Rope::find_first` (returns `none` when a
`read_into` fails, mirroring `.ok()?`). -/
def collect_loop : Nat → Rope → Nat → List Nat → Option (List Nat)
  | 0, _, _, all => some all
  | fuel + 1, r, cur, all =>
    if cur = NIL then some all else
    let l := (getN r cur).payload
    let tmp : List Nat := List.replicate l.byte_len 0
    let res := l.read_into 0 tmp
    match res.2 with
    | .error _ => none
    | .ok w =>
      let all1 := if w = tmp.length then all ++ res.1 else all
      collect_loop fuel r (successor r cur) all1

/-- The scanning loop of `Rope::find_first` (`while i <= last`). -/
def find_sub (all needle : List Nat) : Option Nat :=
  let last := all.length - needle.length
  (List.range (last + 1)).find? (fun i => decide ((all.drop i).take needle.length = needle))

/-- `Rope::find_first`. -/
def find_first (r : Rope) (needle : List Nat) : Option Nat :=
  if needle.isEmpty then some 0 else
  match collect_loop (fuelOf r) r (min_node (fuelOf r) r r.root) [] with
  | none => none
  | some all =>
    if all.length < needle.length then none else
    find_sub all needle

/-- Outcome of a rope mutation: either a new state with a `Result`, or the
`todo!()` panic in `restructure_leaf_for_replacement`. -/
inductive RopeStep where
  | ok (r : Rope) (res : Except RBError Nat)
  | panic

/-- The leaf-walking loop of `Rope::replace_first`.  The branch where the
replacement does not fit the leaf reaches the `todo!()` of
`restructure_leaf_for_replacement` and is modelled as `RopeStep.panic`. -/
def replace_loop (needle replacement : List Nat) :
    Nat → Rope → Nat → Nat → RopeStep
  | 0, r, _, _ => .ok r (.ok 0)
  | fuel + 1, r, global_off, cur =>
    if cur = NIL then .ok r (.ok 0) else
    let l := (getN r cur).payload
    let ll := l.byte_len
    if global_off ≥ ll then
      replace_loop needle replacement fuel r (global_off - ll) (successor r cur)
    else
      let available := LEAF_CAPACITY - ll
      if replacement.length ≤ available then
        let dres := l.delete global_off needle.length
        match dres.2 with
        | .error e => .ok (setPayload r cur dres.1) (.error e)
        | .ok del =>
          let r1 := setPayload r cur dres.1
          if del ≠ needle.length then .ok r1 (.ok 0)
          else
            let ires := dres.1.insert global_off replacement
            match ires.2 with
            | .error e => .ok (setPayload r1 cur ires.1) (.error e)
            | .ok ins =>
              let r2 := setPayload r1 cur ires.1
              if ins ≠ replacement.length then .ok r2 (.ok 0)
              else .ok (update_ancestors (fuelOf r2) r2 cur) (.ok replacement.length)
      else .panic

/-- `Rope::replace_first`. -/
def replace_first (r : Rope) (needle replacement : List Nat) : RopeStep :=
  if needle.isEmpty then .ok r (.ok 0) else
  match find_first r needle with
  | none => .ok r (.ok 0)
  | some global_off =>
    replace_loop needle replacement (fuelOf r) r global_off
      (min_node (fuelOf r) r r.root)

/-- `u64::saturating_add(1)` on the build key counter. -/
def satAdd1 (k : Nat) : Nat := min (k + 1) NIL

/-- The chunking loop of `Rope::build_from_bytes`. -/
def build_loop (data : List Nat) :
    Nat → Rope → Nat → Nat → Rope × Except RBError Nat
  | 0, r, inserted_total, _ => (r, .ok inserted_total)
  | fuel + 1, r, inserted_total, key =>
    if inserted_total < data.length then
      let remaining := data.length - inserted_total
      let take := if remaining > LEAF_USABLE then LEAF_USABLE else remaining
      let ins := insert_with_id r key
      match ins.2 with
      | .error e => (ins.1, .error e)
      | .ok new_id =>
        let r1 := ins.1
        let key1 := satAdd1 key
        let leaf := (getN r1 new_id).payload
        let lres := leaf.insert 0 ((data.drop inserted_total).take take)
        match lres.2 with
        | .error e => (setPayload r1 new_id lres.1, .error e)
        | .ok wrote =>
          let r2 := setPayload r1 new_id lres.1
          let r3 := update_ancestors (fuelOf r2) r2 new_id
          build_loop data fuel r3 (inserted_total + wrote) key1
    else (r, .ok inserted_total)

/-- `Rope::build_from_bytes`: clears the tree, then fills it chunk by chunk. -/
def build_from_bytes (_r : Rope) (data : List Nat) : Rope × Except RBError Nat :=
  build_loop data (data.length + 1) Rope.new 0 0

/-! ## `niv_fs`: encodings, EOL handling, load and save pipelines -/

/-- `niv_fs`: the `Encoding` enum. -/
inductive Encoding where
  | Utf8
  | Utf16Le
  | Utf16Be
  | Utf32Le
  | Utf32Be
  | Latin1
  | Windows1252
  | Latin9
  | Unknown
deriving DecidableEq, Repr

/-- `niv_fs`: the `EolType` enum. -/
inductive EolType where
  | Lf
  | Crlf
  | Cr
  | Mixed
deriving DecidableEq, Repr

/-- `niv_fs`: the `EncodingError` enum; the `Io` payload (an OS error) is
irrelevant to the verified properties and dropped. -/
inductive EncodingError where
  | Io
  | BinaryFile
  | FileTooLarge
deriving DecidableEq, Repr

/-- `niv_fs`: `DetectionConfidence`. -/
inductive DetectionConfidence where
  | High
  | Medium
  | Low
  | Unknown
deriving DecidableEq, Repr

/-- `niv_fs`: `EncodingDetectionResult`. -/
structure EncodingDetectionResult where
  encoding : Encoding
  confidence : DetectionConfidence
deriving DecidableEq, Repr

/-- `niv_fs`: `BomDetectionResult`. -/
structure BomDetectionResult where
  encoding : Encoding
  bom_length : Nat
deriving DecidableEq, Repr

/-- `eol.rs`: the counting pass of `detect_eol`; returns
`(lf_count, crlf_count, cr_count)`.  A `\r` followed by `\n` consumes both
bytes, exactly as the source's index loop does. -/
def eolCounts : List Nat → Nat × Nat × Nat
  | [] => (0, 0, 0)
  | b :: rest =>
    if b = 13 then
      match rest with
      | r2 :: rest2 =>
        if r2 = 10 then let c := eolCounts rest2; (c.1, c.2.1 + 1, c.2.2)
        else let c := eolCounts (r2 :: rest2); (c.1, c.2.1, c.2.2 + 1)
      | [] => (0, 0, 1)
    else if b = 10 then let c := eolCounts rest; (c.1 + 1, c.2.1, c.2.2)
    else eolCounts rest

/-- `eol.rs`: `detect_eol`. -/
def detect_eol (bytes : List Nat) : EolType :=
  let c := eolCounts bytes
  let lf_count := c.1
  let crlf_count := c.2.1
  let cr_count := c.2.2
  if lf_count + crlf_count + cr_count = 0 then .Lf
  else if crlf_count ≥ lf_count ∧ crlf_count ≥ cr_count then .Crlf
  else if lf_count ≥ cr_count then .Lf
  else .Cr

/-- `eol.rs`: the rewriting pass of `normalize_eol`. -/
def normalizeBytes : List Nat → List Nat
  | [] => []
  | b :: rest =>
    if b = 13 then
      match rest with
      | r2 :: rest2 =>
        if r2 = 10 then 10 :: normalizeBytes rest2
        else 10 :: normalizeBytes (r2 :: rest2)
      | [] => [10]
    else if b = 10 then 10 :: normalizeBytes rest
    else b :: normalizeBytes rest

/-- `eol.rs`: `normalize_eol`. -/
def normalize_eol (bytes : List Nat) : List Nat × EolType :=
  let original_eol := detect_eol bytes
  if original_eol = .Lf ∨ original_eol = .Mixed then (bytes, original_eol)
  else (normalizeBytes bytes, original_eol)

/-- `eol.rs`: the rewriting pass of `restore_eol`. -/
def restoreBytes (original_eol : EolType) : List Nat → List Nat
  | [] => []
  | b :: rest =>
    (if b = 10 then
      match original_eol with
      | .Crlf => [13, 10]
      | .Cr => [13]
      | .Lf => [10]
      | .Mixed => [10]
    else [b]) ++ restoreBytes original_eol rest

/-- `eol.rs`: `restore_eol`. -/
def restore_eol (normalized_bytes : List Nat) (original_eol : EolType) : List Nat :=
  if original_eol = .Lf ∨ original_eol = .Mixed then normalized_bytes
  else restoreBytes original_eol normalized_bytes

/-- `bom.rs`: `detect_bom`. -/
def detect_bom (bytes : List Nat) : BomDetectionResult :=
  if bytes.length < 2 then { encoding := .Unknown, bom_length := 0 } else
  if bytes.length ≥ 4 ∧ bytes.getD 0 0 = 0xFF ∧ bytes.getD 1 0 = 0xFE ∧
      bytes.getD 2 0 = 0x00 ∧ bytes.getD 3 0 = 0x00 then
    { encoding := .Utf32Le, bom_length := 4 }
  else if bytes.length ≥ 4 ∧ bytes.getD 0 0 = 0x00 ∧ bytes.getD 1 0 = 0x00 ∧
      bytes.getD 2 0 = 0xFE ∧ bytes.getD 3 0 = 0xFF then
    { encoding := .Utf32Be, bom_length := 4 }
  else if bytes.getD 0 0 = 0xFF ∧ bytes.getD 1 0 = 0xFE then
    { encoding := .Utf16Le, bom_length := 2 }
  else if bytes.getD 0 0 = 0xFE ∧ bytes.getD 1 0 = 0xFF then
    { encoding := .Utf16Be, bom_length := 2 }
  else if bytes.length ≥ 3 ∧ bytes.getD 0 0 = 0xEF ∧ bytes.getD 1 0 = 0xBB ∧
      bytes.getD 2 0 = 0xBF then
    { encoding := .Utf8, bom_length := 3 }
  else { encoding := .Unknown, bom_length := 0 }

/-- `encoding/utf8.rs`: `is_valid_utf8` — the repository's own (lenient)
validator, which checks lead-byte shapes and continuation masks only. -/
def is_valid_utf8 : List Nat → Bool
  | [] => true
  | b :: rest =>
    if b < 0x80 then is_valid_utf8 rest
    else if b &&& 0xE0 = 0xC0 then
      match rest with
      | b1 :: rest1 => if b1 &&& 0xC0 = 0x80 then is_valid_utf8 rest1 else false
      | [] => false
    else if b &&& 0xF0 = 0xE0 then
      match rest with
      | b1 :: b2 :: rest2 =>
        if b1 &&& 0xC0 = 0x80 ∧ b2 &&& 0xC0 = 0x80 then is_valid_utf8 rest2 else false
      | _ => false
    else if b &&& 0xF8 = 0xF0 then
      match rest with
      | b1 :: b2 :: b3 :: rest3 =>
        if b1 &&& 0xC0 = 0x80 ∧ b2 &&& 0xC0 = 0x80 ∧ b3 &&& 0xC0 = 0x80 then
          is_valid_utf8 rest3
        else false
      | _ => false
    else false

/-- `encoding/utf16.rs`: `detect_utf16_pattern`.  The `f64` ratios are
modelled as exact rationals. -/
def detect_utf16_pattern (bytes : List Nat) : Option Encoding :=
  if bytes.length < 32 then none else
  let even_null := bytes.enum.countP (fun p => decide (p.1 % 2 = 0 ∧ p.2 = 0))
  let odd_null := bytes.enum.countP (fun p => decide (p.1 % 2 = 1 ∧ p.2 = 0))
  let even_ascii := bytes.enum.countP (fun p => decide (p.1 % 2 = 0 ∧ 32 ≤ p.2 ∧ p.2 ≤ 126))
  let odd_ascii := bytes.enum.countP (fun p => decide (p.1 % 2 = 1 ∧ 32 ≤ p.2 ∧ p.2 ≤ 126))
  let half := bytes.length / 2
  if mkRat even_null half > mkRat 17 20 ∧ mkRat odd_ascii half > mkRat 2 5 then
    some .Utf16Le
  else if mkRat odd_null half > mkRat 17 20 ∧ mkRat even_ascii half > mkRat 2 5 then
    some .Utf16Be
  else none

/-- `encoding/latin.rs`: `detect_latin_encoding` (exact-rational ratios). -/
def detect_latin_encoding (bytes : List Nat) : Option EncodingDetectionResult :=
  if bytes.length < 10 then none else
  let extended := bytes.countP (fun b => decide (b ≥ 0x80))
  let win1252_specific := bytes.countP (fun b => decide (0x80 ≤ b ∧ b ≤ 0x9F))
  let latin9_specific := bytes.countP (fun b =>
    decide (b = 0xA4 ∨ b = 0xA6 ∨ b = 0xA8 ∨ b = 0xB4 ∨ b = 0xB8 ∨ b = 0xBC ∨
      b = 0xBD ∨ b = 0xBE))
  if mkRat extended bytes.length < mkRat 2 25 then none
  else if win1252_specific > 2 then
    some { encoding := .Windows1252, confidence := .Medium }
  else if latin9_specific > extended / 10 then
    some { encoding := .Latin9, confidence := .Low }
  else some { encoding := .Latin1, confidence := .Low }

/-- `encoding/mod.rs`: `DetectionConfig` (ratios as exact rationals). -/
structure DetectionConfig where
  max_null_ratio : ℚ
  max_control_ratio : ℚ
  sample_size : Nat

/-- `DetectionConfig::default()`: thresholds 0.1 and 0.3, 1024-byte sample. -/
def DetectionConfig.default : DetectionConfig :=
  { max_null_ratio := mkRat 1 10, max_control_ratio := mkRat 3 10, sample_size := 1024 }

/-- `encoding/mod.rs`: `detect_encoding_heuristic`. -/
def detect_encoding_heuristic (bytes : List Nat) (config : DetectionConfig) :
    Except EncodingError Encoding :=
  let sample := if bytes.length > config.sample_size then bytes.take config.sample_size else bytes
  if sample.isEmpty then .ok .Utf8 else
  let null_count := sample.countP (fun b => decide (b = 0))
  let control_count := sample.countP (fun b => decide (b < 32 ∧ b ≠ 9 ∧ b ≠ 10 ∧ b ≠ 13))
  if mkRat null_count sample.length > config.max_null_ratio ∨
      mkRat control_count sample.length > config.max_control_ratio then
    .error .BinaryFile
  else
    match (if sample.length ≥ 32 then detect_utf16_pattern sample else none) with
    | some enc => .ok enc
    | none =>
      if is_valid_utf8 sample then .ok .Utf8
      else
        match detect_latin_encoding sample with
        | some lat => .ok lat.encoding
        | none => .ok .Utf8

/-- `load.rs`: `is_binary_content` (exact-rational ratios). -/
def is_binary_content (sample : List Nat) : Bool :=
  if sample.length < 512 then false else
  let null_count := sample.countP (fun b => decide (b = 0))
  let control_count := sample.countP (fun b => decide (b < 32 ∧ b ≠ 9 ∧ b ≠ 10 ∧ b ≠ 13))
  decide (mkRat null_count sample.length > mkRat 1 10 ∨
    mkRat control_count sample.length > mkRat 3 10)

/-- The scanning loop of `load.rs`'s `has_extremely_long_lines`, carrying
`current_line_length` and `max_found_length`. -/
def longLineLoop (max_line_length : Nat) : List Nat → Nat → Nat → Bool
  | [], _, max_found => decide (max_found > max_line_length)
  | b :: rest, cur, max_found =>
    if b = 10 ∨ b = 13 then longLineLoop max_line_length rest 0 (max max_found cur)
    else if cur + 1 > max_line_length then true
    else longLineLoop max_line_length rest (cur + 1) max_found

/-- `load.rs`: `has_extremely_long_lines`. -/
def has_extremely_long_lines (sample : List Nat) (max_line_length : Nat) : Bool :=
  longLineLoop max_line_length sample 0 0

/-- `load.rs`: `FileLoadConfig` (the identity sub-config is pure I/O and is
not modelled). -/
structure FileLoadConfig where
  chunk_size : Nat
  max_line_length : Nat
  use_mmap : Bool
  encoding_config : DetectionConfig

/-- `FileLoadConfig::default()`: 8 MiB chunks, 1 MiB line limit. -/
def FileLoadConfig.default : FileLoadConfig :=
  { chunk_size := 8 * 1024 * 1024, max_line_length := 1024 * 1024,
    use_mmap := true, encoding_config := DetectionConfig.default }

/-! ### Unicode codecs

The load/save paths call into `std` (`str::from_utf8`, `String::from_utf16`,
`char::from_u32`, `str::encode_utf16`, `String::as_bytes`).  These are
modelled here by their documented semantics: strings are lists of Unicode
scalar values, strict UTF-8/UTF-16 decoding rejects exactly the ill-formed
inputs. -/

/-- Strict UTF-8 decoding of a byte list to scalar values (models
`std::str::from_utf8`): rejects overlong forms, surrogates and values above
`0x10FFFF`. -/
def utf8Decode : List Nat → Option (List Nat)
  | [] => some []
  | b :: rest =>
    if b < 0x80 then (utf8Decode rest).map (b :: ·)
    else if 0xC2 ≤ b ∧ b ≤ 0xDF then
      match rest with
      | b1 :: rest1 =>
        if 0x80 ≤ b1 ∧ b1 ≤ 0xBF then
          (utf8Decode rest1).map (((b - 0xC0) * 64 + (b1 - 0x80)) :: ·)
        else none
      | [] => none
    else if 0xE0 ≤ b ∧ b ≤ 0xEF then
      match rest with
      | b1 :: b2 :: rest2 =>
        let lo1 := if b = 0xE0 then 0xA0 else 0x80
        let hi1 := if b = 0xED then 0x9F else 0xBF
        if (lo1 ≤ b1 ∧ b1 ≤ hi1) ∧ (0x80 ≤ b2 ∧ b2 ≤ 0xBF) then
          (utf8Decode rest2).map
            (((b - 0xE0) * 4096 + (b1 - 0x80) * 64 + (b2 - 0x80)) :: ·)
        else none
      | _ => none
    else if 0xF0 ≤ b ∧ b ≤ 0xF4 then
      match rest with
      | b1 :: b2 :: b3 :: rest3 =>
        let lo1 := if b = 0xF0 then 0x90 else 0x80
        let hi1 := if b = 0xF4 then 0x8F else 0xBF
        if (lo1 ≤ b1 ∧ b1 ≤ hi1) ∧ (0x80 ≤ b2 ∧ b2 ≤ 0xBF) ∧ (0x80 ≤ b3 ∧ b3 ≤ 0xBF) then
          (utf8Decode rest3).map
            (((b - 0xF0) * 262144 + (b1 - 0x80) * 4096 + (b2 - 0x80) * 64 + (b3 - 0x80)) :: ·)
        else none
      | _ => none
    else none

/-- UTF-8 encoding of one scalar value (models `char::encode_utf8`). -/
def utf8EncodeChar (c : Nat) : List Nat :=
  if c < 0x80 then [c]
  else if c < 0x800 then [0xC0 + c / 64, 0x80 + c % 64]
  else if c < 0x10000 then [0xE0 + c / 4096, 0x80 + (c / 64) % 64, 0x80 + c % 64]
  else [0xF0 + c / 262144, 0x80 + (c / 4096) % 64, 0x80 + (c / 64) % 64, 0x80 + c % 64]

/-- `String::as_bytes`: UTF-8 encode a list of scalar values. -/
def strToBytes (s : List Nat) : List Nat := (s.map utf8EncodeChar).flatten

/-- `String::from_utf8_lossy` (models the call in `load_file_with_config`;
every byte list reaching it there is valid UTF-8, so the replacement path is
never taken and left unmodelled). -/
def from_utf8_lossy (bytes : List Nat) : List Nat := (utf8Decode bytes).getD []

/-- Strict UTF-16 decoding of code units to scalar values (models
`String::from_utf16`). -/
def utf16Decode : List Nat → Option (List Nat)
  | [] => some []
  | u :: rest =>
    if u < 0xD800 ∨ 0xE000 ≤ u then (utf16Decode rest).map (u :: ·)
    else if u ≤ 0xDBFF then
      match rest with
      | u2 :: rest2 =>
        if 0xDC00 ≤ u2 ∧ u2 ≤ 0xDFFF then
          (utf16Decode rest2).map
            ((0x10000 + (u - 0xD800) * 1024 + (u2 - 0xDC00)) :: ·)
        else none
      | [] => none
    else none

/-- `str::encode_utf16` for one scalar value. -/
def utf16EncodeChar (c : Nat) : List Nat :=
  if c < 0x10000 then [c]
  else [0xD800 + (c - 0x10000) / 1024, 0xDC00 + (c - 0x10000) % 1024]

/-- `char::from_u32` validity: below `0x110000` and not a surrogate. -/
def validScalar (c : Nat) : Bool :=
  decide (c < 0x110000 ∧ ¬(0xD800 ≤ c ∧ c ≤ 0xDFFF))

/-- Group a byte list into 16-bit little-endian units (the `u16` view taken
by `decode_utf16le`). -/
def bytesToU16le : List Nat → List Nat
  | a :: b :: rest => (a + 256 * b) :: bytesToU16le rest
  | _ => []

/-- Group a byte list into 16-bit big-endian units (`decode_utf16be`). -/
def bytesToU16be : List Nat → List Nat
  | a :: b :: rest => (256 * a + b) :: bytesToU16be rest
  | _ => []

/-- Group a byte list into 32-bit little-endian units (`decode_utf32le`). -/
def bytesToU32le : List Nat → List Nat
  | a :: b :: c :: d :: rest =>
    (a + 256 * b + 65536 * c + 16777216 * d) :: bytesToU32le rest
  | _ => []

/-- Group a byte list into 32-bit big-endian units (`decode_utf32be`). -/
def bytesToU32be : List Nat → List Nat
  | a :: b :: c :: d :: rest =>
    (16777216 * a + 65536 * b + 256 * c + d) :: bytesToU32be rest
  | _ => []

/-- `load.rs`: `decode_utf16le`. -/
def decode_utf16le (bytes : List Nat) : Except EncodingError (List Nat) :=
  if bytes.length % 2 ≠ 0 then .error .BinaryFile else
  match utf16Decode (bytesToU16le bytes) with
  | some s => .ok s
  | none => .error .BinaryFile

/-- `load.rs`: `decode_utf16be`. -/
def decode_utf16be (bytes : List Nat) : Except EncodingError (List Nat) :=
  if bytes.length % 2 ≠ 0 then .error .BinaryFile else
  match utf16Decode (bytesToU16be bytes) with
  | some s => .ok s
  | none => .error .BinaryFile

/-- `load.rs`: `decode_utf32le`. -/
def decode_utf32le (bytes : List Nat) : Except EncodingError (List Nat) :=
  if bytes.length % 4 ≠ 0 then .error .BinaryFile else
  let codes := bytesToU32le bytes
  if codes.all validScalar then .ok codes else .error .BinaryFile

/-- `load.rs`: `decode_utf32be`. -/
def decode_utf32be (bytes : List Nat) : Except EncodingError (List Nat) :=
  if bytes.length % 4 ≠ 0 then .error .BinaryFile else
  let codes := bytesToU32be bytes
  if codes.all validScalar then .ok codes else .error .BinaryFile

/-- `load.rs`: `latin1_to_char` (byte-to-scalar identity, written with the
source's case split). -/
def latin1_to_char (b : Nat) : Nat :=
  if b < 0x80 then b
  else if b ≤ 0x9F then 0x0080 + b - 0x80
  else 0x00A0 + (b - 0xA0)

/-- `load.rs`: `windows1252_to_char`.  Note the source genuinely maps both
`0x93` and `0x94` to the ASCII quote `0x22`. -/
def windows1252_to_char (b : Nat) : Nat :=
  if b < 0x80 then b
  else if b = 0x80 then 0x20AC
  else if b = 0x82 then 0x201A
  else if b = 0x83 then 0x0192
  else if b = 0x84 then 0x201E
  else if b = 0x85 then 0x2026
  else if b = 0x86 then 0x2020
  else if b = 0x87 then 0x2021
  else if b = 0x88 then 0x02C6
  else if b = 0x89 then 0x2030
  else if b = 0x8A then 0x0160
  else if b = 0x8B then 0x2039
  else if b = 0x8C then 0x0152
  else if b = 0x8E then 0x017D
  else if b = 0x91 then 0x2018
  else if b = 0x92 then 0x2019
  else if b = 0x93 then 0x22
  else if b = 0x94 then 0x22
  else if b = 0x95 then 0x2022
  else if b = 0x96 then 0x2013
  else if b = 0x97 then 0x2014
  else if b = 0x98 then 0x02DC
  else if b = 0x99 then 0x2122
  else if b = 0x9A then 0x0161
  else if b = 0x9B then 0x203A
  else if b = 0x9C then 0x0153
  else if b = 0x9E then 0x017E
  else if b = 0x9F then 0x0178
  else if b = 0x81 ∨ b = 0x8D ∨ b = 0x8F ∨ b = 0x90 ∨ b = 0x9D then b
  else latin1_to_char b

/-- `load.rs`: `latin9_to_char`. -/
def latin9_to_char (b : Nat) : Nat :=
  if b = 0xA4 then 0x20AC
  else if b = 0xA6 then 0x0160
  else if b = 0xA8 then 0x0161
  else if b = 0xB4 then 0x017D
  else if b = 0xB8 then 0x017E
  else if b = 0xBC then 0x0152
  else if b = 0xBD then 0x0153
  else if b = 0xBE then 0x0178
  else latin1_to_char b

/-- `load.rs`: `decode_latin`. -/
def decode_latin (bytes : List Nat) (encoding : Encoding) : List Nat :=
  bytes.map (fun b =>
    match encoding with
    | .Latin1 => latin1_to_char b
    | .Windows1252 => windows1252_to_char b
    | .Latin9 => latin9_to_char b
    | _ => b)

/-- The decoding dispatch of `load_file_with_config` (its `match encoding`). -/
def decode_content (raw_content : List Nat) (encoding : Encoding) :
    Except EncodingError (List Nat) :=
  match encoding with
  | .Utf8 =>
    match utf8Decode raw_content with
    | some s => .ok s
    | none => .error .BinaryFile
  | .Utf16Le => decode_utf16le raw_content
  | .Utf16Be => decode_utf16be raw_content
  | .Utf32Le => decode_utf32le raw_content
  | .Utf32Be => decode_utf32be raw_content
  | .Latin1 => .ok (decode_latin raw_content .Latin1)
  | .Windows1252 => .ok (decode_latin raw_content .Windows1252)
  | .Latin9 => .ok (decode_latin raw_content .Latin9)
  | .Unknown => .error .BinaryFile

/-- `load.rs`: `FileLoadResult`, restricted to the fields the verified
properties consult (`content` as a list of scalar values; identity and
warnings are I/O artefacts). -/
structure FileLoadResult where
  content : List Nat
  original_encoding : Encoding
  original_eol : EolType
  read_only : Bool
deriving DecidableEq, Repr

/-- `load.rs`: the pure content pipeline of `load_file_with_config`.  File
I/O is abstracted by handing the function the file's bytes: the identity
capture is dropped, `identity.size` is the byte count, the initial
`file.read` yields the first `sample_size` bytes, and the streaming read
yields the full byte list. -/
def load_file_pure (data : List Nat) (config : FileLoadConfig) :
    Except EncodingError FileLoadResult :=
  if data.length > 100 * 1024 * 1024 then
    .ok { content := [], original_encoding := .Unknown, original_eol := .Lf, read_only := true }
  else
  let sample := data.take config.encoding_config.sample_size
  if sample.length = 0 then
    .ok { content := [], original_encoding := .Utf8, original_eol := .Lf, read_only := false }
  else
  if is_binary_content sample then
    .ok { content := [], original_encoding := .Unknown, original_eol := .Lf, read_only := true }
  else
  if has_extremely_long_lines sample config.max_line_length then
    .ok { content := [], original_encoding := .Unknown, original_eol := .Lf, read_only := true }
  else
  let bom_result := detect_bom sample
  let enc :=
    if bom_result.encoding ≠ Encoding.Unknown then Except.ok bom_result.encoding
    else detect_encoding_heuristic (sample.drop bom_result.bom_length) config.encoding_config
  match enc with
  | .error e => .error e
  | .ok encoding =>
    let raw_content := data.drop bom_result.bom_length
    match decode_content raw_content encoding with
    | .error e => .error e
    | .ok decoded =>
      let nres := normalize_eol (strToBytes decoded)
      .ok { content := from_utf8_lossy nres.1, original_encoding := encoding,
            original_eol := nres.2, read_only := false }

/-- `save.rs`: `SaveContext`, minus the (pure I/O) file identity. -/
structure SaveContext where
  original_encoding : Encoding
  original_eol : EolType
  original_bom : BomDetectionResult
deriving DecidableEq, Repr

/-- `save.rs`: `SaveContext::from_load_result` — note the BOM length is
reconstructed from the encoding alone. -/
def SaveContext.from_load_result (result : FileLoadResult) : SaveContext :=
  { original_encoding := result.original_encoding,
    original_eol := result.original_eol,
    original_bom :=
      { encoding := result.original_encoding,
        bom_length :=
          match result.original_encoding with
          | .Utf8 => 3
          | .Utf16Le => 2
          | .Utf16Be => 2
          | .Utf32Le => 4
          | .Utf32Be => 4
          | _ => 0 } }

/-- `save.rs`: `char_to_latin1`. -/
def char_to_latin1 (ch : Nat) : Except EncodingError Nat :=
  if ch ≤ 0xFF then .ok ch else .error .BinaryFile

/-- `save.rs`: `char_to_windows1252`.  The packaged source stores the
match-arm literals doubly UTF-8 encoded; the scalar values here are the ones
the arms denote (standard Windows-1252, except the genuine ASCII-quote arm
for `0x93` and the absence of an `0x94` arm). -/
def char_to_windows1252 (ch : Nat) : Except EncodingError Nat :=
  if ch = 0x20AC then .ok 0x80
  else if ch = 0x201A then .ok 0x82
  else if ch = 0x0192 then .ok 0x83
  else if ch = 0x201E then .ok 0x84
  else if ch = 0x2026 then .ok 0x85
  else if ch = 0x2020 then .ok 0x86
  else if ch = 0x2021 then .ok 0x87
  else if ch = 0x02C6 then .ok 0x88
  else if ch = 0x2030 then .ok 0x89
  else if ch = 0x0160 then .ok 0x8A
  else if ch = 0x2039 then .ok 0x8B
  else if ch = 0x0152 then .ok 0x8C
  else if ch = 0x017D then .ok 0x8E
  else if ch = 0x2018 then .ok 0x91
  else if ch = 0x2019 then .ok 0x92
  else if ch = 0x22 then .ok 0x93
  else if ch = 0x2022 then .ok 0x95
  else if ch = 0x2013 then .ok 0x96
  else if ch = 0x2014 then .ok 0x97
  else if ch = 0x02DC then .ok 0x98
  else if ch = 0x2122 then .ok 0x99
  else if ch = 0x0161 then .ok 0x9A
  else if ch = 0x203A then .ok 0x9B
  else if ch = 0x0153 then .ok 0x9C
  else if ch = 0x017E then .ok 0x9E
  else if ch = 0x0178 then .ok 0x9F
  else if ch ≤ 0xFF then .ok ch
  else .error .BinaryFile

/-- `save.rs`: `char_to_latin9`. -/
def char_to_latin9 (ch : Nat) : Except EncodingError Nat :=
  if ch = 0x20AC then .ok 0xA4
  else if ch = 0x0160 then .ok 0xA6
  else if ch = 0x0161 then .ok 0xA8
  else if ch = 0x017D then .ok 0xB4
  else if ch = 0x017E then .ok 0xB8
  else if ch = 0x0152 then .ok 0xBC
  else if ch = 0x0153 then .ok 0xBD
  else if ch = 0x0178 then .ok 0xBE
  else if ch ≤ 0xFF then .ok ch
  else .error .BinaryFile

/-- Map a fallible byte encoder over a char list, stopping at the first
error (the `?` in `encode_latin`'s loop). -/
def mapEncode (f : Nat → Except EncodingError Nat) : List Nat → Except EncodingError (List Nat)
  | [] => .ok []
  | c :: rest =>
    match f c with
    | .error e => .error e
    | .ok b =>
      match mapEncode f rest with
      | .error e => .error e
      | .ok bs => .ok (b :: bs)

/-- `save.rs`: `encode_latin`. -/
def encode_latin (content : List Nat) (encoding : Encoding) :
    Except EncodingError (List Nat) :=
  match utf8Decode content with
  | none => .error .BinaryFile
  | some chars =>
    match encoding with
    | .Latin1 => mapEncode char_to_latin1 chars
    | .Windows1252 => mapEncode char_to_windows1252 chars
    | .Latin9 => mapEncode char_to_latin9 chars
    | _ => .error .BinaryFile

/-- `save.rs`: `encode_utf16le`. -/
def encode_utf16le (content : List Nat) : Except EncodingError (List Nat) :=
  match utf8Decode content with
  | none => .error .BinaryFile
  | some chars =>
    .ok (((chars.map utf16EncodeChar).flatten).map (fun u => [u % 256, u / 256])).flatten

/-- `save.rs`: `encode_utf16be`. -/
def encode_utf16be (content : List Nat) : Except EncodingError (List Nat) :=
  match utf8Decode content with
  | none => .error .BinaryFile
  | some chars =>
    .ok (((chars.map utf16EncodeChar).flatten).map (fun u => [u / 256, u % 256])).flatten

/-- `save.rs`: `encode_utf32le`. -/
def encode_utf32le (content : List Nat) : Except EncodingError (List Nat) :=
  match utf8Decode content with
  | none => .error .BinaryFile
  | some chars =>
    .ok (chars.map (fun c =>
      [c % 256, (c / 256) % 256, (c / 65536) % 256, (c / 16777216) % 256])).flatten

/-- `save.rs`: `encode_utf32be`. -/
def encode_utf32be (content : List Nat) : Except EncodingError (List Nat) :=
  match utf8Decode content with
  | none => .error .BinaryFile
  | some chars =>
    .ok (chars.map (fun c =>
      [(c / 16777216) % 256, (c / 65536) % 256, (c / 256) % 256, c % 256])).flatten

/-- `save.rs`: `transcode_to_encoding`. -/
def transcode_to_encoding (content : List Nat) (encoding : Encoding) :
    Except EncodingError (List Nat) :=
  match encoding with
  | .Utf8 => .ok content
  | .Utf16Le => encode_utf16le content
  | .Utf16Be => encode_utf16be content
  | .Utf32Le => encode_utf32le content
  | .Utf32Be => encode_utf32be content
  | .Latin1 => encode_latin content .Latin1
  | .Windows1252 => encode_latin content .Windows1252
  | .Latin9 => encode_latin content .Latin9
  | .Unknown => .error .BinaryFile

/-- `save.rs`: `get_bom_bytes`. -/
def get_bom_bytes (encoding : Encoding) : List Nat :=
  match encoding with
  | .Utf8 => [0xEF, 0xBB, 0xBF]
  | .Utf16Le => [0xFF, 0xFE]
  | .Utf16Be => [0xFE, 0xFF]
  | .Utf32Le => [0xFF, 0xFE, 0x00, 0x00]
  | .Utf32Be => [0x00, 0x00, 0xFE, 0xFF]
  | _ => []

/-- `save.rs`: `prepare_content_for_save` — the bytes that reach the disk
(`save_atomic`/`save_direct` write them verbatim). -/
def prepare_content_for_save (content : List Nat) (context : SaveContext) :
    Except EncodingError (List Nat) :=
  let content_with_eol := restore_eol content context.original_eol
  match transcode_to_encoding content_with_eol context.original_encoding with
  | .error e => .error e
  | .ok transcoded =>
    .ok (if context.original_bom.bom_length > 0 then
      get_bom_bytes context.original_encoding ++ transcoded
    else transcoded)

/-! ## Observers used by the claim statements -/

deriving instance DecidableEq for Except

/-- The `Result` carried by a completed mutation (`none` for the `todo!()`
panic). -/
def stepRes : RopeStep → Option (Except RBError Nat)
  | .ok _ res => some res
  | .panic => none

/-- The rope state after a completed mutation (a fresh rope for the panic
case, which no verified run reaches). -/
def stepRope : RopeStep → Rope
  | .ok r _ => r
  | .panic => Rope.new

/-! ## Concrete scenarios referenced by the claims -/

/-- Scenario S2: the document `"abc\ndef\n"`. -/
def s2Bytes : List Nat := [97, 98, 99, 10, 100, 101, 102, 10]

def s2Build : Rope × Except RBError Nat := build_from_bytes Rope.new s2Bytes

def s2Step : RopeStep := replace_first s2Build.1 [100, 101, 102] [100, 10, 101, 10, 102]

def s2After : Rope := stepRope s2Step

/-- C2's failing run: build `"a\nb"`, replace `"a"` by `"xx"`, then replace
`"x"` by the empty string. -/
def c2Rope0 : Rope := (build_from_bytes Rope.new [97, 10, 98]).1

def c2Step1 : RopeStep := replace_first c2Rope0 [97] [120, 120]

def c2Step2 : RopeStep := replace_first (stepRope c2Step1) [120] []

def c2Rope2 : Rope := stepRope c2Step2

/-- C5's probe: the document `"abc"`. -/
def c5Rope : Rope := (build_from_bytes Rope.new [97, 98, 99]).1

/-- C6's failing leaf: a fresh leaf holding `"a\n"`. -/
def c6Leaf0 : Leaf := (Leaf.new.insert 0 [97, 10]).1

/-- C6: the same leaf after inserting `"x"` at offset 0. -/
def c6Leaf1 : Leaf := (c6Leaf0.insert 0 [120]).1

/-- C9's witness leaf: a fresh leaf holding `"hi\n"`. -/
def c9Leaf : Leaf := (Leaf.new.insert 0 [104, 105, 10]).1

/-! ## Claim theorems -/

/-- C4: after `build_from_bytes(b"abc\ndef\n")`,
`replace_first(b"def", b"d\ne\nf")` succeeds (returning `Ok(5)`, the
replacement length), and afterwards `len() = 10`, `total_lines() = 4`, and
reading the whole document yields `"abc\nd\ne\nf\n"` with `Ok(10)`. -/
theorem c4_scenario_s2 :
    s2Build.2 = .ok 8 ∧
    stepRes s2Step = some (.ok 5) ∧
    s2After.len = 10 ∧
    s2After.total_lines = 4 ∧
    (read_bytes_global s2After 0 (List.replicate 10 0)).1
      = [97, 98, 99, 10, 100, 10, 101, 10, 102, 10] ∧
    (read_bytes_global s2After 0 (List.replicate 10 0)).2 = .ok 10 := by
  decide

/-- C2, evaluation at the failing input: after `build_from_bytes(b"a\nb")`,
`replace_first(b"a", b"xx")` (returns `Ok(2)`) and `replace_first(b"x", b"")`
(returns `Ok(0)`), the document reads `"x\nb"`, which contains one `0x0A`
byte — yet the root's cached `sub_lines` (hence `total_lines`) is `0`, and
the root leaf's newline index is empty.  The cached newline aggregate does
not equal the sum of the children's aggregates plus the leaf's newline
count, refuting the invariant on this completed mutation sequence. -/
theorem c2_sub_lines_diverges_from_document :
    stepRes c2Step1 = some (.ok 2) ∧
    stepRes c2Step2 = some (.ok 0) ∧
    (read_bytes_global c2Rope2 0 (List.replicate 3 0)).1 = [120, 10, 98] ∧
    ((read_bytes_global c2Rope2 0 (List.replicate 3 0)).1.count 10) = 1 ∧
    c2Rope2.total_lines = 0 ∧
    c2Rope2.root ≠ NIL ∧
    (getN c2Rope2 c2Rope2.root).payload.nl_idx = [] := by
  decide

/-- C5, counterexample: on the document `"abc"` the needle `"bc"` occurs at
byte offset 1, yet `replace_first(b"bc", b"ZW")` returns `Ok(2)` — the
replacement's length wrapped in `Result`, not the offset of the replacement
and not an `Option`. -/
theorem c5_returns_replacement_length_not_offset :
    find_first c5Rope [98, 99] = some 1 ∧
    stepRes (replace_first c5Rope [98, 99] [90, 87]) = some (.ok 2) := by
  decide

/-- Every non-panicking exit of `replace_first`'s leaf walk yields `Ok(0)`,
`Ok(replacement.len())`, or a propagated leaf error — never the match
offset. -/
theorem replace_loop_result (needle replacement : List Nat) :
    ∀ (fuel : Nat) (r : Rope) (go cur : Nat) (rs : Rope)
      (res : Except RBError Nat),
      replace_loop needle replacement fuel r go cur = .ok rs res →
      res = .ok 0 ∨ res = .ok replacement.length ∨ ∃ e, res = .error e
  | 0, r, go, cur, rs, res, h => by
    simp only [replace_loop] at h
    cases h
    exact .inl rfl
  | fuel + 1, r, go, cur, rs, res, h => by
    simp only [replace_loop] at h
    split at h
    · cases h
      exact .inl rfl
    · split at h
      · exact replace_loop_result needle replacement fuel _ _ _ _ _ h
      · split at h
        · split at h
          · cases h
            exact .inr (.inr ⟨_, rfl⟩)
          · split at h
            · cases h
              exact .inl rfl
            · split at h
              · cases h
                exact .inr (.inr ⟨_, rfl⟩)
              · split at h
                · cases h
                  exact .inl rfl
                · cases h
                  exact .inr (.inl rfl)
        · cases h

/-- C5 as amended: for every rope, non-empty needle and replacement,
`replace_first` never reports the match offset — its return type is
`Result<usize, RBError>`, not an `Option`; when the needle does not occur it
returns `Ok(0)` with the rope unchanged; and every non-error return value is
`0` or `replacement.len()`, the latter on the single-leaf replacement path —
exhibited on `"abc"` / `"bc"`, which returns `Ok(2)` although the match
offset is `1`. -/
theorem c5_amended_replace_first_result (r : Rope) (needle replacement : List Nat)
    (h1 : needle ≠ []) :
    (find_first r needle = none →
      replace_first r needle replacement = RopeStep.ok r (.ok 0)) ∧
    (∀ (rs : Rope) (res : Except RBError Nat),
      replace_first r needle replacement = RopeStep.ok rs res →
      res = .ok 0 ∨ res = .ok replacement.length ∨ ∃ e, res = .error e) ∧
    stepRes (replace_first c5Rope [98, 99] [66, 67]) = some (.ok 2) := by
  refine ⟨?_, ?_, by decide⟩
  · intro h2
    unfold replace_first
    rw [if_neg (by simpa using h1), h2]
  · intro rs res h
    unfold replace_first at h
    rw [if_neg (by simpa using h1)] at h
    cases hf : find_first r needle with
    | none =>
      rw [hf] at h
      cases h
      exact .inl rfl
    | some off =>
      rw [hf] at h
      exact replace_loop_result needle replacement _ _ _ _ _ _ h

/-- Witness for `c5_amended_replace_first_result` at the document `"abc"`
with the absent needle `"x"` and the present needle `"bc"`. -/
theorem c5_amended_replace_first_result_witness :
    replace_first c5Rope [120] [121] = RopeStep.ok c5Rope (.ok 0) ∧
    stepRes (replace_first c5Rope [98, 99] [66, 67]) = some (.ok 2) := by
  have h := c5_amended_replace_first_result c5Rope [120] [121] (by decide)
  exact ⟨h.1 (by decide), h.2.2⟩

/-- C6, evaluation at the failing input: a leaf holding `"a\n"` has newline
index `[1]`; inserting the newline-free byte `"x"` at offset 0 succeeds
(`Ok(1)`) and the logical content becomes `"xa\n"` — whose only `0x0A` sits
at logical position 2 — but the newline index still reads `[1]`:
`insert_newline_indices` returns early without shifting existing entries
when the inserted data contains no newline. -/
theorem c6_newline_index_not_shifted :
    (Leaf.new.insert 0 [97, 10]).2 = .ok 2 ∧
    c6Leaf0.nl_idx = [1] ∧
    (c6Leaf0.insert 0 [120]).2 = .ok 1 ∧
    (c6Leaf1.read_into 0 (List.replicate 3 0)).1 = [120, 97, 10] ∧
    c6Leaf1.nl_idx = [1] := by
  decide

/-- C10: under the default configuration (1024-byte detection sample, 1 MiB
line limit) the long-line guard of `load_file` is evaluated on at most the
first 1024 bytes of the file, whose lines can never exceed the 1 MiB limit;
the guard is `false` for every file, so the read-only huge-line branch is
unreachable. -/
theorem c10_long_line_guard_unreachable (data : List Nat) :
    has_extremely_long_lines (data.take DetectionConfig.default.sample_size)
      FileLoadConfig.default.max_line_length = false := by
  have key : ∀ (s : List Nat) (cur mf mll : Nat),
      cur + s.length ≤ mll → mf ≤ mll → longLineLoop mll s cur mf = false := by
    intro s
    induction s with
    | nil =>
      intro cur mf mll h1 h2
      simp [longLineLoop]
      omega
    | cons b rest ih =>
      intro cur mf mll h1 h2
      simp only [List.length_cons] at h1
      unfold longLineLoop
      by_cases hb : b = 10 ∨ b = 13
      · rw [if_pos hb]
        exact ih 0 (max mf cur) mll (by omega) (by omega)
      · rw [if_neg hb, if_neg (by omega)]
        exact ih (cur + 1) mf mll (by omega) h2
  have hlen : (data.take DetectionConfig.default.sample_size).length ≤ 1024 := by
    simp [DetectionConfig.default]
  have h1 : 0 + (data.take DetectionConfig.default.sample_size).length
      ≤ FileLoadConfig.default.max_line_length := by
    simp only [FileLoadConfig.default, DetectionConfig.default]
    simp only [DetectionConfig.default] at hlen
    omega
  exact key _ 0 0 _ h1 (by simp [FileLoadConfig.default])

/-- C9: for every leaf, `delete(logical_len, len)` is a no-op returning 0,
`read_into(logical_len, out)` returns 0, `insert(off, [])` returns 0 for
in-range `off`, and `insert` fails with `InvalidOffset` exactly when the
offset exceeds the logical length. -/
theorem c9_leaf_edge_cases (l : Leaf) (off off2 len : Nat) (data out : List Nat)
    (hoff : off ≤ l.byte_len) :
    l.delete l.byte_len len = (l, .ok 0) ∧
    (l.read_into l.byte_len out).2 = .ok 0 ∧
    l.insert off [] = (l, .ok 0) ∧
    ((l.insert off2 data).2 = .error .InvalidOffset ↔ l.byte_len < off2) := by
  have hng : ¬ (l.byte_len > l.byte_len) := by omega
  refine ⟨?_, ?_, ?_, ?_⟩
  · have h2 : min l.byte_len (l.byte_len + len) - l.byte_len = 0 := by omega
    simp [Leaf.delete, hng, h2]
  · have h2 : l.byte_len - l.byte_len = 0 := by omega
    simp [Leaf.read_into, hng, h2]
  · have h3 : ¬ (off > l.byte_len) := by omega
    simp [Leaf.insert, h3]
  · by_cases h4 : l.byte_len < off2
    · simp [Leaf.insert, h4]
    · simp only [Leaf.insert, gt_iff_lt, h4, if_false]
      split_ifs <;> simp [h4]

/-- Witness for `c9_leaf_edge_cases` on the leaf `"hi\n"` with `off = 1`,
`off2 = 9`, `len = 7`. -/
theorem c9_leaf_edge_cases_witness :
    c9Leaf.delete c9Leaf.byte_len 7 = (c9Leaf, .ok 0) ∧
    (c9Leaf.read_into c9Leaf.byte_len [0, 0]).2 = .ok 0 ∧
    c9Leaf.insert 1 [] = (c9Leaf, .ok 0) ∧
    ((c9Leaf.insert 9 [120]).2 = .error .InvalidOffset ↔ c9Leaf.byte_len < 9) :=
  c9_leaf_edge_cases c9Leaf 1 9 7 [120] [0, 0] (by decide)

/-- The Windows-1252 specials handled by `char_to_windows1252` before its
Latin-1 fallback. -/
def w1252SpecialChars : List Nat :=
  [0x20AC, 0x201A, 0x0192, 0x201E, 0x2026, 0x2020, 0x2021, 0x02C6, 0x2030,
   0x0160, 0x2039, 0x0152, 0x017D, 0x2018, 0x2019, 0x22, 0x2022, 0x2013,
   0x2014, 0x02DC, 0x2122, 0x0161, 0x203A, 0x0153, 0x017E, 0x0178]

/-- The Latin-9 specials handled by `char_to_latin9` before its fallback. -/
def latin9SpecialChars : List Nat :=
  [0x20AC, 0x0160, 0x0161, 0x017D, 0x017E, 0x0152, 0x0153, 0x0178]

theorem char_to_latin1_unrepresentable (c : Nat) (h : 0xFF < c) :
    char_to_latin1 c = .error .BinaryFile := by
  unfold char_to_latin1
  rw [if_neg (by omega)]

theorem char_to_windows1252_unrepresentable (c : Nat) (h : 0xFF < c)
    (h2 : c ∉ w1252SpecialChars) :
    char_to_windows1252 c = .error .BinaryFile := by
  simp only [w1252SpecialChars, List.mem_cons, List.not_mem_nil, or_false, not_or] at h2
  unfold char_to_windows1252
  rw [if_neg (show ¬(c = 8364) by omega)]
  rw [if_neg (show ¬(c = 8218) by omega)]
  rw [if_neg (show ¬(c = 402) by omega)]
  rw [if_neg (show ¬(c = 8222) by omega)]
  rw [if_neg (show ¬(c = 8230) by omega)]
  rw [if_neg (show ¬(c = 8224) by omega)]
  rw [if_neg (show ¬(c = 8225) by omega)]
  rw [if_neg (show ¬(c = 710) by omega)]
  rw [if_neg (show ¬(c = 8240) by omega)]
  rw [if_neg (show ¬(c = 352) by omega)]
  rw [if_neg (show ¬(c = 8249) by omega)]
  rw [if_neg (show ¬(c = 338) by omega)]
  rw [if_neg (show ¬(c = 381) by omega)]
  rw [if_neg (show ¬(c = 8216) by omega)]
  rw [if_neg (show ¬(c = 8217) by omega)]
  rw [if_neg (show ¬(c = 34) by omega)]
  rw [if_neg (show ¬(c = 8226) by omega)]
  rw [if_neg (show ¬(c = 8211) by omega)]
  rw [if_neg (show ¬(c = 8212) by omega)]
  rw [if_neg (show ¬(c = 732) by omega)]
  rw [if_neg (show ¬(c = 8482) by omega)]
  rw [if_neg (show ¬(c = 353) by omega)]
  rw [if_neg (show ¬(c = 8250) by omega)]
  rw [if_neg (show ¬(c = 339) by omega)]
  rw [if_neg (show ¬(c = 382) by omega)]
  rw [if_neg (show ¬(c = 376) by omega)]
  rw [if_neg (show ¬(c ≤ 255) by omega)]

theorem char_to_latin9_unrepresentable (c : Nat) (h : 0xFF < c)
    (h3 : c ∉ latin9SpecialChars) :
    char_to_latin9 c = .error .BinaryFile := by
  simp only [latin9SpecialChars, List.mem_cons, List.not_mem_nil, or_false, not_or] at h3
  unfold char_to_latin9
  rw [if_neg (show ¬(c = 8364) by omega)]
  rw [if_neg (show ¬(c = 352) by omega)]
  rw [if_neg (show ¬(c = 353) by omega)]
  rw [if_neg (show ¬(c = 381) by omega)]
  rw [if_neg (show ¬(c = 382) by omega)]
  rw [if_neg (show ¬(c = 338) by omega)]
  rw [if_neg (show ¬(c = 339) by omega)]
  rw [if_neg (show ¬(c = 376) by omega)]
  rw [if_neg (show ¬(c ≤ 255) by omega)]

/-- Peel one `ok` branch off an if-chain known to evaluate to an error. -/
theorem peelOk (P : Prop) [Decidable P] (a : Nat) (X : Except EncodingError Nat)
    (e : EncodingError)
    (h : (if P then Except.ok a else X) = .error e) : X = .error e := by
  by_cases hp : P
  · rw [if_pos hp] at h
    cases h
  · rwa [if_neg hp] at h

theorem char_to_latin1_error_kinds (c : Nat) (e : EncodingError)
    (h : char_to_latin1 c = .error e) : e = .BinaryFile := by
  unfold char_to_latin1 at h
  replace h := peelOk _ _ _ _ h
  cases h
  rfl

theorem char_to_windows1252_error_kinds (c : Nat) (e : EncodingError)
    (h : char_to_windows1252 c = .error e) : e = .BinaryFile := by
  unfold char_to_windows1252 at h
  iterate 27 replace h := peelOk _ _ _ _ h
  cases h
  rfl

theorem char_to_latin9_error_kinds (c : Nat) (e : EncodingError)
    (h : char_to_latin9 c = .error e) : e = .BinaryFile := by
  unfold char_to_latin9 at h
  iterate 9 replace h := peelOk _ _ _ _ h
  cases h
  rfl

/-- If some character of the list is rejected (necessarily with
`BinaryFile`), `encode_latin`'s per-character loop fails with `BinaryFile`. -/
theorem mapEncode_error_of_mem (f : Nat → Except EncodingError Nat)
    (hAll : ∀ c e, f c = .error e → e = .BinaryFile)
    (chars : List Nat) (c : Nat) (hc : c ∈ chars)
    (hfc : f c = .error .BinaryFile) :
    mapEncode f chars = .error .BinaryFile := by
  induction chars with
  | nil => cases hc
  | cons a rest ih =>
    unfold mapEncode
    cases hfa : f a with
    | error e => simp [hAll a e hfa]
    | ok b =>
      rcases List.mem_cons.mp hc with h | h
      · subst h
        rw [hfa] at hfc
        cases hfc
      · simp only []
        rw [ih h]

/-- The save context of a plain Latin-1 file without BOM. -/
def latin1Ctx : SaveContext :=
  { original_encoding := .Latin1, original_eol := .Lf,
    original_bom := { encoding := .Unknown, bom_length := 0 } }

/-- C7 as amended: saving into a single-byte original encoding (Latin-1,
Windows-1252 or Latin-9) fails — with `EncodingError::BinaryFile`, the only
loss-signalling variant the error enum has — whenever the content contains a
code point the encoding cannot represent: for Latin-1 any code point above
`U+00FF`, and for Windows-1252 (resp. Latin-9) any code point above `U+00FF`
other than the encoding's special-character arms (every code point up to
`U+00FF` is accepted by the fallback arm of each map); instantiated at the
end for the full save-preparation path on the CJK character `U+4E2D`. -/
theorem c7_amended_single_byte_save_fails (bs chars : List Nat) (c : Nat)
    (hdec : utf8Decode bs = some chars) (hmem : c ∈ chars) :
    (0xFF < c → encode_latin bs .Latin1 = .error .BinaryFile) ∧
    (0xFF < c ∧ c ∉ w1252SpecialChars →
      encode_latin bs .Windows1252 = .error .BinaryFile) ∧
    (0xFF < c ∧ c ∉ latin9SpecialChars →
      encode_latin bs .Latin9 = .error .BinaryFile) ∧
    prepare_content_for_save [228, 184, 173] latin1Ctx = .error .BinaryFile := by
  refine ⟨?_, ?_, ?_, by decide⟩
  · intro h1
    unfold encode_latin
    rw [hdec]
    exact mapEncode_error_of_mem _ char_to_latin1_error_kinds chars c hmem
      (char_to_latin1_unrepresentable c h1)
  · intro h12
    obtain ⟨h1, h2⟩ := h12
    unfold encode_latin
    rw [hdec]
    exact mapEncode_error_of_mem _ char_to_windows1252_error_kinds chars c hmem
      (char_to_windows1252_unrepresentable c h1 h2)
  · intro h13
    obtain ⟨h1, h3⟩ := h13
    unfold encode_latin
    rw [hdec]
    exact mapEncode_error_of_mem _ char_to_latin9_error_kinds chars c hmem
      (char_to_latin9_unrepresentable c h1 h3)

/-- Witness for `c7_amended_single_byte_save_fails` on the UTF-8 bytes of
`U+4E2D` (all three encodings) and of `U+20AC` (a Windows-1252/Latin-9
special, still unrepresentable in Latin-1). -/
theorem c7_amended_single_byte_save_fails_witness :
    encode_latin [228, 184, 173] .Latin1 = .error .BinaryFile ∧
    encode_latin [228, 184, 173] .Windows1252 = .error .BinaryFile ∧
    encode_latin [228, 184, 173] .Latin9 = .error .BinaryFile ∧
    encode_latin [226, 130, 172] .Latin1 = .error .BinaryFile ∧
    prepare_content_for_save [228, 184, 173] latin1Ctx = .error .BinaryFile := by
  have h := c7_amended_single_byte_save_fails [228, 184, 173] [20013] 20013
    (by decide) (by decide)
  have h2 := c7_amended_single_byte_save_fails [226, 130, 172] [8364] 8364
    (by decide) (by decide)
  exact ⟨h.1 (by decide), h.2.1 (by decide), h.2.2.1 (by decide),
    h2.1 (by decide), h.2.2.2⟩

/-- C7, counterexample: the claimed `EncodingLoss` error kind does not exist
— `EncodingError` has exactly the kinds `Io`, `BinaryFile` and
`FileTooLarge` — and an unrepresentable code point (here `U+4E2D` under
Latin-1) fails the save with `BinaryFile`. -/
theorem c7_error_kind_is_binaryfile :
    encode_latin [228, 184, 173] .Latin1 = .error .BinaryFile ∧
    (∀ e : EncodingError, e = .Io ∨ e = .BinaryFile ∨ e = .FileTooLarge) := by
  refine ⟨by decide, ?_⟩
  intro e
  cases e <;> simp

/-! ## Reference counts for EOL detection (C8) -/

/-- Reference count of adjacent `\r\n` pairs in a byte list (a sliding
window over consecutive positions, independent of `detect_eol`'s scan). -/
def crlfPairs : List Nat → Nat
  | a :: b :: rest => (if a = 13 ∧ b = 10 then 1 else 0) + crlfPairs (b :: rest)
  | _ => 0

theorem crlfPairs_cons_of_ne (a : Nat) (rest : List Nat) (ha : a ≠ 13) :
    crlfPairs (a :: rest) = crlfPairs rest := by
  cases rest with
  | nil => simp [crlfPairs]
  | cons b rs => simp [crlfPairs, ha]

theorem crlfPairs_le_count10 : ∀ bs : List Nat, crlfPairs bs ≤ bs.count 10
  | [] => by simp [crlfPairs]
  | [a] => by simp [crlfPairs]
  | a :: b :: rest => by
    by_cases hab : a = 13 ∧ b = 10
    · have ih := crlfPairs_le_count10 rest
      obtain ⟨ha, hb⟩ := hab
      subst ha
      subst hb
      have hb10 : crlfPairs (10 :: rest) = crlfPairs rest :=
        crlfPairs_cons_of_ne 10 rest (by omega)
      simp [crlfPairs, hb10, List.count_cons]
      omega
    · have ih := crlfPairs_le_count10 (b :: rest)
      simp only [crlfPairs, if_neg hab, Nat.zero_add]
      calc crlfPairs (b :: rest) ≤ (b :: rest).count 10 := ih
        _ ≤ (a :: b :: rest).count 10 := by simp [List.count_cons]

theorem crlfPairs_le_count13 : ∀ bs : List Nat, crlfPairs bs ≤ bs.count 13
  | [] => by simp [crlfPairs]
  | [a] => by simp [crlfPairs]
  | a :: b :: rest => by
    by_cases hab : a = 13 ∧ b = 10
    · have ih := crlfPairs_le_count13 rest
      obtain ⟨ha, hb⟩ := hab
      subst ha
      subst hb
      have hb10 : crlfPairs (10 :: rest) = crlfPairs rest :=
        crlfPairs_cons_of_ne 10 rest (by omega)
      simp [crlfPairs, hb10, List.count_cons]
      omega
    · have ih := crlfPairs_le_count13 (b :: rest)
      simp only [crlfPairs, if_neg hab, Nat.zero_add]
      calc crlfPairs (b :: rest) ≤ (b :: rest).count 13 := ih
        _ ≤ (a :: b :: rest).count 13 := by simp [List.count_cons]

/-- `detect_eol`'s single scan realises the reference counts: each adjacent
`\r\n` pair is one CRLF unit, lone-`\n` occurrences are the `\n`s not
consumed by a pair, lone-`\r` the `\r`s not starting a pair. -/
theorem eolCounts_eq_reference : ∀ bs : List Nat,
    eolCounts bs = (bs.count 10 - crlfPairs bs, crlfPairs bs,
      bs.count 13 - crlfPairs bs)
  | [] => by simp [eolCounts, crlfPairs]
  | [a] => by
    by_cases h13 : a = 13
    · subst h13
      simp [eolCounts, crlfPairs]
    · by_cases h10 : a = 10
      · subst h10
        simp [eolCounts, crlfPairs]
      · simp [eolCounts, crlfPairs, h13, h10, List.count_singleton]
  | a :: b :: rest => by
    by_cases h13 : a = 13
    · subst h13
      by_cases h10 : b = 10
      · subst h10
        have ih := eolCounts_eq_reference rest
        have hp : crlfPairs (13 :: 10 :: rest) = 1 + crlfPairs rest := by
          have h1 : crlfPairs (10 :: rest) = crlfPairs rest :=
            crlfPairs_cons_of_ne 10 rest (by omega)
          simp [crlfPairs, h1]
        have hL : eolCounts (13 :: 10 :: rest)
            = ((eolCounts rest).1, (eolCounts rest).2.1 + 1, (eolCounts rest).2.2) := by
          simp [eolCounts]
        have hc10 : (13 :: 10 :: rest).count 10 = rest.count 10 + 1 := by
          simp [List.count_cons]
        have hc13 : (13 :: 10 :: rest).count 13 = rest.count 13 + 1 := by
          simp [List.count_cons]
        rw [hL, ih, hp, hc10, hc13]
        simp only [Prod.mk.injEq, true_and, and_true]
        omega
      · have ih := eolCounts_eq_reference (b :: rest)
        have hle13 := crlfPairs_le_count13 (b :: rest)
        have hp : crlfPairs (13 :: b :: rest) = crlfPairs (b :: rest) := by
          simp [crlfPairs, h10]
        have hL : eolCounts (13 :: b :: rest)
            = ((eolCounts (b :: rest)).1, (eolCounts (b :: rest)).2.1,
               (eolCounts (b :: rest)).2.2 + 1) := by
          simp [eolCounts, h10]
        have hc10 : (13 :: b :: rest).count 10 = (b :: rest).count 10 := by
          simp [List.count_cons]
        have hc13 : (13 :: b :: rest).count 13 = (b :: rest).count 13 + 1 := by
          simp [List.count_cons]
        rw [hL, ih, hp, hc10, hc13]
        simp only [Prod.mk.injEq, true_and, and_true]
        omega
    · have ih := eolCounts_eq_reference (b :: rest)
      have hle10 := crlfPairs_le_count10 (b :: rest)
      have hp : crlfPairs (a :: b :: rest) = crlfPairs (b :: rest) :=
        crlfPairs_cons_of_ne a (b :: rest) h13
      by_cases h10 : a = 10
      · subst h10
        have hL : eolCounts (10 :: b :: rest)
            = ((eolCounts (b :: rest)).1 + 1, (eolCounts (b :: rest)).2.1,
               (eolCounts (b :: rest)).2.2) := by
          simp [eolCounts]
        have hc10 : (10 :: b :: rest).count 10 = (b :: rest).count 10 + 1 := by
          simp [List.count_cons]
        have hc13 : (10 :: b :: rest).count 13 = (b :: rest).count 13 := by
          simp [List.count_cons]
        rw [hL, ih, hp, hc10, hc13]
        simp only [Prod.mk.injEq, true_and, and_true]
        omega
      · have hL : eolCounts (a :: b :: rest) = eolCounts (b :: rest) := by
          simp [eolCounts, h13, h10]
        have hc10 : (a :: b :: rest).count 10 = (b :: rest).count 10 := by
          simp [List.count_cons, h10]
        have hc13 : (a :: b :: rest).count 13 = (b :: rest).count 13 := by
          simp [List.count_cons, h13]
        rw [hL, ih, hp, hc10, hc13]

/-- C8: `detect_eol` counts each `\r\n` pair as a single CRLF unit (never
also as a lone `\n` or lone `\r`), returns the end-of-line type with the
highest reference count with ties resolved in the order CRLF > LF > CR, and
returns LF when the input contains no line endings. -/
theorem c8_detect_eol_majority (bytes : List Nat) :
    eolCounts bytes = (bytes.count 10 - crlfPairs bytes, crlfPairs bytes,
      bytes.count 13 - crlfPairs bytes) ∧
    detect_eol bytes =
      (let lf := bytes.count 10 - crlfPairs bytes
       let crlf := crlfPairs bytes
       let cr := bytes.count 13 - crlfPairs bytes
       if lf + crlf + cr = 0 then .Lf
       else if crlf = max (max crlf lf) cr then .Crlf
       else if lf = max lf cr then .Lf
       else .Cr) := by
  refine ⟨eolCounts_eq_reference bytes, ?_⟩
  unfold detect_eol
  rw [eolCounts_eq_reference bytes]
  simp only []
  split_ifs <;> first | rfl | omega

/-! ## The C3 load/save round trip -/

/-- The load result of the one-byte BOM-less UTF-8 file `"a"`. -/
def c3LoadRes : FileLoadResult :=
  { content := [97], original_encoding := .Utf8, original_eol := .Lf,
    read_only := false }

/-- C3, evaluation at the failing input: loading the BOM-less UTF-8 file
`"a"` yields content `"a"`, encoding UTF-8, EOL LF; but
`SaveContext::from_load_result` hard-codes `bom_length = 3` for UTF-8, so
saving the unedited content prepends `EF BB BF` — the bytes written are
`EF BB BF 61`, not the original `61`. -/
theorem c3_saved_bytes_differ_from_original :
    load_file_pure [97] FileLoadConfig.default = .ok c3LoadRes ∧
    (SaveContext.from_load_result c3LoadRes).original_bom.bom_length = 3 ∧
    prepare_content_for_save (strToBytes c3LoadRes.content)
      (SaveContext.from_load_result c3LoadRes) = .ok [239, 187, 191, 97] ∧
    [239, 187, 191, 97] ≠ ([97] : List Nat) := by
  decide

/-! ## Abstract binary trees and the arena representation relation (C1)

The arena (`Vec<Node>` with index links) is related to inductive binary
trees; rotations and the red-black fix-up preserve the in-order id
sequence, which after `build_from_bytes` is `0, 1, …, k-1`, so
`read_bytes_global` walks the leaves in insertion order. -/

/-- Abstract binary tree of node ids. -/
inductive BT where
  | nil
  | node (l : BT) (root_id : Nat) (r : BT)

/-- In-order sequence of ids. -/
def BT.ids : BT → List Nat
  | .nil => []
  | .node l i r => ids l ++ i :: ids r

/-- `nodes[i]` of an arena (reads in verified states are in bounds). -/
def nodeAt (ns : List Node) (i : Nat) : Node := ns.getD i (Node.new 0)

theorem getN_eq_nodeAt (r : Rope) (i : Nat) : getN r i = nodeAt r.nodes i := rfl

theorem nodeAt_oob (ns : List Node) (i : Nat) (h : ns.length ≤ i) :
    nodeAt ns i = Node.new 0 := by
  rw [nodeAt, List.getD_eq_getElem?_getD, List.getElem?_eq_none h]
  rfl

/-- Two nodes with the same link fields. -/
def linksEq (a b : Node) : Prop :=
  a.left = b.left ∧ a.right = b.right ∧ a.parent = b.parent

theorem linksEq_refl (a : Node) : linksEq a a := ⟨rfl, rfl, rfl⟩

/-- `ReprAt ns t i p`: the subtree reachable from arena index `i` (whose
parent pointer is `p`) is the abstract tree `t`. -/
def ReprAt (ns : List Node) : BT → Nat → Nat → Prop
  | .nil, i, _ => i = NIL
  | .node l j r, i, p =>
    i = j ∧ i < ns.length ∧ (nodeAt ns i).parent = p ∧
    ReprAt ns l (nodeAt ns i).left i ∧ ReprAt ns r (nodeAt ns i).right i

theorem ReprAt_nil (ns : List Node) (p : Nat) : ReprAt ns .nil NIL p := rfl

/-- Every id of a represented tree is a valid arena index. -/
theorem ReprAt_ids_lt (ns : List Node) :
    ∀ (t : BT) (i p : Nat), ReprAt ns t i p → ∀ j ∈ t.ids, j < ns.length
  | .nil, _, _, _, j, hj => by cases hj
  | .node l k r, i, p, h, j, hj => by
    obtain ⟨hik, hlt, _, hl, hr⟩ := h
    subst hik
    rcases List.mem_append.mp hj with hjl | hjr
    · exact ReprAt_ids_lt ns l _ _ hl j hjl
    · rcases List.mem_cons.mp hjr with hji | hjr2
      · subst hji; exact hlt
      · exact ReprAt_ids_lt ns r _ _ hr j hjr2

/-- The root index of a represented nonempty tree is its root id. -/
theorem ReprAt_root_id (ns : List Node) (l : BT) (k : Nat) (r : BT)
    (i p : Nat) (h : ReprAt ns (.node l k r) i p) : i = k := h.1

/-- Frame rule: representation depends only on the link fields of the
nodes named by the tree. -/
theorem ReprAt_congr (ns n2 : List Node) (hlen : n2.length = ns.length) :
    ∀ (t : BT) (i p : Nat),
      (∀ j ∈ t.ids, linksEq (nodeAt n2 j) (nodeAt ns j)) →
      ReprAt ns t i p → ReprAt n2 t i p
  | .nil, i, p, _, h => h
  | .node l k r, i, p, hsame, h => by
    obtain ⟨hik, hlt, hpar, hl, hr⟩ := h
    subst hik
    have hmem : i ∈ (BT.node l i r).ids := by
      simp [BT.ids]
    obtain ⟨he_l, he_r, he_p⟩ := hsame i hmem
    refine ⟨rfl, by omega, by rw [he_p]; exact hpar, ?_, ?_⟩
    · rw [he_l]
      refine ReprAt_congr ns n2 hlen l _ i ?_ hl
      intro j hj
      exact hsame j (by simp [BT.ids, hj])
    · rw [he_r]
      refine ReprAt_congr ns n2 hlen r _ i ?_ hr
      intro j hj
      exact hsame j (by simp [BT.ids, hj])

/-- `ReprAt_congr` for a possibly larger replacement arena. -/
theorem ReprAt_congr_le (ns n2 : List Node) (hlen : ns.length ≤ n2.length) :
    ∀ (t : BT) (i p : Nat),
      (∀ j ∈ t.ids, linksEq (nodeAt n2 j) (nodeAt ns j)) →
      ReprAt ns t i p → ReprAt n2 t i p
  | .nil, i, p, _, h => h
  | .node l k r, i, p, hsame, h => by
    obtain ⟨hik, hlt, hpar, hl, hr⟩ := h
    subst hik
    have hmem : i ∈ (BT.node l i r).ids := by
      simp [BT.ids]
    obtain ⟨he_l, he_r, he_p⟩ := hsame i hmem
    refine ⟨rfl, by omega, by rw [he_p]; exact hpar, ?_, ?_⟩
    · rw [he_l]
      refine ReprAt_congr_le ns n2 hlen l _ i ?_ hl
      intro j hj
      exact hsame j (by simp [BT.ids, hj])
    · rw [he_r]
      refine ReprAt_congr_le ns n2 hlen r _ i ?_ hr
      intro j hj
      exact hsame j (by simp [BT.ids, hj])

theorem nodeAt_set_self (ns : List Node) (i : Nat) (nd : Node)
    (h : i < ns.length) : nodeAt (ns.set i nd) i = nd := by
  simp [nodeAt, List.getD_eq_getElem?_getD, List.getElem?_set_self, h]

theorem nodeAt_set_ne (ns : List Node) (i j : Nat) (nd : Node)
    (h : i ≠ j) : nodeAt (ns.set i nd) j = nodeAt ns j := by
  simp [nodeAt, List.getD_eq_getElem?_getD, List.getElem?_set_ne h]

theorem nodeAt_append_lt (ns : List Node) (nd : Node) (j : Nat)
    (h : j < ns.length) : nodeAt (ns ++ [nd]) j = nodeAt ns j := by
  simp [nodeAt, List.getD_eq_getElem?_getD, List.getElem?_append_left h]

theorem nodeAt_append_self (ns : List Node) (nd : Node) :
    nodeAt (ns ++ [nd]) ns.length = nd := by
  simp [nodeAt, List.getD_eq_getElem?_getD]

/-- Representation survives growing the arena. -/
theorem ReprAt_append (ns : List Node) (nd : Node) :
    ∀ (t : BT) (i p : Nat), ReprAt ns t i p → ReprAt (ns ++ [nd]) t i p
  | .nil, i, p, h => h
  | .node l k r, i, p, h => by
    obtain ⟨hik, hlt, hpar, hl, hr⟩ := h
    subst hik
    rw [ReprAt]
    rw [nodeAt_append_lt ns nd i hlt]
    refine ⟨rfl, by simp; omega, hpar, ?_, ?_⟩
    · exact ReprAt_append ns nd l _ i hl
    · exact ReprAt_append ns nd r _ i hr

theorem nodeAt_set_oob (ns : List Node) (i : Nat) (nd : Node)
    (h : ¬ i < ns.length) : ns.set i nd = ns :=
  List.set_eq_of_length_le (by omega)

theorem setN_length (r : Rope) (i : Nat) (nd : Node) :
    (setN r i nd).nodes.length = r.nodes.length := by
  simp [setN]

theorem setN_root (r : Rope) (i : Nat) (nd : Node) :
    (setN r i nd).root = r.root := rfl

theorem setN_nodeAt_self (r : Rope) (i : Nat) (nd : Node)
    (h : i < r.nodes.length) : nodeAt (setN r i nd).nodes i = nd :=
  nodeAt_set_self r.nodes i nd h

theorem setN_nodeAt_ne (r : Rope) (i j : Nat) (nd : Node)
    (h : i ≠ j) : nodeAt (setN r i nd).nodes j = nodeAt r.nodes j :=
  nodeAt_set_ne r.nodes i j nd h

/-- Ropes with the same shape: root, size, links, colours, keys, payloads —
everything except the cached aggregates. -/
def skelEq (r r2 : Rope) : Prop :=
  r2.root = r.root ∧ r2.nodes.length = r.nodes.length ∧
  ∀ j, linksEq (nodeAt r2.nodes j) (nodeAt r.nodes j) ∧
    (nodeAt r2.nodes j).color = (nodeAt r.nodes j).color ∧
    (nodeAt r2.nodes j).key = (nodeAt r.nodes j).key ∧
    (nodeAt r2.nodes j).payload = (nodeAt r.nodes j).payload

theorem skelEq_refl (r : Rope) : skelEq r r :=
  ⟨rfl, rfl, fun _ => ⟨linksEq_refl _, rfl, rfl, rfl⟩⟩

theorem skelEq_trans (r1 r2 r3 : Rope) (h1 : skelEq r1 r2) (h2 : skelEq r2 r3) :
    skelEq r1 r3 := by
  obtain ⟨ha1, hb1, hc1⟩ := h1
  obtain ⟨ha2, hb2, hc2⟩ := h2
  refine ⟨by rw [ha2, ha1], by rw [hb2, hb1], fun j => ?_⟩
  obtain ⟨⟨l1, r1', p1⟩, c1, k1, pl1⟩ := hc1 j
  obtain ⟨⟨l2, r2', p2⟩, c2, k2, pl2⟩ := hc2 j
  exact ⟨⟨by rw [l2, l1], by rw [r2', r1'], by rw [p2, p1]⟩,
    by rw [c2, c1], by rw [k2, k1], by rw [pl2, pl1]⟩

/-- `recompute_node_aggregates` only touches `sub_bytes`/`sub_lines`. -/
theorem recompute_skelEq (r : Rope) (i : Nat) :
    skelEq r (recompute_node_aggregates r i) := by
  unfold recompute_node_aggregates
  by_cases hnil : i = NIL
  · rw [if_pos hnil]
    exact skelEq_refl r
  · rw [if_neg hnil]
    refine ⟨rfl, by simp [setN], fun j => ?_⟩
    by_cases hij : i = j
    · subst hij
      by_cases hlt : i < r.nodes.length
      · rw [getN_eq_nodeAt, setN_nodeAt_self _ _ _ hlt]
        exact ⟨⟨rfl, rfl, rfl⟩, rfl, rfl, rfl⟩
      · have : (setN r i { getN r i with
            sub_bytes := (if (getN r i).left = NIL then 0 else (getN r (getN r i).left).sub_bytes) + (getN r i).payload.byte_len + (if (getN r i).right = NIL then 0 else (getN r (getN r i).right).sub_bytes),
            sub_lines := (if (getN r i).left = NIL then 0 else (getN r (getN r i).left).sub_lines) + (getN r i).payload.nl_idx.length + (if (getN r i).right = NIL then 0 else (getN r (getN r i).right).sub_lines) }).nodes = r.nodes := by
          simp [setN]
          exact nodeAt_set_oob _ _ _ hlt
        rw [this]
        exact ⟨linksEq_refl _, rfl, rfl, rfl⟩
    · rw [setN_nodeAt_ne _ _ _ _ hij]
      exact ⟨linksEq_refl _, rfl, rfl, rfl⟩

/-- `update_ancestors` only touches the cached aggregates. -/
theorem update_ancestors_skelEq (fuel : Nat) :
    ∀ (r : Rope) (cur : Nat), skelEq r (update_ancestors fuel r cur) := by
  induction fuel with
  | zero => intro r cur; exact skelEq_refl r
  | succ n ih =>
    intro r cur
    unfold update_ancestors
    by_cases hnil : cur = NIL
    · rw [if_pos hnil]
      exact skelEq_refl r
    · rw [if_neg hnil]
      exact skelEq_trans _ _ _ (recompute_skelEq r cur) (ih _ _)

/-- The pointer-juggling phase of `left_rotate` (the statements before the
aggregate recomputation), split out for the correctness proof. -/
def left_rotate_links (r : Rope) (x : Nat) : Rope :=
  let y := (getN r x).right
  let y_left := (getN r y).left
  let x_parent := (getN r x).parent
  let r1 := setRight r x y_left
  let r2 := if y_left ≠ NIL then setParent r1 y_left x else r1
  let r3 := setParent r2 y x_parent
  let r4 :=
    if x = r3.root then { r3 with root := y }
    else if x = (getN r3 x_parent).left then setLeft r3 x_parent y
    else setRight r3 x_parent y
  let r5 := setLeft r4 y x
  setParent r5 x y

/-- The aggregate-recomputation phase shared by both rotations. -/
def rotatePost (r : Rope) (a b : Nat) : Rope :=
  let r7 := recompute_node_aggregates r a
  let r8 := recompute_node_aggregates r7 b
  update_ancestors (fuelOf r8) r8 (getN r8 b).parent

theorem left_rotate_eq (r : Rope) (x : Nat) :
    left_rotate r x = rotatePost (left_rotate_links r x) x ((getN r x).right) := rfl

/-- The pointer-juggling phase of `right_rotate`. -/
def right_rotate_links (r : Rope) (y : Nat) : Rope :=
  let x := (getN r y).left
  let x_right := (getN r x).right
  let y_parent := (getN r y).parent
  let r1 := setLeft r y x_right
  let r2 := if x_right ≠ NIL then setParent r1 x_right y else r1
  let r3 := setParent r2 x y_parent
  let r4 :=
    if y = r3.root then { r3 with root := x }
    else if y = (getN r3 y_parent).right then setRight r3 y_parent x
    else setLeft r3 y_parent x
  let r5 := setRight r4 x y
  setParent r5 y x

theorem right_rotate_eq (r : Rope) (y : Nat) :
    right_rotate r y = rotatePost (right_rotate_links r y) y ((getN r y).left) := rfl

theorem rotatePost_skelEq (r : Rope) (a b : Nat) : skelEq r (rotatePost r a b) :=
  skelEq_trans _ _ _ (recompute_skelEq r a)
    (skelEq_trans _ _ _ (recompute_skelEq _ b) (update_ancestors_skelEq _ _ _))

theorem setLeft_length (r : Rope) (i v : Nat) :
    (setLeft r i v).nodes.length = r.nodes.length := by
  simp [setLeft, setN]

theorem setRight_length (r : Rope) (i v : Nat) :
    (setRight r i v).nodes.length = r.nodes.length := by
  simp [setRight, setN]

theorem setParent_length (r : Rope) (i v : Nat) :
    (setParent r i v).nodes.length = r.nodes.length := by
  simp [setParent, setN]

theorem setColor_length (r : Rope) (i : Nat) (c : Color) :
    (setColor r i c).nodes.length = r.nodes.length := by
  simp [setColor, setN]

theorem setPayload_length (r : Rope) (i : Nat) (l : Leaf) :
    (setPayload r i l).nodes.length = r.nodes.length := by
  simp [setPayload, setN]

theorem setLeft_root (r : Rope) (i v : Nat) : (setLeft r i v).root = r.root := rfl

theorem setRight_root (r : Rope) (i v : Nat) : (setRight r i v).root = r.root := rfl

theorem setParent_root (r : Rope) (i v : Nat) : (setParent r i v).root = r.root := rfl

theorem setColor_root (r : Rope) (i : Nat) (c : Color) : (setColor r i c).root = r.root := rfl

theorem setPayload_root (r : Rope) (i : Nat) (l : Leaf) : (setPayload r i l).root = r.root := rfl

theorem setLeft_nodeAt_self (r : Rope) (i v : Nat) (h : i < r.nodes.length) :
    nodeAt (setLeft r i v).nodes i = { nodeAt r.nodes i with left := v } :=
  setN_nodeAt_self _ _ _ h

theorem setRight_nodeAt_self (r : Rope) (i v : Nat) (h : i < r.nodes.length) :
    nodeAt (setRight r i v).nodes i = { nodeAt r.nodes i with right := v } :=
  setN_nodeAt_self _ _ _ h

theorem setParent_nodeAt_self (r : Rope) (i v : Nat) (h : i < r.nodes.length) :
    nodeAt (setParent r i v).nodes i = { nodeAt r.nodes i with parent := v } :=
  setN_nodeAt_self _ _ _ h

theorem setColor_nodeAt_self (r : Rope) (i : Nat) (c : Color) (h : i < r.nodes.length) :
    nodeAt (setColor r i c).nodes i = { nodeAt r.nodes i with color := c } :=
  setN_nodeAt_self _ _ _ h

theorem setPayload_nodeAt_self (r : Rope) (i : Nat) (l : Leaf) (h : i < r.nodes.length) :
    nodeAt (setPayload r i l).nodes i = { nodeAt r.nodes i with payload := l } :=
  setN_nodeAt_self _ _ _ h

theorem setLeft_nodeAt_ne (r : Rope) (i j v : Nat) (h : i ≠ j) :
    nodeAt (setLeft r i v).nodes j = nodeAt r.nodes j :=
  setN_nodeAt_ne _ _ _ _ h

theorem setRight_nodeAt_ne (r : Rope) (i j v : Nat) (h : i ≠ j) :
    nodeAt (setRight r i v).nodes j = nodeAt r.nodes j :=
  setN_nodeAt_ne _ _ _ _ h

theorem setParent_nodeAt_ne (r : Rope) (i j v : Nat) (h : i ≠ j) :
    nodeAt (setParent r i v).nodes j = nodeAt r.nodes j :=
  setN_nodeAt_ne _ _ _ _ h

theorem setColor_nodeAt_ne (r : Rope) (i j : Nat) (c : Color) (h : i ≠ j) :
    nodeAt (setColor r i c).nodes j = nodeAt r.nodes j :=
  setN_nodeAt_ne _ _ _ _ h

theorem setPayload_nodeAt_ne (r : Rope) (i j : Nat) (l : Leaf) (h : i ≠ j) :
    nodeAt (setPayload r i l).nodes j = nodeAt r.nodes j :=
  setN_nodeAt_ne _ _ _ _ h

/-- Full description of the pointer phase of a left rotation at `x` with
right child `y`, inner grandchild `yl` and parent `xp`, given the
distinctness facts that hold in any represented tree. -/
theorem left_rotate_links_spec (r : Rope) (x y yl xp : Nat)
    (hy : (nodeAt r.nodes x).right = y)
    (hyl : (nodeAt r.nodes y).left = yl)
    (hxp : (nodeAt r.nodes x).parent = xp)
    (hxlt : x < r.nodes.length) (hylt : y < r.nodes.length)
    (hxy : x ≠ y) (hxNIL : x ≠ NIL) (hyNIL : y ≠ NIL)
    (hylF : yl ≠ NIL → yl < r.nodes.length ∧ yl ≠ x ∧ yl ≠ y)
    (hpar : (x = r.root ∧ xp = NIL) ∨
      (x ≠ r.root ∧ xp < r.nodes.length ∧ xp ≠ x ∧ xp ≠ y ∧ xp ≠ yl)) :
    (left_rotate_links r x).nodes.length = r.nodes.length ∧
    (left_rotate_links r x).root = (if x = r.root then y else r.root) ∧
    nodeAt (left_rotate_links r x).nodes x
      = { nodeAt r.nodes x with right := yl, parent := y } ∧
    nodeAt (left_rotate_links r x).nodes y
      = { nodeAt r.nodes y with left := x, parent := xp } ∧
    (yl ≠ NIL → nodeAt (left_rotate_links r x).nodes yl
      = { nodeAt r.nodes yl with parent := x }) ∧
    (x ≠ r.root → nodeAt (left_rotate_links r x).nodes xp
      = (if (nodeAt r.nodes xp).left = x
         then { nodeAt r.nodes xp with left := y }
         else { nodeAt r.nodes xp with right := y })) ∧
    (∀ j, j ≠ x → j ≠ y → j ≠ yl → j ≠ xp →
      nodeAt (left_rotate_links r x).nodes j = nodeAt r.nodes j) := by
  have hy' : (getN r x).right = y := hy
  have hxp' : (getN r x).parent = xp := hxp
  have hyl' : (getN r y).left = yl := hyl
  have hxyl : x ≠ yl := by
    by_cases h : yl = NIL
    · rw [h]; exact hxNIL
    · exact fun hh => (hylF h).2.1 hh.symm
  have hyyl : y ≠ yl := by
    by_cases h : yl = NIL
    · rw [h]; exact hyNIL
    · exact fun hh => (hylF h).2.2 hh.symm
  have hEQ : left_rotate_links r x =
      (let r1 := setRight r x yl
       let r2 := if yl ≠ NIL then setParent r1 yl x else r1
       let r3 := setParent r2 y xp
       let r4 :=
         if x = r3.root then { r3 with root := y }
         else if x = (getN r3 xp).left then setLeft r3 xp y
         else setRight r3 xp y
       let r5 := setLeft r4 y x
       setParent r5 x y) := by
    simp only [left_rotate_links]
    rw [hy', hyl', hxp']
  rw [hEQ]
  clear hEQ
  simp only []
  set L1 := setRight r x yl with hL1
  set L2 := if yl ≠ NIL then setParent L1 yl x else L1 with hL2
  set L3 := setParent L2 y xp with hL3
  set L4 := if x = L3.root then { L3 with root := y }
    else if x = (getN L3 xp).left then setLeft L3 xp y
    else setRight L3 xp y with hL4
  set L5 := setLeft L4 y x with hL5
  set L6 := setParent L5 x y with hL6
  have len1 : L1.nodes.length = r.nodes.length := setRight_length _ _ _
  have len2 : L2.nodes.length = r.nodes.length := by
    rw [hL2]
    by_cases h : yl = NIL
    · rw [if_neg (by simp [h])]
      exact len1
    · rw [if_pos h, setParent_length]
      exact len1
  have len3 : L3.nodes.length = r.nodes.length := by
    rw [hL3, setParent_length]
    exact len2
  have root2 : L2.root = r.root := by
    rw [hL2]
    by_cases h : yl = NIL
    · rw [if_neg (by simp [h])]
      rfl
    · rw [if_pos h, setParent_root]
      rfl
  have root3 : L3.root = r.root := by
    rw [hL3, setParent_root]
    exact root2
  have len4 : L4.nodes.length = r.nodes.length := by
    rw [hL4]
    by_cases h : x = L3.root
    · rw [if_pos h]
      exact len3
    · rw [if_neg h]
      by_cases h2 : x = (getN L3 xp).left
      · rw [if_pos h2, setLeft_length]
        exact len3
      · rw [if_neg h2, setRight_length]
        exact len3
  have len5 : L5.nodes.length = r.nodes.length := by
    rw [hL5, setLeft_length]
    exact len4
  have len6 : L6.nodes.length = r.nodes.length := by
    rw [hL6, setParent_length]
    exact len5
  have at1x : nodeAt L1.nodes x = { nodeAt r.nodes x with right := yl } :=
    setRight_nodeAt_self _ _ _ hxlt
  have at1 : ∀ j, j ≠ x → nodeAt L1.nodes j = nodeAt r.nodes j := by
    intro j hj
    exact setRight_nodeAt_ne _ _ _ _ (fun h => hj h.symm)
  have at2yl : yl ≠ NIL → nodeAt L2.nodes yl = { nodeAt L1.nodes yl with parent := x } := by
    intro h
    rw [hL2, if_pos h]
    exact setParent_nodeAt_self _ _ _ (by rw [len1]; exact (hylF h).1)
  have at2 : ∀ j, j ≠ yl → nodeAt L2.nodes j = nodeAt L1.nodes j := by
    intro j hj
    rw [hL2]
    by_cases h : yl = NIL
    · rw [if_neg (by simp [h])]
    · rw [if_pos h]
      exact setParent_nodeAt_ne _ _ _ _ (fun hh => hj hh.symm)
  have at3y : nodeAt L3.nodes y = { nodeAt L2.nodes y with parent := xp } := by
    rw [hL3]
    exact setParent_nodeAt_self _ _ _ (by rw [len2]; exact hylt)
  have at3 : ∀ j, j ≠ y → nodeAt L3.nodes j = nodeAt L2.nodes j := by
    intro j hj
    rw [hL3]
    exact setParent_nodeAt_ne _ _ _ _ (fun hh => hj hh.symm)
  refine ⟨len6, ?_, ?_, ?_, ?_, ?_, ?_⟩
  all_goals rcases hpar with ⟨hroot, hxpNIL⟩ | ⟨hroot, hxplt, hxpx, hxpy, hxpyl⟩
  -- Root, x = root.
  · have h4 : L4 = { L3 with root := y } := by
      rw [hL4, if_pos (by rw [root3]; exact hroot)]
    rw [hL6, setParent_root, hL5, setLeft_root, h4, if_pos hroot]
  -- Root, x ≠ root.
  · have h4 : L4.root = r.root := by
      rw [hL4, if_neg (by rw [root3]; exact hroot)]
      by_cases h2 : x = (getN L3 xp).left
      · rw [if_pos h2, setLeft_root]
        exact root3
      · rw [if_neg h2, setRight_root]
        exact root3
    rw [hL6, setParent_root, hL5, setLeft_root, h4, if_neg hroot]
  -- x-fact, x = root.
  · have at4 : ∀ j, nodeAt L4.nodes j = nodeAt L3.nodes j := by
      intro j
      rw [hL4, if_pos (by rw [root3]; exact hroot)]
    have at6x : nodeAt L6.nodes x = { nodeAt L5.nodes x with parent := y } := by
      rw [hL6]
      exact setParent_nodeAt_self _ _ _ (by rw [len5]; exact hxlt)
    have at5x : nodeAt L5.nodes x = nodeAt L4.nodes x := by
      rw [hL5]
      exact setLeft_nodeAt_ne _ _ _ _ hxy.symm
    rw [at6x, at5x, at4, at3 x hxy, at2 x hxyl, at1x]
  -- x-fact, x ≠ root.
  · have at4x : nodeAt L4.nodes x = nodeAt L3.nodes x := by
      rw [hL4, if_neg (by rw [root3]; exact hroot)]
      by_cases h2 : x = (getN L3 xp).left
      · rw [if_pos h2]
        exact setLeft_nodeAt_ne _ _ _ _ hxpx
      · rw [if_neg h2]
        exact setRight_nodeAt_ne _ _ _ _ hxpx
    have at6x : nodeAt L6.nodes x = { nodeAt L5.nodes x with parent := y } := by
      rw [hL6]
      exact setParent_nodeAt_self _ _ _ (by rw [len5]; exact hxlt)
    have at5x : nodeAt L5.nodes x = nodeAt L4.nodes x := by
      rw [hL5]
      exact setLeft_nodeAt_ne _ _ _ _ hxy.symm
    rw [at6x, at5x, at4x, at3 x hxy, at2 x hxyl, at1x]
  -- y-fact, x = root.
  · have at4 : ∀ j, nodeAt L4.nodes j = nodeAt L3.nodes j := by
      intro j
      rw [hL4, if_pos (by rw [root3]; exact hroot)]
    have at6y : nodeAt L6.nodes y = nodeAt L5.nodes y := by
      rw [hL6]
      exact setParent_nodeAt_ne _ _ _ _ hxy
    have at5y : nodeAt L5.nodes y = { nodeAt L4.nodes y with left := x } := by
      rw [hL5]
      exact setLeft_nodeAt_self _ _ _ (by rw [len4]; exact hylt)
    rw [at6y, at5y, at4, at3y, at2 y hyyl, at1 y (fun hh => hxy hh.symm)]
  -- y-fact, x ≠ root.
  · have at4y : nodeAt L4.nodes y = nodeAt L3.nodes y := by
      rw [hL4, if_neg (by rw [root3]; exact hroot)]
      by_cases h2 : x = (getN L3 xp).left
      · rw [if_pos h2]
        exact setLeft_nodeAt_ne _ _ _ _ hxpy
      · rw [if_neg h2]
        exact setRight_nodeAt_ne _ _ _ _ hxpy
    have at6y : nodeAt L6.nodes y = nodeAt L5.nodes y := by
      rw [hL6]
      exact setParent_nodeAt_ne _ _ _ _ hxy
    have at5y : nodeAt L5.nodes y = { nodeAt L4.nodes y with left := x } := by
      rw [hL5]
      exact setLeft_nodeAt_self _ _ _ (by rw [len4]; exact hylt)
    rw [at6y, at5y, at4y, at3y, at2 y hyyl, at1 y (fun hh => hxy hh.symm)]
  -- yl-fact, x = root.
  · intro hylNIL
    obtain ⟨hyllt, hylx, hyly⟩ := hylF hylNIL
    have at4 : ∀ j, nodeAt L4.nodes j = nodeAt L3.nodes j := by
      intro j
      rw [hL4, if_pos (by rw [root3]; exact hroot)]
    have at6yl : nodeAt L6.nodes yl = nodeAt L5.nodes yl := by
      rw [hL6]
      exact setParent_nodeAt_ne _ _ _ _ (fun hh => hylx hh.symm)
    have at5yl : nodeAt L5.nodes yl = nodeAt L4.nodes yl := by
      rw [hL5]
      exact setLeft_nodeAt_ne _ _ _ _ (fun hh => hyly hh.symm)
    rw [at6yl, at5yl, at4, at3 yl hyly, at2yl hylNIL, at1 yl hylx]
  -- yl-fact, x ≠ root.
  · intro hylNIL
    obtain ⟨hyllt, hylx, hyly⟩ := hylF hylNIL
    have at4yl : nodeAt L4.nodes yl = nodeAt L3.nodes yl := by
      rw [hL4, if_neg (by rw [root3]; exact hroot)]
      by_cases h2 : x = (getN L3 xp).left
      · rw [if_pos h2]
        exact setLeft_nodeAt_ne _ _ _ _ hxpyl
      · rw [if_neg h2]
        exact setRight_nodeAt_ne _ _ _ _ hxpyl
    have at6yl : nodeAt L6.nodes yl = nodeAt L5.nodes yl := by
      rw [hL6]
      exact setParent_nodeAt_ne _ _ _ _ (fun hh => hylx hh.symm)
    have at5yl : nodeAt L5.nodes yl = nodeAt L4.nodes yl := by
      rw [hL5]
      exact setLeft_nodeAt_ne _ _ _ _ (fun hh => hyly hh.symm)
    rw [at6yl, at5yl, at4yl, at3 yl hyly, at2yl hylNIL, at1 yl hylx]
  -- xp-fact, x = root (vacuous).
  · intro hcontra
    exact absurd hroot hcontra
  -- xp-fact, x ≠ root.
  · intro _
    have hxp3 : nodeAt L3.nodes xp = nodeAt r.nodes xp := by
      rw [at3 xp hxpy, at2 xp hxpyl, at1 xp hxpx]
    have hcondEq : (x = (getN L3 xp).left) = ((nodeAt r.nodes xp).left = x) := by
      rw [getN_eq_nodeAt, hxp3]
      exact propext ⟨fun h => h.symm, fun h => h.symm⟩
    have at6xp : nodeAt L6.nodes xp = nodeAt L5.nodes xp := by
      rw [hL6]
      exact setParent_nodeAt_ne _ _ _ _ (fun hh => hxpx hh.symm)
    have at5xp : nodeAt L5.nodes xp = nodeAt L4.nodes xp := by
      rw [hL5]
      exact setLeft_nodeAt_ne _ _ _ _ (fun hh => hxpy hh.symm)
    rw [at6xp, at5xp, hL4, if_neg (by rw [root3]; exact hroot)]
    by_cases hside : (nodeAt r.nodes xp).left = x
    · rw [if_pos (by rw [hcondEq]; exact hside), if_pos hside]
      rw [setLeft_nodeAt_self _ _ _ (by rw [len3]; exact hxplt), hxp3]
    · rw [if_neg (by rw [hcondEq]; exact hside), if_neg hside]
      rw [setRight_nodeAt_self _ _ _ (by rw [len3]; exact hxplt), hxp3]
  -- Frame, x = root.
  · intro j hjx hjy hjyl hjxp
    have at4 : ∀ j2, nodeAt L4.nodes j2 = nodeAt L3.nodes j2 := by
      intro j2
      rw [hL4, if_pos (by rw [root3]; exact hroot)]
    have at6j : nodeAt L6.nodes j = nodeAt L5.nodes j := by
      rw [hL6]
      exact setParent_nodeAt_ne _ _ _ _ (fun hh => hjx hh.symm)
    have at5j : nodeAt L5.nodes j = nodeAt L4.nodes j := by
      rw [hL5]
      exact setLeft_nodeAt_ne _ _ _ _ (fun hh => hjy hh.symm)
    rw [at6j, at5j, at4, at3 j hjy, at2 j hjyl, at1 j hjx]
  -- Frame, x ≠ root.
  · intro j hjx hjy hjyl hjxp
    have at4j : nodeAt L4.nodes j = nodeAt L3.nodes j := by
      rw [hL4, if_neg (by rw [root3]; exact hroot)]
      by_cases h2 : x = (getN L3 xp).left
      · rw [if_pos h2]
        exact setLeft_nodeAt_ne _ _ _ _ (fun hh => hjxp hh.symm)
      · rw [if_neg h2]
        exact setRight_nodeAt_ne _ _ _ _ (fun hh => hjxp hh.symm)
    have at6j : nodeAt L6.nodes j = nodeAt L5.nodes j := by
      rw [hL6]
      exact setParent_nodeAt_ne _ _ _ _ (fun hh => hjx hh.symm)
    have at5j : nodeAt L5.nodes j = nodeAt L4.nodes j := by
      rw [hL5]
      exact setLeft_nodeAt_ne _ _ _ _ (fun hh => hjy hh.symm)
    rw [at6j, at5j, at4j, at3 j hjy, at2 j hjyl, at1 j hjx]

/-- Mirror of `left_rotate_links_spec` for `right_rotate` at `y` with left
child `x`, inner grandchild `xr` and parent `yp`. -/
theorem right_rotate_links_spec (r : Rope) (y x xr yp : Nat)
    (hx : (nodeAt r.nodes y).left = x)
    (hxr : (nodeAt r.nodes x).right = xr)
    (hyp : (nodeAt r.nodes y).parent = yp)
    (hylt : y < r.nodes.length) (hxlt : x < r.nodes.length)
    (hyx : y ≠ x) (hyNIL : y ≠ NIL) (hxNIL : x ≠ NIL)
    (hxrF : xr ≠ NIL → xr < r.nodes.length ∧ xr ≠ y ∧ xr ≠ x)
    (hpar : (y = r.root ∧ yp = NIL) ∨
      (y ≠ r.root ∧ yp < r.nodes.length ∧ yp ≠ y ∧ yp ≠ x ∧ yp ≠ xr)) :
    (right_rotate_links r y).nodes.length = r.nodes.length ∧
    (right_rotate_links r y).root = (if y = r.root then x else r.root) ∧
    nodeAt (right_rotate_links r y).nodes y
      = { nodeAt r.nodes y with left := xr, parent := x } ∧
    nodeAt (right_rotate_links r y).nodes x
      = { nodeAt r.nodes x with right := y, parent := yp } ∧
    (xr ≠ NIL → nodeAt (right_rotate_links r y).nodes xr
      = { nodeAt r.nodes xr with parent := y }) ∧
    (y ≠ r.root → nodeAt (right_rotate_links r y).nodes yp
      = (if (nodeAt r.nodes yp).right = y
         then { nodeAt r.nodes yp with right := x }
         else { nodeAt r.nodes yp with left := x })) ∧
    (∀ j, j ≠ y → j ≠ x → j ≠ xr → j ≠ yp →
      nodeAt (right_rotate_links r y).nodes j = nodeAt r.nodes j) := by
  have hx' : (getN r y).left = x := hx
  have hyp' : (getN r y).parent = yp := hyp
  have hxr' : (getN r x).right = xr := hxr
  have hyxr : y ≠ xr := by
    by_cases h : xr = NIL
    · rw [h]; exact hyNIL
    · exact fun hh => (hxrF h).2.1 hh.symm
  have hxxr : x ≠ xr := by
    by_cases h : xr = NIL
    · rw [h]; exact hxNIL
    · exact fun hh => (hxrF h).2.2 hh.symm
  have hEQ : right_rotate_links r y =
      (let r1 := setLeft r y xr
       let r2 := if xr ≠ NIL then setParent r1 xr y else r1
       let r3 := setParent r2 x yp
       let r4 :=
         if y = r3.root then { r3 with root := x }
         else if y = (getN r3 yp).right then setRight r3 yp x
         else setLeft r3 yp x
       let r5 := setRight r4 x y
       setParent r5 y x) := by
    simp only [right_rotate_links]
    rw [hx', hxr', hyp']
  rw [hEQ]
  clear hEQ
  simp only []
  set L1 := setLeft r y xr with hL1
  set L2 := if xr ≠ NIL then setParent L1 xr y else L1 with hL2
  set L3 := setParent L2 x yp with hL3
  set L4 := if y = L3.root then { L3 with root := x }
    else if y = (getN L3 yp).right then setRight L3 yp x
    else setLeft L3 yp x with hL4
  set L5 := setRight L4 x y with hL5
  set L6 := setParent L5 y x with hL6
  have len1 : L1.nodes.length = r.nodes.length := setLeft_length _ _ _
  have len2 : L2.nodes.length = r.nodes.length := by
    rw [hL2]
    by_cases h : xr = NIL
    · rw [if_neg (by simp [h])]
      exact len1
    · rw [if_pos h, setParent_length]
      exact len1
  have len3 : L3.nodes.length = r.nodes.length := by
    rw [hL3, setParent_length]
    exact len2
  have root2 : L2.root = r.root := by
    rw [hL2]
    by_cases h : xr = NIL
    · rw [if_neg (by simp [h])]
      rfl
    · rw [if_pos h, setParent_root]
      rfl
  have root3 : L3.root = r.root := by
    rw [hL3, setParent_root]
    exact root2
  have len4 : L4.nodes.length = r.nodes.length := by
    rw [hL4]
    by_cases h : y = L3.root
    · rw [if_pos h]
      exact len3
    · rw [if_neg h]
      by_cases h2 : y = (getN L3 yp).right
      · rw [if_pos h2, setRight_length]
        exact len3
      · rw [if_neg h2, setLeft_length]
        exact len3
  have len5 : L5.nodes.length = r.nodes.length := by
    rw [hL5, setRight_length]
    exact len4
  have len6 : L6.nodes.length = r.nodes.length := by
    rw [hL6, setParent_length]
    exact len5
  have at1y : nodeAt L1.nodes y = { nodeAt r.nodes y with left := xr } :=
    setLeft_nodeAt_self _ _ _ hylt
  have at1 : ∀ j, j ≠ y → nodeAt L1.nodes j = nodeAt r.nodes j := by
    intro j hj
    exact setLeft_nodeAt_ne _ _ _ _ (fun h => hj h.symm)
  have at2xr : xr ≠ NIL → nodeAt L2.nodes xr = { nodeAt L1.nodes xr with parent := y } := by
    intro h
    rw [hL2, if_pos h]
    exact setParent_nodeAt_self _ _ _ (by rw [len1]; exact (hxrF h).1)
  have at2 : ∀ j, j ≠ xr → nodeAt L2.nodes j = nodeAt L1.nodes j := by
    intro j hj
    rw [hL2]
    by_cases h : xr = NIL
    · rw [if_neg (by simp [h])]
    · rw [if_pos h]
      exact setParent_nodeAt_ne _ _ _ _ (fun hh => hj hh.symm)
  have at3x : nodeAt L3.nodes x = { nodeAt L2.nodes x with parent := yp } := by
    rw [hL3]
    exact setParent_nodeAt_self _ _ _ (by rw [len2]; exact hxlt)
  have at3 : ∀ j, j ≠ x → nodeAt L3.nodes j = nodeAt L2.nodes j := by
    intro j hj
    rw [hL3]
    exact setParent_nodeAt_ne _ _ _ _ (fun hh => hj hh.symm)
  refine ⟨len6, ?_, ?_, ?_, ?_, ?_, ?_⟩
  all_goals rcases hpar with ⟨hroot, hypNIL⟩ | ⟨hroot, hyplt, hypy, hypx, hypxr⟩
  -- Root, y = root.
  · have h4 : L4 = { L3 with root := x } := by
      rw [hL4, if_pos (by rw [root3]; exact hroot)]
    rw [hL6, setParent_root, hL5, setRight_root, h4, if_pos hroot]
  -- Root, y ≠ root.
  · have h4 : L4.root = r.root := by
      rw [hL4, if_neg (by rw [root3]; exact hroot)]
      by_cases h2 : y = (getN L3 yp).right
      · rw [if_pos h2, setRight_root]
        exact root3
      · rw [if_neg h2, setLeft_root]
        exact root3
    rw [hL6, setParent_root, hL5, setRight_root, h4, if_neg hroot]
  -- y-fact, y = root.
  · have at4 : ∀ j, nodeAt L4.nodes j = nodeAt L3.nodes j := by
      intro j
      rw [hL4, if_pos (by rw [root3]; exact hroot)]
    have at6y : nodeAt L6.nodes y = { nodeAt L5.nodes y with parent := x } := by
      rw [hL6]
      exact setParent_nodeAt_self _ _ _ (by rw [len5]; exact hylt)
    have at5y : nodeAt L5.nodes y = nodeAt L4.nodes y := by
      rw [hL5]
      exact setRight_nodeAt_ne _ _ _ _ hyx.symm
    rw [at6y, at5y, at4, at3 y hyx, at2 y hyxr, at1y]
  -- y-fact, y ≠ root.
  · have at4y : nodeAt L4.nodes y = nodeAt L3.nodes y := by
      rw [hL4, if_neg (by rw [root3]; exact hroot)]
      by_cases h2 : y = (getN L3 yp).right
      · rw [if_pos h2]
        exact setRight_nodeAt_ne _ _ _ _ hypy
      · rw [if_neg h2]
        exact setLeft_nodeAt_ne _ _ _ _ hypy
    have at6y : nodeAt L6.nodes y = { nodeAt L5.nodes y with parent := x } := by
      rw [hL6]
      exact setParent_nodeAt_self _ _ _ (by rw [len5]; exact hylt)
    have at5y : nodeAt L5.nodes y = nodeAt L4.nodes y := by
      rw [hL5]
      exact setRight_nodeAt_ne _ _ _ _ hyx.symm
    rw [at6y, at5y, at4y, at3 y hyx, at2 y hyxr, at1y]
  -- x-fact, y = root.
  · have at4 : ∀ j, nodeAt L4.nodes j = nodeAt L3.nodes j := by
      intro j
      rw [hL4, if_pos (by rw [root3]; exact hroot)]
    have at6x : nodeAt L6.nodes x = nodeAt L5.nodes x := by
      rw [hL6]
      exact setParent_nodeAt_ne _ _ _ _ hyx
    have at5x : nodeAt L5.nodes x = { nodeAt L4.nodes x with right := y } := by
      rw [hL5]
      exact setRight_nodeAt_self _ _ _ (by rw [len4]; exact hxlt)
    rw [at6x, at5x, at4, at3x, at2 x hxxr, at1 x (fun hh => hyx hh.symm)]
  -- x-fact, y ≠ root.
  · have at4x : nodeAt L4.nodes x = nodeAt L3.nodes x := by
      rw [hL4, if_neg (by rw [root3]; exact hroot)]
      by_cases h2 : y = (getN L3 yp).right
      · rw [if_pos h2]
        exact setRight_nodeAt_ne _ _ _ _ hypx
      · rw [if_neg h2]
        exact setLeft_nodeAt_ne _ _ _ _ hypx
    have at6x : nodeAt L6.nodes x = nodeAt L5.nodes x := by
      rw [hL6]
      exact setParent_nodeAt_ne _ _ _ _ hyx
    have at5x : nodeAt L5.nodes x = { nodeAt L4.nodes x with right := y } := by
      rw [hL5]
      exact setRight_nodeAt_self _ _ _ (by rw [len4]; exact hxlt)
    rw [at6x, at5x, at4x, at3x, at2 x hxxr, at1 x (fun hh => hyx hh.symm)]
  -- xr-fact, y = root.
  · intro hxrNIL
    obtain ⟨hxrlt, hxry, hxrx⟩ := hxrF hxrNIL
    have at4 : ∀ j, nodeAt L4.nodes j = nodeAt L3.nodes j := by
      intro j
      rw [hL4, if_pos (by rw [root3]; exact hroot)]
    have at6xr : nodeAt L6.nodes xr = nodeAt L5.nodes xr := by
      rw [hL6]
      exact setParent_nodeAt_ne _ _ _ _ (fun hh => hxry hh.symm)
    have at5xr : nodeAt L5.nodes xr = nodeAt L4.nodes xr := by
      rw [hL5]
      exact setRight_nodeAt_ne _ _ _ _ (fun hh => hxrx hh.symm)
    rw [at6xr, at5xr, at4, at3 xr hxrx, at2xr hxrNIL, at1 xr hxry]
  -- xr-fact, y ≠ root.
  · intro hxrNIL
    obtain ⟨hxrlt, hxry, hxrx⟩ := hxrF hxrNIL
    have at4xr : nodeAt L4.nodes xr = nodeAt L3.nodes xr := by
      rw [hL4, if_neg (by rw [root3]; exact hroot)]
      by_cases h2 : y = (getN L3 yp).right
      · rw [if_pos h2]
        exact setRight_nodeAt_ne _ _ _ _ hypxr
      · rw [if_neg h2]
        exact setLeft_nodeAt_ne _ _ _ _ hypxr
    have at6xr : nodeAt L6.nodes xr = nodeAt L5.nodes xr := by
      rw [hL6]
      exact setParent_nodeAt_ne _ _ _ _ (fun hh => hxry hh.symm)
    have at5xr : nodeAt L5.nodes xr = nodeAt L4.nodes xr := by
      rw [hL5]
      exact setRight_nodeAt_ne _ _ _ _ (fun hh => hxrx hh.symm)
    rw [at6xr, at5xr, at4xr, at3 xr hxrx, at2xr hxrNIL, at1 xr hxry]
  -- yp-fact, y = root (vacuous).
  · intro hcontra
    exact absurd hroot hcontra
  -- yp-fact, y ≠ root.
  · intro _
    have hyp3 : nodeAt L3.nodes yp = nodeAt r.nodes yp := by
      rw [at3 yp hypx, at2 yp hypxr, at1 yp hypy]
    have hcondEq : (y = (getN L3 yp).right) = ((nodeAt r.nodes yp).right = y) := by
      rw [getN_eq_nodeAt, hyp3]
      exact propext ⟨fun h => h.symm, fun h => h.symm⟩
    have at6yp : nodeAt L6.nodes yp = nodeAt L5.nodes yp := by
      rw [hL6]
      exact setParent_nodeAt_ne _ _ _ _ (fun hh => hypy hh.symm)
    have at5yp : nodeAt L5.nodes yp = nodeAt L4.nodes yp := by
      rw [hL5]
      exact setRight_nodeAt_ne _ _ _ _ (fun hh => hypx hh.symm)
    rw [at6yp, at5yp, hL4, if_neg (by rw [root3]; exact hroot)]
    by_cases hside : (nodeAt r.nodes yp).right = y
    · rw [if_pos (by rw [hcondEq]; exact hside), if_pos hside]
      rw [setRight_nodeAt_self _ _ _ (by rw [len3]; exact hyplt), hyp3]
    · rw [if_neg (by rw [hcondEq]; exact hside), if_neg hside]
      rw [setLeft_nodeAt_self _ _ _ (by rw [len3]; exact hyplt), hyp3]
  -- Frame, y = root.
  · intro j hjy hjx hjxr hjyp
    have at4 : ∀ j2, nodeAt L4.nodes j2 = nodeAt L3.nodes j2 := by
      intro j2
      rw [hL4, if_pos (by rw [root3]; exact hroot)]
    have at6j : nodeAt L6.nodes j = nodeAt L5.nodes j := by
      rw [hL6]
      exact setParent_nodeAt_ne _ _ _ _ (fun hh => hjy hh.symm)
    have at5j : nodeAt L5.nodes j = nodeAt L4.nodes j := by
      rw [hL5]
      exact setRight_nodeAt_ne _ _ _ _ (fun hh => hjx hh.symm)
    rw [at6j, at5j, at4, at3 j hjx, at2 j hjxr, at1 j hjy]
  -- Frame, y ≠ root.
  · intro j hjy hjx hjxr hjyp
    have at4j : nodeAt L4.nodes j = nodeAt L3.nodes j := by
      rw [hL4, if_neg (by rw [root3]; exact hroot)]
      by_cases h2 : y = (getN L3 yp).right
      · rw [if_pos h2]
        exact setRight_nodeAt_ne _ _ _ _ (fun hh => hjyp hh.symm)
      · rw [if_neg h2]
        exact setLeft_nodeAt_ne _ _ _ _ (fun hh => hjyp hh.symm)
    have at6j : nodeAt L6.nodes j = nodeAt L5.nodes j := by
      rw [hL6]
      exact setParent_nodeAt_ne _ _ _ _ (fun hh => hjy hh.symm)
    have at5j : nodeAt L5.nodes j = nodeAt L4.nodes j := by
      rw [hL5]
      exact setRight_nodeAt_ne _ _ _ _ (fun hh => hjx hh.symm)
    rw [at6j, at5j, at4j, at3 j hjx, at2 j hjxr, at1 j hjy]

/-- Abstract left rotation at the node with id `x`. -/
def rotL : BT → Nat → BT
  | .nil, _ => .nil
  | .node l i r, x =>
    if i = x then
      match r with
      | .node rl yid rr => .node (.node l i rl) yid rr
      | .nil => .node l i r
    else .node (rotL l x) i (rotL r x)

/-- Abstract right rotation at the node with id `y`. -/
def rotR : BT → Nat → BT
  | .nil, _ => .nil
  | .node l i r, y =>
    if i = y then
      match l with
      | .node ll xid lr => .node ll xid (.node lr i r)
      | .nil => .node l i r
    else .node (rotR l y) i (rotR r y)

theorem ids_rotL : ∀ (t : BT) (x : Nat), (rotL t x).ids = t.ids
  | .nil, _ => rfl
  | .node l i r, x => by
    by_cases h : i = x
    · cases r with
      | nil => simp [rotL, h]
      | node rl yid rr => simp [rotL, h, BT.ids]
    · simp [rotL, h, BT.ids, ids_rotL l x, ids_rotL r x]

theorem ids_rotR : ∀ (t : BT) (y : Nat), (rotR t y).ids = t.ids
  | .nil, _ => rfl
  | .node l i r, y => by
    by_cases h : i = y
    · cases l with
      | nil => simp [rotR, h]
      | node ll xid lr => simp [rotR, h, BT.ids]
    · simp [rotR, h, BT.ids, ids_rotR l y, ids_rotR r y]

/-- A tree represented at `NIL` is empty (arena indices are below `NIL`). -/
theorem ReprAt_NIL_nil (ns : List Node) (hsz : ns.length ≤ NIL) :
    ∀ (t : BT) (p : Nat), ReprAt ns t NIL p → t = .nil
  | .nil, _, _ => rfl
  | .node l k r, p, h => absurd h.2.1 (by omega)

/-- Split the no-duplicates fact of a node's id list into its parts. -/
theorem nodup_parts (l : BT) (k : Nat) (r : BT) (h : (BT.node l k r).ids.Nodup) :
    l.ids.Nodup ∧ r.ids.Nodup ∧ k ∉ l.ids ∧ k ∉ r.ids ∧
      ∀ a, a ∈ l.ids → a ∉ r.ids := by
  rw [BT.ids, List.nodup_append] at h
  obtain ⟨h1, h2, h3⟩ := h
  rw [List.nodup_cons] at h2
  refine ⟨h1, h2.2, ?_, h2.1, ?_⟩
  · intro hmem
    exact h3 hmem (List.mem_cons_self _ _)
  · intro a ha har
    exact h3 ha (List.mem_cons_of_mem _ har)

theorem mem_ids_node_left (l : BT) (k : Nat) (r : BT) (j : Nat) (h : j ∈ l.ids) :
    j ∈ (BT.node l k r).ids := by
  rw [BT.ids]
  exact List.mem_append_left _ h

theorem mem_ids_node_right (l : BT) (k : Nat) (r : BT) (j : Nat) (h : j ∈ r.ids) :
    j ∈ (BT.node l k r).ids := by
  rw [BT.ids]
  exact List.mem_append_right _ (List.mem_cons_of_mem _ h)

theorem mem_ids_node_self (l : BT) (k : Nat) (r : BT) :
    k ∈ (BT.node l k r).ids := by
  rw [BT.ids]
  exact List.mem_append_right _ (List.mem_cons_self _ _)

theorem mem_ids_node_cases (l : BT) (k : Nat) (r : BT) (j : Nat)
    (h : j ∈ (BT.node l k r).ids) : j ∈ l.ids ∨ j = k ∨ j ∈ r.ids := by
  rw [BT.ids] at h
  rcases List.mem_append.mp h with h1 | h2
  · exact Or.inl h1
  · rcases List.mem_cons.mp h2 with h3 | h4
    · exact Or.inr (Or.inl h3)
    · exact Or.inr (Or.inr h4)

/-- Change the recorded parent of a represented subtree's root. -/
theorem ReprAt_reparent (ns ns2 : List Node) (hlen : ns2.length = ns.length) :
    ∀ (t : BT) (i p p2 : Nat), ReprAt ns t i p → t.ids.Nodup →
      (t ≠ .nil → nodeAt ns2 i = { nodeAt ns i with parent := p2 }) →
      (∀ j ∈ t.ids, j ≠ i → linksEq (nodeAt ns2 j) (nodeAt ns j)) →
      ReprAt ns2 t i p2
  | .nil, i, p, p2, h, _, _, _ => h
  | .node l k r, i, p, p2, h, hnd, hroot, hrest => by
    obtain ⟨hik, hlt, hpar, hl, hr⟩ := h
    subst hik
    have hnode := hroot (fun hh => BT.noConfusion hh)
    obtain ⟨hndl, hndr, hkl, hkr, hdisj⟩ := nodup_parts l i r hnd
    refine ⟨rfl, by rw [hlen]; exact hlt, by rw [hnode], ?_, ?_⟩
    · have hleq : (nodeAt ns2 i).left = (nodeAt ns i).left := by rw [hnode]
      rw [hleq]
      refine ReprAt_congr ns ns2 hlen l _ i ?_ hl
      intro j hj
      exact hrest j (mem_ids_node_left l i r j hj) (fun hji => hkl (hji ▸ hj))
    · have hreq : (nodeAt ns2 i).right = (nodeAt ns i).right := by rw [hnode]
      rw [hreq]
      refine ReprAt_congr ns ns2 hlen r _ i ?_ hr
      intro j hj
      exact hrest j (mem_ids_node_right l i r j hj) (fun hji => hkr (hji ▸ hj))

/-- The right child of a member node is a member (when present). -/
theorem ReprAt_right_child_mem (ns : List Node) (hsz : ns.length ≤ NIL) :
    ∀ (t : BT) (i p x : Nat), ReprAt ns t i p → x ∈ t.ids →
      (nodeAt ns x).right ≠ NIL → (nodeAt ns x).right ∈ t.ids
  | .nil, _, _, x, _, hx, _ => absurd hx (by simp [BT.ids])
  | .node l k r, i, p, x, h, hx, hne => by
    obtain ⟨hik, hlt, hpar, hl, hr⟩ := h
    subst hik
    rcases mem_ids_node_cases l i r x hx with hxl | hxk | hxr
    · exact mem_ids_node_left l i r _
        (ReprAt_right_child_mem ns hsz l _ i x hl hxl hne)
    · subst hxk
      cases r with
      | nil => exact absurd (hr : (nodeAt ns x).right = NIL) hne
      | node a c b =>
        have hc : (nodeAt ns x).right = c := hr.1
        rw [hc]
        exact mem_ids_node_right l x _ _ (mem_ids_node_self a c b)
    · exact mem_ids_node_right l i r _
        (ReprAt_right_child_mem ns hsz r _ i x hr hxr hne)

/-- The left child of a member node is a member (when present). -/
theorem ReprAt_left_child_mem (ns : List Node) (hsz : ns.length ≤ NIL) :
    ∀ (t : BT) (i p x : Nat), ReprAt ns t i p → x ∈ t.ids →
      (nodeAt ns x).left ≠ NIL → (nodeAt ns x).left ∈ t.ids
  | .nil, _, _, x, _, hx, _ => absurd hx (by simp [BT.ids])
  | .node l k r, i, p, x, h, hx, hne => by
    obtain ⟨hik, hlt, hpar, hl, hr⟩ := h
    subst hik
    rcases mem_ids_node_cases l i r x hx with hxl | hxk | hxr
    · exact mem_ids_node_left l i r _
        (ReprAt_left_child_mem ns hsz l _ i x hl hxl hne)
    · subst hxk
      cases l with
      | nil => exact absurd (hl : (nodeAt ns x).left = NIL) hne
      | node a c b =>
        have hc : (nodeAt ns x).left = c := hl.1
        rw [hc]
        exact mem_ids_node_left _ x r _ (mem_ids_node_self a c b)
    · exact mem_ids_node_right l i r _
        (ReprAt_left_child_mem ns hsz r _ i x hr hxr hne)

/-- The parent of a non-root member is a member. -/
theorem ReprAt_parent_mem (ns : List Node) :
    ∀ (t : BT) (i p x : Nat), ReprAt ns t i p → x ∈ t.ids → x ≠ i →
      (nodeAt ns x).parent ∈ t.ids
  | .nil, _, _, x, _, hx, _ => absurd hx (by simp [BT.ids])
  | .node l k r, i, p, x, h, hx, hxi => by
    obtain ⟨hik, hlt, hpar, hl, hr⟩ := h
    subst hik
    rcases mem_ids_node_cases l i r x hx with hxl | hxk | hxr
    · cases l with
      | nil => exact absurd hxl (by simp [BT.ids])
      | node a c b =>
        obtain ⟨h1, h2, h3, h4, h5⟩ := hl
        by_cases hxc : x = c
        · subst hxc
          rw [h1] at h3
          rw [h3]
          exact mem_ids_node_self _ _ _
        · exact mem_ids_node_left _ i r _
            (ReprAt_parent_mem ns (.node a c b) _ i x ⟨h1, h2, h3, h4, h5⟩ hxl
              (fun hh => hxc (hh.trans h1)))
    · exact absurd hxk hxi
    · cases r with
      | nil => exact absurd hxr (by simp [BT.ids])
      | node a c b =>
        obtain ⟨h1, h2, h3, h4, h5⟩ := hr
        by_cases hxc : x = c
        · subst hxc
          rw [h1] at h3
          rw [h3]
          exact mem_ids_node_self _ _ _
        · exact mem_ids_node_right l i _ _
            (ReprAt_parent_mem ns (.node a c b) _ i x ⟨h1, h2, h3, h4, h5⟩ hxr
              (fun hh => hxc (hh.trans h1)))

/-- Rotation at an absent id is the identity. -/
theorem rotL_not_mem : ∀ (t : BT) (x : Nat), x ∉ t.ids → rotL t x = t
  | .nil, _, _ => rfl
  | .node l i r, x, hx => by
    have hix : i ≠ x := fun hh => hx (hh ▸ mem_ids_node_self l i r)
    simp only [rotL, if_neg hix,
      rotL_not_mem l x (fun hh => hx (mem_ids_node_left l i r x hh)),
      rotL_not_mem r x (fun hh => hx (mem_ids_node_right l i r x hh))]

theorem rotR_not_mem : ∀ (t : BT) (y : Nat), y ∉ t.ids → rotR t y = t
  | .nil, _, _ => rfl
  | .node l i r, y, hy => by
    have hiy : i ≠ y := fun hh => hy (hh ▸ mem_ids_node_self l i r)
    simp only [rotR, if_neg hiy,
      rotR_not_mem l y (fun hh => hy (mem_ids_node_left l i r y hh)),
      rotR_not_mem r y (fun hh => hy (mem_ids_node_right l i r y hh))]

theorem linksEq_of_eq (a b : Node) (h : a = b) : linksEq a b := by
  rw [h]; exact linksEq_refl b

/-- The root id of a nonempty represented tree is a member. -/
theorem ReprAt_root_mem (ns : List Node) :
    ∀ (t : BT) (i p : Nat), ReprAt ns t i p → i ≠ NIL → i ∈ t.ids
  | .nil, i, p, h, hne => absurd (h : i = NIL) hne
  | .node l k r, i, p, h, _ => by
    rw [h.1]
    exact mem_ids_node_self l k r

theorem rotL_node_ne (l : BT) (i : Nat) (r : BT) (x : Nat) (h : i ≠ x) :
    rotL (.node l i r) x = .node (rotL l x) i (rotL r x) := by
  simp [rotL, h]

theorem rotL_node_eq (l : BT) (x : Nat) (rl : BT) (y : Nat) (rr : BT) :
    rotL (.node l x (.node rl y rr)) x = .node (.node l x rl) y rr := by
  simp [rotL]

theorem rotR_node_ne (l : BT) (i : Nat) (r : BT) (y : Nat) (h : i ≠ y) :
    rotR (.node l i r) y = .node (rotR l y) i (rotR r y) := by
  simp [rotR, h]

theorem rotR_node_eq (ll : BT) (x : Nat) (lr : BT) (y : Nat) (r : BT) :
    rotR (.node (.node ll x lr) y r) y = .node ll x (.node lr y r) := by
  simp [rotR]

/-- Left rotation: the arena after `left_rotate`-style link surgery represents
the abstractly rotated tree. -/
theorem ReprAt_rotL_go (ns ns2 : List Node) (x y yl xp : Nat)
    (hsz : ns.length ≤ NIL) (hlen : ns2.length = ns.length)
    (hyNIL : y ≠ NIL)
    (hyF : (nodeAt ns x).right = y)
    (hylF : (nodeAt ns y).left = yl)
    (hxpF : (nodeAt ns x).parent = xp)
    (hx2 : nodeAt ns2 x = { nodeAt ns x with right := yl, parent := y })
    (hy2 : nodeAt ns2 y = { nodeAt ns y with left := x, parent := xp })
    (hyl2 : yl ≠ NIL → nodeAt ns2 yl = { nodeAt ns yl with parent := x })
    (hxp2 : xp ≠ NIL → nodeAt ns2 xp
        = (if (nodeAt ns xp).left = x then { nodeAt ns xp with left := y }
           else { nodeAt ns xp with right := y }))
    (hframe : ∀ j, j ≠ x → j ≠ y → j ≠ yl → j ≠ xp →
      nodeAt ns2 j = nodeAt ns j) :
    ∀ (t : BT) (i p : Nat), ReprAt ns t i p → t.ids.Nodup → p ∉ t.ids →
      x ∈ t.ids → ReprAt ns2 (rotL t x) (if i = x then y else i) p := by
  intro t
  induction t with
  | nil =>
    intro i p h hnd hp hx
    exact absurd hx (by simp [BT.ids])
  | node l k r ihl ihr =>
    intro i p h hnd hp hx
    obtain ⟨hik, hlt, hpar, hl, hr⟩ := h
    subst hik
    obtain ⟨hndl, hndr, hil, hir, hdisj⟩ := nodup_parts l i r hnd
    have hiNIL : i ≠ NIL := by omega
    by_cases hix : i = x
    · have hxi : x = i := hix.symm
      subst hxi
      have hpxp : xp = p := by rw [hpar] at hxpF; exact hxpF.symm
      rw [hyF] at hr
      cases r with
      | nil => exact absurd (hr : y = NIL) hyNIL
      | node rl c rr =>
        obtain ⟨hyc, hylt, hypar, hrl, hrr⟩ := hr
        subst hyc
        rw [hylF] at hrl
        rw [if_pos rfl, rotL_node_eq]
        have hyl_mem : yl ≠ NIL → yl ∈ rl.ids :=
          fun hne => ReprAt_root_mem ns rl yl y hrl hne
        have hy_memr : y ∈ (BT.node rl y rr).ids := mem_ids_node_self rl y rr
        obtain ⟨hndrl, hndrr, hyrl, hyrr, hdisjr⟩ := nodup_parts rl y rr hndr
        have hpl : p ∉ l.ids := fun hh => hp (mem_ids_node_left l x _ p hh)
        have hprl : p ∉ rl.ids := fun hh =>
          hp (mem_ids_node_right l x _ p (mem_ids_node_left rl y rr p hh))
        have hprr : p ∉ rr.ids := fun hh =>
          hp (mem_ids_node_right l x _ p (mem_ids_node_right rl y rr p hh))
        refine ⟨rfl, by rw [hlen]; exact hylt, by rw [hy2]; exact hpxp, ?_, ?_⟩
        · have hyleft : (nodeAt ns2 y).left = x := by rw [hy2]
          rw [hyleft]
          refine ⟨rfl, by rw [hlen]; exact hlt, by rw [hx2], ?_, ?_⟩
          · have hxleft : (nodeAt ns2 x).left = (nodeAt ns x).left := by rw [hx2]
            rw [hxleft]
            refine ReprAt_congr ns ns2 hlen l _ x ?_ hl
            intro j hj
            have hjx : j ≠ x := fun hh => hil (hh ▸ hj)
            have hjy : j ≠ y := fun hh => hdisj j hj (by rw [hh]; exact hy_memr)
            have hjyl : j ≠ yl := by
              by_cases hylN : yl = NIL
              · have := ReprAt_ids_lt ns l _ x hl j hj
                omega
              · intro hh
                exact hdisj j hj
                  (mem_ids_node_left rl y rr j (by rw [hh]; exact hyl_mem hylN))
            have hjxp : j ≠ xp := by
              rw [hpxp]
              exact fun hh => hpl (hh ▸ hj)
            exact linksEq_of_eq _ _ (hframe j hjx hjy hjyl hjxp)
          · have hxright : (nodeAt ns2 x).right = yl := by rw [hx2]
            rw [hxright]
            by_cases hylN : yl = NIL
            · have hrlnil : rl = .nil :=
                ReprAt_NIL_nil ns hsz rl y (by rw [← hylN]; exact hrl)
              rw [hrlnil, hylN]
              exact ReprAt_nil ns2 x
            · refine ReprAt_reparent ns ns2 hlen rl yl y x hrl hndrl
                (fun _ => hyl2 hylN) ?_
              intro j hj hjyl
              have hjrmem : j ∈ (BT.node rl y rr).ids :=
                mem_ids_node_left rl y rr j hj
              have hjx : j ≠ x := fun hh => hir (by rw [← hh]; exact hjrmem)
              have hjy : j ≠ y := fun hh => hyrl (by rw [← hh]; exact hj)
              have hjxp : j ≠ xp := by
                rw [hpxp]
                exact fun hh => hprl (hh ▸ hj)
              exact linksEq_of_eq _ _ (hframe j hjx hjy hjyl hjxp)
        · have hyright : (nodeAt ns2 y).right = (nodeAt ns y).right := by
            rw [hy2]
          rw [hyright]
          refine ReprAt_congr ns ns2 hlen rr _ y ?_ hrr
          intro j hj
          have hjr : j ∈ (BT.node rl y rr).ids := mem_ids_node_right rl y rr j hj
          have hjx : j ≠ x := fun hh => hir (by rw [← hh]; exact hjr)
          have hjy : j ≠ y := fun hh => hyrr (by rw [← hh]; exact hj)
          have hjyl : j ≠ yl := by
            by_cases hylN : yl = NIL
            · have := ReprAt_ids_lt ns rr _ y hrr j hj
              omega
            · intro hh
              exact hdisjr j (by rw [hh]; exact hyl_mem hylN) hj
          have hjxp : j ≠ xp := by
            rw [hpxp]
            exact fun hh => hprr (hh ▸ hj)
          exact linksEq_of_eq _ _ (hframe j hjx hjy hjyl hjxp)
    · rcases mem_ids_node_cases l i r x hx with hxl | hxi | hxr
      · -- x is in the left subtree
        have hyinl : y ∈ l.ids := by
          have := ReprAt_right_child_mem ns hsz l _ i x hl hxl
            (by rw [hyF]; exact hyNIL)
          rw [hyF] at this
          exact this
        have hylinl : yl ≠ NIL → yl ∈ l.ids := by
          intro hne
          have := ReprAt_left_child_mem ns hsz l _ i y hl hyinl
            (by rw [hylF]; exact hne)
          rw [hylF] at this
          exact this
        have hxnr : x ∉ r.ids := hdisj x hxl
        cases l with
        | nil => exact absurd hxl (by simp [BT.ids])
        | node a c b =>
          have hl1 : (nodeAt ns i).left = c := hl.1
          by_cases hcx : c = x
          · -- x is the root of the left subtree, so its parent is this node
            have h3 := hl.2.2.1
            rw [hl1, hcx] at h3
            rw [hxpF] at h3
            have hxpi : xp = i := h3
            have hi2 : nodeAt ns2 i = { nodeAt ns i with left := y } := by
              have h5 := hxp2 (by rw [hxpi]; exact hiNIL)
              rw [hxpi] at h5
              rw [if_pos (show (nodeAt ns i).left = x by rw [hl1, hcx])] at h5
              exact h5
            rw [if_neg hix, rotL_node_ne _ _ _ _ hix, rotL_not_mem r x hxnr]
            refine ⟨rfl, by rw [hlen]; exact hlt, by rw [hi2]; exact hpar,
              ?_, ?_⟩
            · have hileft : (nodeAt ns2 i).left = y := by rw [hi2]
              rw [hileft]
              have hrec := ihl _ i hl hndl hil hxl
              rw [hl1, if_pos hcx] at hrec
              exact hrec
            · have hiright : (nodeAt ns2 i).right = (nodeAt ns i).right := by
                rw [hi2]
              rw [hiright]
              refine ReprAt_congr ns ns2 hlen r _ i ?_ hr
              intro j hj
              have hjx : j ≠ x := fun hh => hxnr (hh ▸ hj)
              have hjy : j ≠ y := fun hh => hdisj y hyinl (hh ▸ hj)
              have hjyl : j ≠ yl := by
                by_cases hylN : yl = NIL
                · have := ReprAt_ids_lt ns r _ i hr j hj
                  omega
                · exact fun hh => hdisj yl (hylinl hylN) (hh ▸ hj)
              have hjxp : j ≠ xp := by
                rw [hxpi]
                exact fun hh => hir (hh ▸ hj)
              exact linksEq_of_eq _ _ (hframe j hjx hjy hjyl hjxp)
          · -- x is strictly inside the left subtree; this node is untouched
            have h4 := ReprAt_parent_mem ns (.node a c b) _ i x hl hxl
              (fun hh => hcx (hh.trans hl1).symm)
            rw [hxpF] at h4
            have hinot : nodeAt ns2 i = nodeAt ns i := by
              refine hframe i hix (fun hh => hil (hh ▸ hyinl)) ?_
                (fun hh => hil (hh ▸ h4))
              by_cases hylN : yl = NIL
              · rw [hylN]; exact hiNIL
              · exact fun hh => hil (hh ▸ hylinl hylN)
            rw [if_neg hix, rotL_node_ne _ _ _ _ hix, rotL_not_mem r x hxnr]
            refine ⟨rfl, by rw [hlen]; exact hlt, by rw [hinot]; exact hpar,
              ?_, ?_⟩
            · rw [hinot]
              have hrec := ihl _ i hl hndl hil hxl
              rw [hl1, if_neg hcx] at hrec
              rw [hl1]
              exact hrec
            · rw [hinot]
              refine ReprAt_congr ns ns2 hlen r _ i ?_ hr
              intro j hj
              have hjx : j ≠ x := fun hh => hxnr (hh ▸ hj)
              have hjy : j ≠ y := fun hh => hdisj y hyinl (hh ▸ hj)
              have hjyl : j ≠ yl := by
                by_cases hylN : yl = NIL
                · have := ReprAt_ids_lt ns r _ i hr j hj
                  omega
                · exact fun hh => hdisj yl (hylinl hylN) (hh ▸ hj)
              have hjxp : j ≠ xp := fun hh => hdisj xp h4 (hh ▸ hj)
              exact linksEq_of_eq _ _ (hframe j hjx hjy hjyl hjxp)
      · exact absurd hxi.symm hix
      · -- x is in the right subtree
        have hyinr : y ∈ r.ids := by
          have := ReprAt_right_child_mem ns hsz r _ i x hr hxr
            (by rw [hyF]; exact hyNIL)
          rw [hyF] at this
          exact this
        have hylinr : yl ≠ NIL → yl ∈ r.ids := by
          intro hne
          have := ReprAt_left_child_mem ns hsz r _ i y hr hyinr
            (by rw [hylF]; exact hne)
          rw [hylF] at this
          exact this
        have hxnl : x ∉ l.ids := fun hh => hdisj x hh hxr
        cases r with
        | nil => exact absurd hxr (by simp [BT.ids])
        | node a c b =>
          have hr1 : (nodeAt ns i).right = c := hr.1
          by_cases hcx : c = x
          · -- x is the root of the right subtree, so its parent is this node
            have h3 := hr.2.2.1
            rw [hr1, hcx] at h3
            rw [hxpF] at h3
            have hxpi : xp = i := h3
            have hcond : (nodeAt ns i).left ≠ x := by
              intro heq
              have hxlen : x < ns.length :=
                ReprAt_ids_lt ns (.node a c b) _ i hr x hxr
              have hmem := ReprAt_root_mem ns l _ i hl (by rw [heq]; omega)
              rw [heq] at hmem
              exact hdisj x hmem hxr
            have hi2 : nodeAt ns2 i = { nodeAt ns i with right := y } := by
              have h5 := hxp2 (by rw [hxpi]; exact hiNIL)
              rw [hxpi] at h5
              rw [if_neg hcond] at h5
              exact h5
            rw [if_neg hix, rotL_node_ne _ _ _ _ hix, rotL_not_mem l x hxnl]
            refine ⟨rfl, by rw [hlen]; exact hlt, by rw [hi2]; exact hpar,
              ?_, ?_⟩
            · have hileft : (nodeAt ns2 i).left = (nodeAt ns i).left := by
                rw [hi2]
              rw [hileft]
              refine ReprAt_congr ns ns2 hlen l _ i ?_ hl
              intro j hj
              have hjx : j ≠ x := fun hh => hxnl (hh ▸ hj)
              have hjy : j ≠ y := fun hh => hdisj j hj (by rw [hh]; exact hyinr)
              have hjyl : j ≠ yl := by
                by_cases hylN : yl = NIL
                · have := ReprAt_ids_lt ns l _ i hl j hj
                  omega
                · exact fun hh => hdisj j hj (by rw [hh]; exact hylinr hylN)
              have hjxp : j ≠ xp := by
                rw [hxpi]
                exact fun hh => hil (hh ▸ hj)
              exact linksEq_of_eq _ _ (hframe j hjx hjy hjyl hjxp)
            · have hiright : (nodeAt ns2 i).right = y := by rw [hi2]
              rw [hiright]
              have hrec := ihr _ i hr hndr hir hxr
              rw [hr1, if_pos hcx] at hrec
              exact hrec
          · -- x is strictly inside the right subtree; this node is untouched
            have h4 := ReprAt_parent_mem ns (.node a c b) _ i x hr hxr
              (fun hh => hcx (hh.trans hr1).symm)
            rw [hxpF] at h4
            have hinot : nodeAt ns2 i = nodeAt ns i := by
              refine hframe i hix (fun hh => hir (hh ▸ hyinr)) ?_
                (fun hh => hir (hh ▸ h4))
              by_cases hylN : yl = NIL
              · rw [hylN]; exact hiNIL
              · exact fun hh => hir (hh ▸ hylinr hylN)
            rw [if_neg hix, rotL_node_ne _ _ _ _ hix, rotL_not_mem l x hxnl]
            refine ⟨rfl, by rw [hlen]; exact hlt, by rw [hinot]; exact hpar,
              ?_, ?_⟩
            · rw [hinot]
              refine ReprAt_congr ns ns2 hlen l _ i ?_ hl
              intro j hj
              have hjx : j ≠ x := fun hh => hxnl (hh ▸ hj)
              have hjy : j ≠ y := fun hh => hdisj j hj (by rw [hh]; exact hyinr)
              have hjyl : j ≠ yl := by
                by_cases hylN : yl = NIL
                · have := ReprAt_ids_lt ns l _ i hl j hj
                  omega
                · exact fun hh => hdisj j hj (by rw [hh]; exact hylinr hylN)
              have hjxp : j ≠ xp := fun hh => hdisj j hj (by rw [hh]; exact h4)
              exact linksEq_of_eq _ _ (hframe j hjx hjy hjyl hjxp)
            · rw [hinot]
              have hrec := ihr _ i hr hndr hir hxr
              rw [hr1, if_neg hcx] at hrec
              rw [hr1]
              exact hrec

/-- Right rotation: the arena after `right_rotate`-style link surgery
represents the abstractly rotated tree. -/
theorem ReprAt_rotR_go (ns ns2 : List Node) (y x xr yp : Nat)
    (hsz : ns.length ≤ NIL) (hlen : ns2.length = ns.length)
    (hxNIL : x ≠ NIL)
    (hxF : (nodeAt ns y).left = x)
    (hxrF : (nodeAt ns x).right = xr)
    (hypF : (nodeAt ns y).parent = yp)
    (hy2 : nodeAt ns2 y = { nodeAt ns y with left := xr, parent := x })
    (hx2 : nodeAt ns2 x = { nodeAt ns x with right := y, parent := yp })
    (hxr2 : xr ≠ NIL → nodeAt ns2 xr = { nodeAt ns xr with parent := y })
    (hyp2 : yp ≠ NIL → nodeAt ns2 yp
        = (if (nodeAt ns yp).right = y then { nodeAt ns yp with right := x }
           else { nodeAt ns yp with left := x }))
    (hframe : ∀ j, j ≠ y → j ≠ x → j ≠ xr → j ≠ yp →
      nodeAt ns2 j = nodeAt ns j) :
    ∀ (t : BT) (i p : Nat), ReprAt ns t i p → t.ids.Nodup → p ∉ t.ids →
      y ∈ t.ids → ReprAt ns2 (rotR t y) (if i = y then x else i) p := by
  intro t
  induction t with
  | nil =>
    intro i p h hnd hp hy
    exact absurd hy (by simp [BT.ids])
  | node l k r ihl ihr =>
    intro i p h hnd hp hy
    obtain ⟨hik, hlt, hpar, hl, hr⟩ := h
    subst hik
    obtain ⟨hndl, hndr, hil, hir, hdisj⟩ := nodup_parts l i r hnd
    have hiNIL : i ≠ NIL := by omega
    by_cases hiy : i = y
    · have hyi : y = i := hiy.symm
      subst hyi
      have hpyp : yp = p := by rw [hpar] at hypF; exact hypF.symm
      rw [hxF] at hl
      cases l with
      | nil => exact absurd (hl : x = NIL) hxNIL
      | node ll c lr =>
        obtain ⟨hxc, hxlt, hxpar, hll, hlr⟩ := hl
        subst hxc
        rw [hxrF] at hlr
        rw [if_pos rfl, rotR_node_eq]
        have hxr_mem : xr ≠ NIL → xr ∈ lr.ids :=
          fun hne => ReprAt_root_mem ns lr xr x hlr hne
        have hx_meml : x ∈ (BT.node ll x lr).ids := mem_ids_node_self ll x lr
        obtain ⟨hndll, hndlr, hxll, hxlr, hdisjl⟩ := nodup_parts ll x lr hndl
        have hpr : p ∉ r.ids := fun hh => hp (mem_ids_node_right _ y r p hh)
        have hpll : p ∉ ll.ids := fun hh =>
          hp (mem_ids_node_left _ y r p (mem_ids_node_left ll x lr p hh))
        have hplr : p ∉ lr.ids := fun hh =>
          hp (mem_ids_node_left _ y r p (mem_ids_node_right ll x lr p hh))
        refine ⟨rfl, by rw [hlen]; exact hxlt, by rw [hx2]; exact hpyp, ?_, ?_⟩
        · have hxleft : (nodeAt ns2 x).left = (nodeAt ns x).left := by rw [hx2]
          rw [hxleft]
          refine ReprAt_congr ns ns2 hlen ll _ x ?_ hll
          intro j hj
          have hjl : j ∈ (BT.node ll x lr).ids := mem_ids_node_left ll x lr j hj
          have hjy : j ≠ y := fun hh => hil (by rw [← hh]; exact hjl)
          have hjx : j ≠ x := fun hh => hxll (by rw [← hh]; exact hj)
          have hjxr : j ≠ xr := by
            by_cases hxrN : xr = NIL
            · have := ReprAt_ids_lt ns ll _ x hll j hj
              omega
            · intro hh
              exact hdisjl j hj (by rw [hh]; exact hxr_mem hxrN)
          have hjyp : j ≠ yp := by
            rw [hpyp]
            exact fun hh => hpll (hh ▸ hj)
          exact linksEq_of_eq _ _ (hframe j hjy hjx hjxr hjyp)
        · have hxright : (nodeAt ns2 x).right = y := by rw [hx2]
          rw [hxright]
          refine ⟨rfl, by rw [hlen]; exact hlt, by rw [hy2], ?_, ?_⟩
          · have hyleft : (nodeAt ns2 y).left = xr := by rw [hy2]
            rw [hyleft]
            by_cases hxrN : xr = NIL
            · have hlrnil : lr = .nil :=
                ReprAt_NIL_nil ns hsz lr x (by rw [← hxrN]; exact hlr)
              rw [hlrnil, hxrN]
              exact ReprAt_nil ns2 y
            · refine ReprAt_reparent ns ns2 hlen lr xr x y hlr hndlr
                (fun _ => hxr2 hxrN) ?_
              intro j hj hjxr
              have hjlmem : j ∈ (BT.node ll x lr).ids :=
                mem_ids_node_right ll x lr j hj
              have hjy : j ≠ y := fun hh => hil (by rw [← hh]; exact hjlmem)
              have hjx : j ≠ x := fun hh => hxlr (by rw [← hh]; exact hj)
              have hjyp : j ≠ yp := by
                rw [hpyp]
                exact fun hh => hplr (hh ▸ hj)
              exact linksEq_of_eq _ _ (hframe j hjy hjx hjxr hjyp)
          · have hyright : (nodeAt ns2 y).right = (nodeAt ns y).right := by
              rw [hy2]
            rw [hyright]
            refine ReprAt_congr ns ns2 hlen r _ y ?_ hr
            intro j hj
            have hjy : j ≠ y := fun hh => hir (by rw [← hh]; exact hj)
            have hjx : j ≠ x := fun hh => hdisj j (by rw [hh]; exact hx_meml) hj
            have hjxr : j ≠ xr := by
              by_cases hxrN : xr = NIL
              · have := ReprAt_ids_lt ns r _ y hr j hj
                omega
              · intro hh
                exact hdisj j
                  (by rw [hh]
                      exact mem_ids_node_right ll x lr xr (hxr_mem hxrN)) hj
            have hjyp : j ≠ yp := by
              rw [hpyp]
              exact fun hh => hpr (hh ▸ hj)
            exact linksEq_of_eq _ _ (hframe j hjy hjx hjxr hjyp)
    · rcases mem_ids_node_cases l i r y hy with hyl | hyi2 | hyr
      · -- y is in the left subtree
        have hxinl : x ∈ l.ids := by
          have := ReprAt_left_child_mem ns hsz l _ i y hl hyl
            (by rw [hxF]; exact hxNIL)
          rw [hxF] at this
          exact this
        have hxrinl : xr ≠ NIL → xr ∈ l.ids := by
          intro hne
          have := ReprAt_right_child_mem ns hsz l _ i x hl hxinl
            (by rw [hxrF]; exact hne)
          rw [hxrF] at this
          exact this
        have hynr : y ∉ r.ids := hdisj y hyl
        cases l with
        | nil => exact absurd hyl (by simp [BT.ids])
        | node a c b =>
          have hl1 : (nodeAt ns i).left = c := hl.1
          by_cases hcy : c = y
          · -- y is the root of the left subtree, so its parent is this node
            have h3 := hl.2.2.1
            rw [hl1, hcy] at h3
            rw [hypF] at h3
            have hypi : yp = i := h3
            have hcond : (nodeAt ns i).right ≠ y := by
              intro heq
              have hylen : y < ns.length :=
                ReprAt_ids_lt ns (.node a c b) _ i hl y hyl
              have hmem := ReprAt_root_mem ns r _ i hr (by rw [heq]; omega)
              rw [heq] at hmem
              exact hdisj y hyl hmem
            have hi2 : nodeAt ns2 i = { nodeAt ns i with left := x } := by
              have h5 := hyp2 (by rw [hypi]; exact hiNIL)
              rw [hypi] at h5
              rw [if_neg hcond] at h5
              exact h5
            rw [if_neg hiy, rotR_node_ne _ _ _ _ hiy, rotR_not_mem r y hynr]
            refine ⟨rfl, by rw [hlen]; exact hlt, by rw [hi2]; exact hpar,
              ?_, ?_⟩
            · have hileft : (nodeAt ns2 i).left = x := by rw [hi2]
              rw [hileft]
              have hrec := ihl _ i hl hndl hil hyl
              rw [hl1, if_pos hcy] at hrec
              exact hrec
            · have hiright : (nodeAt ns2 i).right = (nodeAt ns i).right := by
                rw [hi2]
              rw [hiright]
              refine ReprAt_congr ns ns2 hlen r _ i ?_ hr
              intro j hj
              have hjy : j ≠ y := fun hh => hynr (hh ▸ hj)
              have hjx : j ≠ x := fun hh => hdisj x hxinl (hh ▸ hj)
              have hjxr : j ≠ xr := by
                by_cases hxrN : xr = NIL
                · have := ReprAt_ids_lt ns r _ i hr j hj
                  omega
                · exact fun hh => hdisj xr (hxrinl hxrN) (hh ▸ hj)
              have hjyp : j ≠ yp := by
                rw [hypi]
                exact fun hh => hir (hh ▸ hj)
              exact linksEq_of_eq _ _ (hframe j hjy hjx hjxr hjyp)
          · -- y is strictly inside the left subtree; this node is untouched
            have h4 := ReprAt_parent_mem ns (.node a c b) _ i y hl hyl
              (fun hh => hcy (hh.trans hl1).symm)
            rw [hypF] at h4
            have hinot : nodeAt ns2 i = nodeAt ns i := by
              refine hframe i hiy (fun hh => hil (hh ▸ hxinl)) ?_
                (fun hh => hil (hh ▸ h4))
              by_cases hxrN : xr = NIL
              · rw [hxrN]; exact hiNIL
              · exact fun hh => hil (hh ▸ hxrinl hxrN)
            rw [if_neg hiy, rotR_node_ne _ _ _ _ hiy, rotR_not_mem r y hynr]
            refine ⟨rfl, by rw [hlen]; exact hlt, by rw [hinot]; exact hpar,
              ?_, ?_⟩
            · rw [hinot]
              have hrec := ihl _ i hl hndl hil hyl
              rw [hl1, if_neg hcy] at hrec
              rw [hl1]
              exact hrec
            · rw [hinot]
              refine ReprAt_congr ns ns2 hlen r _ i ?_ hr
              intro j hj
              have hjy : j ≠ y := fun hh => hynr (hh ▸ hj)
              have hjx : j ≠ x := fun hh => hdisj x hxinl (hh ▸ hj)
              have hjxr : j ≠ xr := by
                by_cases hxrN : xr = NIL
                · have := ReprAt_ids_lt ns r _ i hr j hj
                  omega
                · exact fun hh => hdisj xr (hxrinl hxrN) (hh ▸ hj)
              have hjyp : j ≠ yp := fun hh => hdisj yp h4 (hh ▸ hj)
              exact linksEq_of_eq _ _ (hframe j hjy hjx hjxr hjyp)
      · exact absurd hyi2.symm hiy
      · -- y is in the right subtree
        have hxinr : x ∈ r.ids := by
          have := ReprAt_left_child_mem ns hsz r _ i y hr hyr
            (by rw [hxF]; exact hxNIL)
          rw [hxF] at this
          exact this
        have hxrinr : xr ≠ NIL → xr ∈ r.ids := by
          intro hne
          have := ReprAt_right_child_mem ns hsz r _ i x hr hxinr
            (by rw [hxrF]; exact hne)
          rw [hxrF] at this
          exact this
        have hynl : y ∉ l.ids := fun hh => hdisj y hh hyr
        cases r with
        | nil => exact absurd hyr (by simp [BT.ids])
        | node a c b =>
          have hr1 : (nodeAt ns i).right = c := hr.1
          by_cases hcy : c = y
          · -- y is the root of the right subtree, so its parent is this node
            have h3 := hr.2.2.1
            rw [hr1, hcy] at h3
            rw [hypF] at h3
            have hypi : yp = i := h3
            have hi2 : nodeAt ns2 i = { nodeAt ns i with right := x } := by
              have h5 := hyp2 (by rw [hypi]; exact hiNIL)
              rw [hypi] at h5
              rw [if_pos (show (nodeAt ns i).right = y by rw [hr1, hcy])] at h5
              exact h5
            rw [if_neg hiy, rotR_node_ne _ _ _ _ hiy, rotR_not_mem l y hynl]
            refine ⟨rfl, by rw [hlen]; exact hlt, by rw [hi2]; exact hpar,
              ?_, ?_⟩
            · have hileft : (nodeAt ns2 i).left = (nodeAt ns i).left := by
                rw [hi2]
              rw [hileft]
              refine ReprAt_congr ns ns2 hlen l _ i ?_ hl
              intro j hj
              have hjy : j ≠ y := fun hh => hynl (hh ▸ hj)
              have hjx : j ≠ x := fun hh => hdisj j hj (by rw [hh]; exact hxinr)
              have hjxr : j ≠ xr := by
                by_cases hxrN : xr = NIL
                · have := ReprAt_ids_lt ns l _ i hl j hj
                  omega
                · exact fun hh => hdisj j hj (by rw [hh]; exact hxrinr hxrN)
              have hjyp : j ≠ yp := by
                rw [hypi]
                exact fun hh => hil (hh ▸ hj)
              exact linksEq_of_eq _ _ (hframe j hjy hjx hjxr hjyp)
            · have hiright : (nodeAt ns2 i).right = x := by rw [hi2]
              rw [hiright]
              have hrec := ihr _ i hr hndr hir hyr
              rw [hr1, if_pos hcy] at hrec
              exact hrec
          · -- y is strictly inside the right subtree; this node is untouched
            have h4 := ReprAt_parent_mem ns (.node a c b) _ i y hr hyr
              (fun hh => hcy (hh.trans hr1).symm)
            rw [hypF] at h4
            have hinot : nodeAt ns2 i = nodeAt ns i := by
              refine hframe i hiy (fun hh => hir (hh ▸ hxinr)) ?_
                (fun hh => hir (hh ▸ h4))
              by_cases hxrN : xr = NIL
              · rw [hxrN]; exact hiNIL
              · exact fun hh => hir (hh ▸ hxrinr hxrN)
            rw [if_neg hiy, rotR_node_ne _ _ _ _ hiy, rotR_not_mem l y hynl]
            refine ⟨rfl, by rw [hlen]; exact hlt, by rw [hinot]; exact hpar,
              ?_, ?_⟩
            · rw [hinot]
              refine ReprAt_congr ns ns2 hlen l _ i ?_ hl
              intro j hj
              have hjy : j ≠ y := fun hh => hynl (hh ▸ hj)
              have hjx : j ≠ x := fun hh => hdisj j hj (by rw [hh]; exact hxinr)
              have hjxr : j ≠ xr := by
                by_cases hxrN : xr = NIL
                · have := ReprAt_ids_lt ns l _ i hl j hj
                  omega
                · exact fun hh => hdisj j hj (by rw [hh]; exact hxrinr hxrN)
              have hjyp : j ≠ yp := fun hh => hdisj j hj (by rw [hh]; exact h4)
              exact linksEq_of_eq _ _ (hframe j hjy hjx hjxr hjyp)
            · rw [hinot]
              have hrec := ihr _ i hr hndr hir hyr
              rw [hr1, if_neg hcy] at hrec
              rw [hr1]
              exact hrec

/-- `set_color` only changes a colour: root, size, links, keys and payloads
are untouched. -/
theorem setColor_skel (r : Rope) (i : Nat) (c : Color) :
    (setColor r i c).root = r.root ∧
    (setColor r i c).nodes.length = r.nodes.length ∧
    ∀ j, linksEq (nodeAt (setColor r i c).nodes j) (nodeAt r.nodes j) ∧
      (nodeAt (setColor r i c).nodes j).key = (nodeAt r.nodes j).key ∧
      (nodeAt (setColor r i c).nodes j).payload
        = (nodeAt r.nodes j).payload := by
  refine ⟨rfl, setColor_length r i c, fun j => ?_⟩
  by_cases hij : i = j
  · subst hij
    by_cases hlt : i < r.nodes.length
    · rw [setColor_nodeAt_self r i c hlt]
      exact ⟨⟨rfl, rfl, rfl⟩, rfl, rfl⟩
    · have hset : (setColor r i c).nodes = r.nodes :=
        nodeAt_set_oob r.nodes i _ hlt
      rw [hset]
      exact ⟨linksEq_refl _, rfl, rfl⟩
  · rw [setColor_nodeAt_ne r i j c hij]
    exact ⟨linksEq_refl _, rfl, rfl⟩

theorem ReprAt_setColor (r : Rope) (i : Nat) (c : Color) (t : BT) (j p : Nat)
    (h : ReprAt r.nodes t j p) : ReprAt (setColor r i c).nodes t j p :=
  ReprAt_congr r.nodes _ (setColor_skel r i c).2.1 t j p
    (fun k _ => ((setColor_skel r i c).2.2 k).1) h

theorem setColor_color_self (r : Rope) (i : Nat) (c : Color)
    (h : i < r.nodes.length) :
    (nodeAt (setColor r i c).nodes i).color = c := by
  rw [setColor_nodeAt_self r i c h]

theorem setColor_color_ne (r : Rope) (i j : Nat) (c : Color) (h : i ≠ j) :
    (nodeAt (setColor r i c).nodes j).color = (nodeAt r.nodes j).color := by
  rw [setColor_nodeAt_ne r i j c h]

/-- A non-root member hangs off its parent's `left` or `right` pointer. -/
theorem ReprAt_parent_childlink (ns : List Node) :
    ∀ (t : BT) (i p x : Nat), ReprAt ns t i p → x ∈ t.ids → x ≠ i →
      (nodeAt ns ((nodeAt ns x).parent)).left = x ∨
      (nodeAt ns ((nodeAt ns x).parent)).right = x
  | .nil, _, _, x, _, hx, _ => absurd hx (by simp [BT.ids])
  | .node l k r, i, p, x, h, hx, hxi => by
    obtain ⟨hik, hlt, hpar, hl, hr⟩ := h
    subst hik
    rcases mem_ids_node_cases l i r x hx with hxl | hxk | hxr
    · cases l with
      | nil => exact absurd hxl (by simp [BT.ids])
      | node a c b =>
        obtain ⟨h1, h2, h3, h4, h5⟩ := hl
        by_cases hxc : x = c
        · subst hxc
          rw [h1] at h3
          rw [h3]
          exact Or.inl h1
        · exact ReprAt_parent_childlink ns (.node a c b) _ i x
            ⟨h1, h2, h3, h4, h5⟩ hxl (fun hh => hxc (hh.trans h1))
    · exact absurd hxk hxi
    · cases r with
      | nil => exact absurd hxr (by simp [BT.ids])
      | node a c b =>
        obtain ⟨h1, h2, h3, h4, h5⟩ := hr
        by_cases hxc : x = c
        · subst hxc
          rw [h1] at h3
          rw [h3]
          exact Or.inr h1
        · exact ReprAt_parent_childlink ns (.node a c b) _ i x
            ⟨h1, h2, h3, h4, h5⟩ hxr (fun hh => hxc (hh.trans h1))

/-- Zoom in on the member `x` of a represented tree: `x` roots a represented
subtree whose recorded parent is `x`'s parent pointer. -/
theorem ReprAt_zoom (ns : List Node) :
    ∀ (t : BT) (i p x : Nat), ReprAt ns t i p → t.ids.Nodup → p ∉ t.ids →
      x ∈ t.ids →
      ∃ lx rx, ReprAt ns (BT.node lx x rx) x ((nodeAt ns x).parent) ∧
        (BT.node lx x rx).ids.Nodup ∧
        (∀ j ∈ (BT.node lx x rx).ids, j ∈ t.ids) ∧
        (nodeAt ns x).parent ∉ (BT.node lx x rx).ids ∧
        ((x = i ∧ (nodeAt ns x).parent = p) ∨
          (x ≠ i ∧ (nodeAt ns x).parent ∈ t.ids)) := by
  intro t
  induction t with
  | nil =>
    intro i p x h hnd hp hx
    exact absurd hx (by simp [BT.ids])
  | node l k r ihl ihr =>
    intro i p x h hnd hp hx
    obtain ⟨hik, hlt, hpar, hl, hr⟩ := h
    subst hik
    obtain ⟨hndl, hndr, hil, hir, hdisj⟩ := nodup_parts l i r hnd
    rcases mem_ids_node_cases l i r x hx with hxl | hxi | hxr
    · obtain ⟨lx, rx, hz1, hz2, hz3, hz4, hz5⟩ := ihl _ i x hl hndl hil hxl
      refine ⟨lx, rx, hz1, hz2,
        fun j hj => mem_ids_node_left l i r j (hz3 j hj), hz4,
        Or.inr ⟨fun hh => hil (hh ▸ hxl), ?_⟩⟩
      rcases hz5 with ⟨_, hpeq⟩ | ⟨_, hpin⟩
      · rw [hpeq]
        exact mem_ids_node_self l i r
      · exact mem_ids_node_left l i r _ hpin
    · subst hxi
      refine ⟨l, r, ⟨rfl, hlt, rfl, hl, hr⟩, hnd, fun j hj => hj, ?_,
        Or.inl ⟨rfl, hpar⟩⟩
      rw [hpar]
      exact hp
    · obtain ⟨lx, rx, hz1, hz2, hz3, hz4, hz5⟩ := ihr _ i x hr hndr hir hxr
      refine ⟨lx, rx, hz1, hz2,
        fun j hj => mem_ids_node_right l i r j (hz3 j hj), hz4,
        Or.inr ⟨fun hh => hir (hh ▸ hxr), ?_⟩⟩
      rcases hz5 with ⟨_, hpeq⟩ | ⟨_, hpin⟩
      · rw [hpeq]
        exact mem_ids_node_self l i r
      · exact mem_ids_node_right l i r _ hpin

/-- Aggregate-only rewrites of the arena preserve representation. -/
theorem ReprAt_skelEq (r r2 : Rope) (h : skelEq r r2) :
    ∀ (t : BT) (i p : Nat), ReprAt r.nodes t i p → ReprAt r2.nodes t i p :=
  fun t i p hr =>
    ReprAt_congr r.nodes r2.nodes h.2.1 t i p (fun j _ => (h.2.2 j).1) hr

/-- `left_rotate` realizes the abstract rotation `rotL` on represented trees. -/
theorem Repr_left_rotate (r : Rope) (t : BT) (x : Nat)
    (hsz : r.nodes.length ≤ NIL)
    (h : ReprAt r.nodes t r.root NIL)
    (hnd : t.ids.Nodup)
    (hx : x ∈ t.ids)
    (hyNIL : (nodeAt r.nodes x).right ≠ NIL) :
    ReprAt (left_rotate r x).nodes (rotL t x) (left_rotate r x).root NIL ∧
    (left_rotate r x).nodes.length = r.nodes.length ∧
    ((left_rotate r x).root
      = if x = r.root then (nodeAt r.nodes x).right else r.root) ∧
    (∀ j, (nodeAt (left_rotate r x).nodes j).key = (nodeAt r.nodes j).key ∧
      (nodeAt (left_rotate r x).nodes j).payload
        = (nodeAt r.nodes j).payload ∧
      (nodeAt (left_rotate r x).nodes j).color = (nodeAt r.nodes j).color) ∧
    (nodeAt (left_rotate r x).nodes x).parent = (nodeAt r.nodes x).right ∧
    (nodeAt (left_rotate r x).nodes ((nodeAt r.nodes x).right)).parent
      = (nodeAt r.nodes x).parent ∧
    ((nodeAt r.nodes x).parent ≠ NIL →
      (nodeAt (left_rotate r x).nodes ((nodeAt r.nodes x).parent)).left
        = (if (nodeAt r.nodes ((nodeAt r.nodes x).parent)).left = x
           then (nodeAt r.nodes x).right
           else (nodeAt r.nodes ((nodeAt r.nodes x).parent)).left) ∧
      (nodeAt (left_rotate r x).nodes ((nodeAt r.nodes x).parent)).right
        = (if (nodeAt r.nodes ((nodeAt r.nodes x).parent)).left = x
           then (nodeAt r.nodes ((nodeAt r.nodes x).parent)).right
           else (nodeAt r.nodes x).right)) := by
  have hNILn : NIL ∉ t.ids := fun hh => by
    have := ReprAt_ids_lt r.nodes t r.root NIL h NIL hh
    omega
  obtain ⟨lx, rx, hz1, hz2, hz3, hz4, hz5⟩ :=
    ReprAt_zoom r.nodes t r.root NIL x h hnd hNILn hx
  obtain ⟨-, hxlt, -, hlx, hrx⟩ := hz1
  obtain ⟨hndlx, hndrx, hxlx, hxrx, hdisjx⟩ := nodup_parts lx x rx hz2
  cases rx with
  | nil => exact absurd (hrx : (nodeAt r.nodes x).right = NIL) hyNIL
  | node rly c rry =>
    obtain ⟨hyc, hylt0, hypar, hrly, hrry⟩ := hrx
    rw [hyc] at hylt0 hypar hrly hrry
    obtain ⟨hndrly, hndrry, hcrly, hcrry, hdisjrx⟩ := nodup_parts rly c rry hndrx
    have hcmem : c ∈ t.ids :=
      hz3 c (mem_ids_node_right lx x _ c (mem_ids_node_self rly c rry))
    have hcNIL : c ≠ NIL := by omega
    have hylmem : (nodeAt r.nodes c).left ≠ NIL →
        (nodeAt r.nodes c).left ∈ rly.ids :=
      fun hne => ReprAt_root_mem r.nodes rly _ c hrly hne
    have hylmem_t : (nodeAt r.nodes c).left ≠ NIL →
        (nodeAt r.nodes c).left ∈ t.ids := fun hne =>
      hz3 _ (mem_ids_node_right lx x _ _
        (mem_ids_node_left rly c rry _ (hylmem hne)))
    have hparDisj : (x = r.root ∧ (nodeAt r.nodes x).parent = NIL) ∨
        (x ≠ r.root ∧ (nodeAt r.nodes x).parent < r.nodes.length ∧
          (nodeAt r.nodes x).parent ≠ x ∧ (nodeAt r.nodes x).parent ≠ c ∧
          (nodeAt r.nodes x).parent ≠ (nodeAt r.nodes c).left) := by
      rcases hz5 with ⟨hxroot, hpeq⟩ | ⟨hxnroot, hpin⟩
      · exact Or.inl ⟨hxroot, hpeq⟩
      · refine Or.inr ⟨hxnroot,
          ReprAt_ids_lt r.nodes t r.root NIL h _ hpin, ?_, ?_, ?_⟩
        · intro hh
          refine hz4 ?_
          rw [hh]
          exact mem_ids_node_self lx x _
        · intro hh
          refine hz4 ?_
          rw [hh]
          exact mem_ids_node_right lx x _ c (mem_ids_node_self rly c rry)
        · by_cases hylN : (nodeAt r.nodes c).left = NIL
          · rw [hylN]
            have := ReprAt_ids_lt r.nodes t r.root NIL h _ hpin
            omega
          · intro hh
            refine hz4 ?_
            rw [hh]
            exact mem_ids_node_right lx x _ _
              (mem_ids_node_left rly c rry _ (hylmem hylN))
    have hspec := left_rotate_links_spec r x c ((nodeAt r.nodes c).left)
      ((nodeAt r.nodes x).parent) hyc rfl rfl hxlt hylt0
      (fun hh => hxrx (by rw [hh]; exact mem_ids_node_self rly c rry))
      (by omega) hcNIL
      (fun hne => ⟨ReprAt_ids_lt r.nodes t r.root NIL h _ (hylmem_t hne),
        fun hh => hxrx (hh ▸ mem_ids_node_left rly c rry _ (hylmem hne)),
        fun hh => hcrly (hh ▸ hylmem hne)⟩)
      hparDisj
    obtain ⟨hL1, hL2, hL3, hL4, hL5, hL6, hL7⟩ := hspec
    have hxp2 : (nodeAt r.nodes x).parent ≠ NIL →
        nodeAt (left_rotate_links r x).nodes ((nodeAt r.nodes x).parent)
          = (if (nodeAt r.nodes ((nodeAt r.nodes x).parent)).left = x
             then { nodeAt r.nodes ((nodeAt r.nodes x).parent) with left := c }
             else { nodeAt r.nodes ((nodeAt r.nodes x).parent) with
               right := c }) := by
      intro hne
      rcases hz5 with ⟨_, hpeq⟩ | ⟨hxnroot, _⟩
      · exact absurd hpeq hne
      · exact hL6 hxnroot
    have hgo := ReprAt_rotL_go r.nodes (left_rotate_links r x).nodes x c
      ((nodeAt r.nodes c).left) ((nodeAt r.nodes x).parent) hsz hL1 hcNIL
      hyc rfl rfl hL3 hL4 hL5 hxp2 hL7 t r.root NIL h hnd hNILn hx
    have hskel := rotatePost_skelEq (left_rotate_links r x) x ((getN r x).right)
    have hlenf : (left_rotate r x).nodes.length = r.nodes.length := by
      rw [left_rotate_eq]
      rw [hskel.2.1]
      exact hL1
    have hrootf : (left_rotate r x).root
        = if x = r.root then (nodeAt r.nodes x).right else r.root := by
      rw [left_rotate_eq, hskel.1, hL2, hyc]
    have hlinks : ∀ j, linksEq (nodeAt (left_rotate r x).nodes j)
        (nodeAt (left_rotate_links r x).nodes j) := by
      intro j
      rw [left_rotate_eq]
      exact (hskel.2.2 j).1
    refine ⟨?_, hlenf, hrootf, ?_, ?_, ?_, ?_⟩
    · have hrep : ReprAt (left_rotate r x).nodes (rotL t x)
          (if r.root = x then c else r.root) NIL := by
        rw [left_rotate_eq]
        exact ReprAt_skelEq _ _ hskel _ _ _ hgo
      rw [hrootf, hyc]
      by_cases hxr : x = r.root
      · rw [if_pos hxr]
        rw [if_pos hxr.symm] at hrep
        exact hrep
      · rw [if_neg hxr]
        rw [if_neg (fun hh => hxr hh.symm)] at hrep
        exact hrep
    · intro j
      have hkp : (nodeAt (left_rotate r x).nodes j).key
            = (nodeAt (left_rotate_links r x).nodes j).key ∧
          (nodeAt (left_rotate r x).nodes j).payload
            = (nodeAt (left_rotate_links r x).nodes j).payload ∧
          (nodeAt (left_rotate r x).nodes j).color
            = (nodeAt (left_rotate_links r x).nodes j).color := by
        rw [left_rotate_eq]
        exact ⟨(hskel.2.2 j).2.2.1, (hskel.2.2 j).2.2.2, (hskel.2.2 j).2.1⟩
      rw [hkp.1, hkp.2.1, hkp.2.2]
      by_cases hjx : j = x
      · rw [hjx, hL3]
        exact ⟨rfl, rfl, rfl⟩
      by_cases hjy : j = c
      · rw [hjy, hL4]
        exact ⟨rfl, rfl, rfl⟩
      by_cases hjyl : j = (nodeAt r.nodes c).left
      · by_cases hylN : (nodeAt r.nodes c).left = NIL
        · have hjN : j = NIL := hjyl.trans hylN
          rw [nodeAt_oob (left_rotate_links r x).nodes j (by omega),
            nodeAt_oob r.nodes j (by omega)]
          exact ⟨rfl, rfl, rfl⟩
        · rw [hjyl, hL5 hylN]
          exact ⟨rfl, rfl, rfl⟩
      by_cases hjxp : j = (nodeAt r.nodes x).parent
      · by_cases hpN : (nodeAt r.nodes x).parent = NIL
        · have hjN : j = NIL := hjxp.trans hpN
          rw [nodeAt_oob (left_rotate_links r x).nodes j (by omega),
            nodeAt_oob r.nodes j (by omega)]
          exact ⟨rfl, rfl, rfl⟩
        · rw [hjxp, hxp2 hpN]
          by_cases hc2 : (nodeAt r.nodes ((nodeAt r.nodes x).parent)).left = x
          · rw [if_pos hc2]
            exact ⟨rfl, rfl, rfl⟩
          · rw [if_neg hc2]
            exact ⟨rfl, rfl, rfl⟩
      · rw [hL7 j hjx hjy hjyl hjxp]
        exact ⟨rfl, rfl, rfl⟩
    · rw [hyc, (hlinks x).2.2, hL3]
    · rw [hyc, (hlinks c).2.2, hL4]
    · intro hne
      have hrec := hxp2 hne
      constructor
      · rw [(hlinks ((nodeAt r.nodes x).parent)).1, hrec, hyc]
        by_cases hc2 : (nodeAt r.nodes ((nodeAt r.nodes x).parent)).left = x
        · rw [if_pos hc2, if_pos hc2]
        · rw [if_neg hc2, if_neg hc2]
      · rw [(hlinks ((nodeAt r.nodes x).parent)).2.1, hrec, hyc]
        by_cases hc2 : (nodeAt r.nodes ((nodeAt r.nodes x).parent)).left = x
        · rw [if_pos hc2, if_pos hc2]
        · rw [if_neg hc2, if_neg hc2]

/-- `right_rotate` realizes the abstract rotation `rotR` on represented
trees. -/
theorem Repr_right_rotate (r : Rope) (t : BT) (y : Nat)
    (hsz : r.nodes.length ≤ NIL)
    (h : ReprAt r.nodes t r.root NIL)
    (hnd : t.ids.Nodup)
    (hy : y ∈ t.ids)
    (hxNIL : (nodeAt r.nodes y).left ≠ NIL) :
    ReprAt (right_rotate r y).nodes (rotR t y) (right_rotate r y).root NIL ∧
    (right_rotate r y).nodes.length = r.nodes.length ∧
    ((right_rotate r y).root
      = if y = r.root then (nodeAt r.nodes y).left else r.root) ∧
    (∀ j, (nodeAt (right_rotate r y).nodes j).key = (nodeAt r.nodes j).key ∧
      (nodeAt (right_rotate r y).nodes j).payload
        = (nodeAt r.nodes j).payload ∧
      (nodeAt (right_rotate r y).nodes j).color = (nodeAt r.nodes j).color) ∧
    (nodeAt (right_rotate r y).nodes y).parent = (nodeAt r.nodes y).left ∧
    (nodeAt (right_rotate r y).nodes ((nodeAt r.nodes y).left)).parent
      = (nodeAt r.nodes y).parent ∧
    ((nodeAt r.nodes y).parent ≠ NIL →
      (nodeAt (right_rotate r y).nodes ((nodeAt r.nodes y).parent)).right
        = (if (nodeAt r.nodes ((nodeAt r.nodes y).parent)).right = y
           then (nodeAt r.nodes y).left
           else (nodeAt r.nodes ((nodeAt r.nodes y).parent)).right) ∧
      (nodeAt (right_rotate r y).nodes ((nodeAt r.nodes y).parent)).left
        = (if (nodeAt r.nodes ((nodeAt r.nodes y).parent)).right = y
           then (nodeAt r.nodes ((nodeAt r.nodes y).parent)).left
           else (nodeAt r.nodes y).left)) := by
  have hNILn : NIL ∉ t.ids := fun hh => by
    have := ReprAt_ids_lt r.nodes t r.root NIL h NIL hh
    omega
  obtain ⟨lx, rx, hz1, hz2, hz3, hz4, hz5⟩ :=
    ReprAt_zoom r.nodes t r.root NIL y h hnd hNILn hy
  obtain ⟨-, hylt, -, hlx, hrx⟩ := hz1
  obtain ⟨hndlx, hndrx, hylx, hyrx, hdisjy⟩ := nodup_parts lx y rx hz2
  cases lx with
  | nil => exact absurd (hlx : (nodeAt r.nodes y).left = NIL) hxNIL
  | node llx c lrx =>
    obtain ⟨hxc, hxlt0, hxpar, hllx, hlrx⟩ := hlx
    rw [hxc] at hxlt0 hxpar hllx hlrx
    obtain ⟨hndllx, hndlrx, hcllx, hclrx, hdisjlx⟩ :=
      nodup_parts llx c lrx hndlx
    have hcmem : c ∈ t.ids :=
      hz3 c (mem_ids_node_left _ y rx c (mem_ids_node_self llx c lrx))
    have hcNIL : c ≠ NIL := by omega
    have hxrmem : (nodeAt r.nodes c).right ≠ NIL →
        (nodeAt r.nodes c).right ∈ lrx.ids :=
      fun hne => ReprAt_root_mem r.nodes lrx _ c hlrx hne
    have hxrmem_t : (nodeAt r.nodes c).right ≠ NIL →
        (nodeAt r.nodes c).right ∈ t.ids := fun hne =>
      hz3 _ (mem_ids_node_left _ y rx _
        (mem_ids_node_right llx c lrx _ (hxrmem hne)))
    have hparDisj : (y = r.root ∧ (nodeAt r.nodes y).parent = NIL) ∨
        (y ≠ r.root ∧ (nodeAt r.nodes y).parent < r.nodes.length ∧
          (nodeAt r.nodes y).parent ≠ y ∧ (nodeAt r.nodes y).parent ≠ c ∧
          (nodeAt r.nodes y).parent ≠ (nodeAt r.nodes c).right) := by
      rcases hz5 with ⟨hyroot, hpeq⟩ | ⟨hynroot, hpin⟩
      · exact Or.inl ⟨hyroot, hpeq⟩
      · refine Or.inr ⟨hynroot,
          ReprAt_ids_lt r.nodes t r.root NIL h _ hpin, ?_, ?_, ?_⟩
        · intro hh
          refine hz4 ?_
          rw [hh]
          exact mem_ids_node_self _ y rx
        · intro hh
          refine hz4 ?_
          rw [hh]
          exact mem_ids_node_left _ y rx c (mem_ids_node_self llx c lrx)
        · by_cases hxrN : (nodeAt r.nodes c).right = NIL
          · rw [hxrN]
            have := ReprAt_ids_lt r.nodes t r.root NIL h _ hpin
            omega
          · intro hh
            refine hz4 ?_
            rw [hh]
            exact mem_ids_node_left _ y rx _
              (mem_ids_node_right llx c lrx _ (hxrmem hxrN))
    have hspec := right_rotate_links_spec r y c ((nodeAt r.nodes c).right)
      ((nodeAt r.nodes y).parent) hxc rfl rfl hylt hxlt0
      (fun hh => hylx (by rw [hh]; exact mem_ids_node_self llx c lrx))
      (by omega) hcNIL
      (fun hne => ⟨ReprAt_ids_lt r.nodes t r.root NIL h _ (hxrmem_t hne),
        fun hh => hylx (hh ▸ mem_ids_node_right llx c lrx _ (hxrmem hne)),
        fun hh => hclrx (hh ▸ hxrmem hne)⟩)
      hparDisj
    obtain ⟨hL1, hL2, hL3, hL4, hL5, hL6, hL7⟩ := hspec
    have hyp2 : (nodeAt r.nodes y).parent ≠ NIL →
        nodeAt (right_rotate_links r y).nodes ((nodeAt r.nodes y).parent)
          = (if (nodeAt r.nodes ((nodeAt r.nodes y).parent)).right = y
             then { nodeAt r.nodes ((nodeAt r.nodes y).parent) with right := c }
             else { nodeAt r.nodes ((nodeAt r.nodes y).parent) with
               left := c }) := by
      intro hne
      rcases hz5 with ⟨_, hpeq⟩ | ⟨hynroot, _⟩
      · exact absurd hpeq hne
      · exact hL6 hynroot
    have hgo := ReprAt_rotR_go r.nodes (right_rotate_links r y).nodes y c
      ((nodeAt r.nodes c).right) ((nodeAt r.nodes y).parent) hsz hL1 hcNIL
      hxc rfl rfl hL3 hL4 hL5 hyp2 hL7 t r.root NIL h hnd hNILn hy
    have hskel := rotatePost_skelEq (right_rotate_links r y) y ((getN r y).left)
    have hlenf : (right_rotate r y).nodes.length = r.nodes.length := by
      rw [right_rotate_eq]
      rw [hskel.2.1]
      exact hL1
    have hrootf : (right_rotate r y).root
        = if y = r.root then (nodeAt r.nodes y).left else r.root := by
      rw [right_rotate_eq, hskel.1, hL2, hxc]
    have hlinks : ∀ j, linksEq (nodeAt (right_rotate r y).nodes j)
        (nodeAt (right_rotate_links r y).nodes j) := by
      intro j
      rw [right_rotate_eq]
      exact (hskel.2.2 j).1
    refine ⟨?_, hlenf, hrootf, ?_, ?_, ?_, ?_⟩
    · have hrep : ReprAt (right_rotate r y).nodes (rotR t y)
          (if r.root = y then c else r.root) NIL := by
        rw [right_rotate_eq]
        exact ReprAt_skelEq _ _ hskel _ _ _ hgo
      rw [hrootf, hxc]
      by_cases hyr : y = r.root
      · rw [if_pos hyr]
        rw [if_pos hyr.symm] at hrep
        exact hrep
      · rw [if_neg hyr]
        rw [if_neg (fun hh => hyr hh.symm)] at hrep
        exact hrep
    · intro j
      have hkp : (nodeAt (right_rotate r y).nodes j).key
            = (nodeAt (right_rotate_links r y).nodes j).key ∧
          (nodeAt (right_rotate r y).nodes j).payload
            = (nodeAt (right_rotate_links r y).nodes j).payload ∧
          (nodeAt (right_rotate r y).nodes j).color
            = (nodeAt (right_rotate_links r y).nodes j).color := by
        rw [right_rotate_eq]
        exact ⟨(hskel.2.2 j).2.2.1, (hskel.2.2 j).2.2.2, (hskel.2.2 j).2.1⟩
      rw [hkp.1, hkp.2.1, hkp.2.2]
      by_cases hjy : j = y
      · rw [hjy, hL3]
        exact ⟨rfl, rfl, rfl⟩
      by_cases hjx : j = c
      · rw [hjx, hL4]
        exact ⟨rfl, rfl, rfl⟩
      by_cases hjxr : j = (nodeAt r.nodes c).right
      · by_cases hxrN : (nodeAt r.nodes c).right = NIL
        · have hjN : j = NIL := hjxr.trans hxrN
          rw [nodeAt_oob (right_rotate_links r y).nodes j (by omega),
            nodeAt_oob r.nodes j (by omega)]
          exact ⟨rfl, rfl, rfl⟩
        · rw [hjxr, hL5 hxrN]
          exact ⟨rfl, rfl, rfl⟩
      by_cases hjyp : j = (nodeAt r.nodes y).parent
      · by_cases hpN : (nodeAt r.nodes y).parent = NIL
        · have hjN : j = NIL := hjyp.trans hpN
          rw [nodeAt_oob (right_rotate_links r y).nodes j (by omega),
            nodeAt_oob r.nodes j (by omega)]
          exact ⟨rfl, rfl, rfl⟩
        · rw [hjyp, hyp2 hpN]
          by_cases hc2 : (nodeAt r.nodes ((nodeAt r.nodes y).parent)).right = y
          · rw [if_pos hc2]
            exact ⟨rfl, rfl, rfl⟩
          · rw [if_neg hc2]
            exact ⟨rfl, rfl, rfl⟩
      · rw [hL7 j hjy hjx hjxr hjyp]
        exact ⟨rfl, rfl, rfl⟩
    · rw [hxc, (hlinks y).2.2, hL3]
    · rw [hxc, (hlinks c).2.2, hL4]
    · intro hne
      have hrec := hyp2 hne
      constructor
      · rw [(hlinks ((nodeAt r.nodes y).parent)).2.1, hrec, hxc]
        by_cases hc2 : (nodeAt r.nodes ((nodeAt r.nodes y).parent)).right = y
        · rw [if_pos hc2, if_pos hc2]
        · rw [if_neg hc2, if_neg hc2]
      · rw [(hlinks ((nodeAt r.nodes y).parent)).1, hrec, hxc]
        by_cases hc2 : (nodeAt r.nodes ((nodeAt r.nodes y).parent)).right = y
        · rw [if_pos hc2, if_pos hc2]
        · rw [if_neg hc2, if_neg hc2]

/-- The state the build keeps re-establishing: a represented, duplicate-free
tree over an arena of fixed size. -/
def Good (L : Nat) (t : BT) (r : Rope) : Prop :=
  r.nodes.length = L ∧ ReprAt r.nodes t r.root NIL ∧ t.ids.Nodup

/-- Keys and payloads agree pointwise between two arenas. -/
def kpEq (r2 r : Rope) : Prop :=
  ∀ j, (nodeAt r2.nodes j).key = (nodeAt r.nodes j).key ∧
    (nodeAt r2.nodes j).payload = (nodeAt r.nodes j).payload

theorem kpEq_refl (r : Rope) : kpEq r r := fun _ => ⟨rfl, rfl⟩

theorem kpEq_trans (r3 r2 r : Rope) (h1 : kpEq r3 r2) (h2 : kpEq r2 r) :
    kpEq r3 r :=
  fun j => ⟨(h1 j).1.trans (h2 j).1, (h1 j).2.trans (h2 j).2⟩

theorem kpEq_setColor (r : Rope) (i : Nat) (c : Color) :
    kpEq (setColor r i c) r :=
  fun j => ⟨((setColor_skel r i c).2.2 j).2.1, ((setColor_skel r i c).2.2 j).2.2⟩

theorem Good_setColor (L : Nat) (t : BT) (r : Rope) (i : Nat) (c : Color)
    (h : Good L t r) : Good L t (setColor r i c) :=
  ⟨by rw [setColor_length]; exact h.1,
    ReprAt_setColor r i c t r.root NIL h.2.1, h.2.2⟩

/-- The recorded parent of a present right child points back at the node. -/
theorem ReprAt_right_child_parent (ns : List Node) (hsz : ns.length ≤ NIL)
    (t : BT) (i p x : Nat) (h : ReprAt ns t i p) (hnd : t.ids.Nodup)
    (hpn : p ∉ t.ids) (hx : x ∈ t.ids)
    (hne : (nodeAt ns x).right ≠ NIL) :
    (nodeAt ns ((nodeAt ns x).right)).parent = x := by
  obtain ⟨lx, rx, hz1, -, -, -, -⟩ := ReprAt_zoom ns t i p x h hnd hpn hx
  obtain ⟨-, -, -, -, hrx⟩ := hz1
  cases rx with
  | nil => exact absurd (hrx : (nodeAt ns x).right = NIL) hne
  | node a c b =>
    obtain ⟨h1, -, h3, -, -⟩ := hrx
    rw [h1] at h3
    rw [h1]
    exact h3

/-- The recorded parent of a present left child points back at the node. -/
theorem ReprAt_left_child_parent (ns : List Node) (hsz : ns.length ≤ NIL)
    (t : BT) (i p x : Nat) (h : ReprAt ns t i p) (hnd : t.ids.Nodup)
    (hpn : p ∉ t.ids) (hx : x ∈ t.ids)
    (hne : (nodeAt ns x).left ≠ NIL) :
    (nodeAt ns ((nodeAt ns x).left)).parent = x := by
  obtain ⟨lx, rx, hz1, -, -, -, -⟩ := ReprAt_zoom ns t i p x h hnd hpn hx
  obtain ⟨-, -, -, hlx, -⟩ := hz1
  cases lx with
  | nil => exact absurd (hlx : (nodeAt ns x).left = NIL) hne
  | node a c b =>
    obtain ⟨h1, -, h3, -, -⟩ := hlx
    rw [h1] at h3
    rw [h1]
    exact h3

/-- A node is never its own parent. -/
theorem ReprAt_parent_ne_self (ns : List Node) (t : BT) (i p x : Nat)
    (h : ReprAt ns t i p) (hnd : t.ids.Nodup) (hpn : p ∉ t.ids)
    (hx : x ∈ t.ids) : (nodeAt ns x).parent ≠ x := by
  obtain ⟨lx, rx, -, -, -, hz4, -⟩ := ReprAt_zoom ns t i p x h hnd hpn hx
  intro hh
  refine hz4 ?_
  rw [hh]
  exact mem_ids_node_self lx x rx

/-- A node is never its own grandparent. -/
theorem ReprAt_grandparent_ne (ns : List Node) (hsz : ns.length ≤ NIL)
    (t : BT) (i p n : Nat) (h : ReprAt ns t i p) (hnd : t.ids.Nodup)
    (hpn : p ∉ t.ids) (hn : n ∈ t.ids) (hni : n ≠ i) :
    (nodeAt ns ((nodeAt ns n).parent)).parent ≠ n := by
  intro hcyc
  obtain ⟨ln, rn, hzn1, -, -, hzn4, -⟩ := ReprAt_zoom ns t i p n h hnd hpn hn
  obtain ⟨-, -, -, hln, hrn⟩ := hzn1
  have hPmem : (nodeAt ns n).parent ∈ t.ids :=
    ReprAt_parent_mem ns t i p n h hn hni
  have hPlt : (nodeAt ns n).parent < ns.length :=
    ReprAt_ids_lt ns t i p h _ hPmem
  have hPi : (nodeAt ns n).parent ≠ i := by
    intro hh
    cases t with
    | nil => exact absurd hn (by simp [BT.ids])
    | node a c b =>
      have hic : i = c := h.1
      have hipar : (nodeAt ns i).parent = p := by rw [hic]; exact hic ▸ h.2.2.1
      rw [hh] at hcyc
      rw [hipar] at hcyc
      exact hpn (hcyc ▸ hn)
  have hchild := ReprAt_parent_childlink ns t i p ((nodeAt ns n).parent) h
    hPmem hPi
  rw [hcyc] at hchild
  rcases hchild with hcl | hcr
  · have hlnne : ln ≠ .nil := by
      intro hh
      rw [hh] at hln
      rw [(hln : (nodeAt ns n).left = NIL)] at hcl
      omega
    have := ReprAt_root_mem ns ln _ n hln (by rw [hcl]; omega)
    rw [hcl] at this
    exact hzn4 (mem_ids_node_left ln n rn _ this)
  · have := ReprAt_root_mem ns rn _ n hrn (by rw [hcr]; omega)
    rw [hcr] at this
    exact hzn4 (mem_ids_node_right ln n rn _ this)

/-- Every iteration of `insert_fixup`'s loop keeps the arena a representation
of a rotation of the same id multiset, with keys and payloads untouched. -/
theorem insert_fixup_loop_spec (L : Nat) (hL : L ≤ NIL) :
    ∀ (fuel : Nat) (r : Rope) (n : Nat) (t : BT),
      Good L t r → n ∈ t.ids →
      ((nodeAt r.nodes r.root).color = .Black ∨ n = r.root) →
      ∃ t2, Good L t2 (insert_fixup_loop fuel r n).1 ∧
        t2.ids = t.ids ∧ kpEq (insert_fixup_loop fuel r n).1 r := by
  intro fuel
  induction fuel with
  | zero =>
    intro r n t hG hn hrb
    exact ⟨t, hG, rfl, kpEq_refl r⟩
  | succ fuel ih =>
    intro r n t hG hn hrb
    by_cases hg : n ≠ r.root ∧ (getN r (getN r n).parent).color = .Red
    case neg =>
      have hstep : insert_fixup_loop (fuel + 1) r n = (r, n) := by
        simp only [insert_fixup_loop]
        rw [if_neg hg]
      rw [hstep]
      exact ⟨t, hG, rfl, kpEq_refl r⟩
    case pos =>
      obtain ⟨hnroot, hpred⟩ := hg
      obtain ⟨hlen, hrep, hnd⟩ := hG
      have hsz : r.nodes.length ≤ NIL := by omega
      have hNILn : NIL ∉ t.ids := fun hh => by
        have := ReprAt_ids_lt r.nodes t r.root NIL hrep NIL hh
        omega
      have hn_lt : n < r.nodes.length := ReprAt_ids_lt r.nodes t r.root NIL hrep n hn
      have hrootfacts : r.root ∈ t.ids ∧ (nodeAt r.nodes r.root).parent = NIL := by
        cases t with
        | nil => exact absurd hn (by simp [BT.ids])
        | node a c b =>
          refine ⟨?_, hrep.2.2.1⟩
          rw [hrep.1]
          exact mem_ids_node_self a c b
      have hrootB : (nodeAt r.nodes r.root).color = .Black :=
        Or.resolve_right hrb hnroot
      have hp_mem : (getN r n).parent ∈ t.ids :=
        ReprAt_parent_mem r.nodes t r.root NIL n hrep hn hnroot
      have hp_lt : (getN r n).parent < r.nodes.length :=
        ReprAt_ids_lt r.nodes t r.root NIL hrep _ hp_mem
      have hpnroot : (getN r n).parent ≠ r.root := by
        intro hh
        rw [hh] at hpred
        exact Color.noConfusion (hrootB.symm.trans hpred)
      have hg_mem : (getN r ((getN r n).parent)).parent ∈ t.ids :=
        ReprAt_parent_mem r.nodes t r.root NIL _ hrep hp_mem hpnroot
      have hg_lt : (getN r ((getN r n).parent)).parent < r.nodes.length :=
        ReprAt_ids_lt r.nodes t r.root NIL hrep _ hg_mem
      have hgp_ne : (getN r ((getN r n).parent)).parent ≠ (getN r n).parent :=
        ReprAt_parent_ne_self r.nodes t r.root NIL _ hrep hnd hNILn hp_mem
      have hgn_ne : (getN r ((getN r n).parent)).parent ≠ n :=
        ReprAt_grandparent_ne r.nodes hsz t r.root NIL n hrep hnd hNILn hn hnroot
      have hpn_ne : (getN r n).parent ≠ n :=
        ReprAt_parent_ne_self r.nodes t r.root NIL n hrep hnd hNILn hn
      have hchild := ReprAt_parent_childlink r.nodes t r.root NIL
        ((getN r n).parent) hrep hp_mem hpnroot
      by_cases hpl : (getN r n).parent
          = (getN r ((getN r ((getN r n).parent)).parent)).left
      · -- parent is the left child of the grandparent
        by_cases hu : (getN r ((getN r ((getN r n).parent)).parent)).right ≠ NIL ∧
            (getN r ((getN r ((getN r ((getN r n).parent)).parent)).right)).color = .Red
        · -- red uncle: recolor and climb
          have heq : insert_fixup_loop (fuel + 1) r n
              = insert_fixup_loop fuel
                  (setColor (setColor (setColor r ((getN r n).parent) .Black)
                      ((getN r ((getN r ((getN r n).parent)).parent)).right) .Black)
                    ((getN r ((getN r n).parent)).parent) .Red)
                  ((getN r ((getN r n).parent)).parent) := by
            simp only [insert_fixup_loop]
            rw [if_pos ⟨hnroot, hpred⟩, if_pos hpl, if_pos hu]
          rw [heq]
          have hu_mem : (getN r ((getN r ((getN r n).parent)).parent)).right ∈ t.ids := by
            have := ReprAt_right_child_mem r.nodes hsz t r.root NIL
              ((getN r ((getN r n).parent)).parent) hrep hg_mem hu.1
            exact this
          have hu_par : (nodeAt r.nodes
                ((getN r ((getN r ((getN r n).parent)).parent)).right)).parent
              = (getN r ((getN r n).parent)).parent :=
            ReprAt_right_child_parent r.nodes hsz t r.root NIL _ hrep hnd hNILn
              hg_mem hu.1
          have hu_root : (getN r ((getN r ((getN r n).parent)).parent)).right ≠ r.root := by
            intro hh
            rw [hh, hrootfacts.2] at hu_par
            have := ReprAt_ids_lt r.nodes t r.root NIL hrep _ hg_mem
            omega
          have hG3 : Good L t (setColor (setColor (setColor r ((getN r n).parent) .Black)
                ((getN r ((getN r ((getN r n).parent)).parent)).right) .Black)
              ((getN r ((getN r n).parent)).parent) .Red) :=
            Good_setColor L t _ _ _ (Good_setColor L t _ _ _
              (Good_setColor L t _ _ _ ⟨hlen, hrep, hnd⟩))
          have hkp3 : kpEq (setColor (setColor (setColor r ((getN r n).parent) .Black)
                ((getN r ((getN r ((getN r n).parent)).parent)).right) .Black)
              ((getN r ((getN r n).parent)).parent) .Red) r :=
            kpEq_trans _ _ _ (kpEq_setColor _ _ _)
              (kpEq_trans _ _ _ (kpEq_setColor _ _ _) (kpEq_setColor _ _ _))
          have hrb3 : (nodeAt (setColor (setColor (setColor r ((getN r n).parent) .Black)
                  ((getN r ((getN r ((getN r n).parent)).parent)).right) .Black)
                ((getN r ((getN r n).parent)).parent) .Red).nodes
              (setColor (setColor (setColor r ((getN r n).parent) .Black)
                  ((getN r ((getN r ((getN r n).parent)).parent)).right) .Black)
                ((getN r ((getN r n).parent)).parent) .Red).root).color = .Black ∨
              (getN r ((getN r n).parent)).parent
                = (setColor (setColor (setColor r ((getN r n).parent) .Black)
                    ((getN r ((getN r ((getN r n).parent)).parent)).right) .Black)
                  ((getN r ((getN r n).parent)).parent) .Red).root := by
            by_cases hgr : (getN r ((getN r n).parent)).parent = r.root
            · exact Or.inr hgr
            · left
              have e1 := setColor_color_ne
                (setColor (setColor r ((getN r n).parent) .Black)
                  ((getN r ((getN r ((getN r n).parent)).parent)).right) .Black)
                ((getN r ((getN r n).parent)).parent) r.root .Red hgr
              have e2 := setColor_color_ne (setColor r ((getN r n).parent) .Black)
                ((getN r ((getN r ((getN r n).parent)).parent)).right) r.root .Black
                hu_root
              have e3 := setColor_color_ne r ((getN r n).parent) r.root .Black hpnroot
              exact e1.trans (e2.trans (e3.trans hrootB))
          obtain ⟨t2, hG2, hids2, hkp2⟩ := ih _ _ t hG3 hg_mem hrb3
          exact ⟨t2, hG2, hids2, kpEq_trans _ _ _ hkp2 hkp3⟩
        · -- black (or absent) uncle: rotate
          by_cases hnr : n = (getN r ((getN r n).parent)).right
          · -- zig-zag: first rotate left at the parent
            have hnr' : n = (nodeAt r.nodes ((getN r n).parent)).right := hnr
            obtain ⟨hA1, hA2, hA3, hA4, hA5, hA6, hA7⟩ :=
              Repr_left_rotate r t ((getN r n).parent) hsz hrep hnd hp_mem
                (by rw [← hnr']
                    have hn_lt2 : n < r.nodes.length := hn_lt
                    omega)
            have hroot1 : (left_rotate r ((getN r n).parent)).root = r.root := by
              rw [hA3, if_neg hpnroot]
            have hp2 : (getN (left_rotate r ((getN r n).parent))
                ((getN r n).parent)).parent = n :=
              hA5.trans hnr'.symm
            have hg2 : (getN (left_rotate r ((getN r n).parent)) n).parent
                = (getN r ((getN r n).parent)).parent := by
              have h6 := hA6
              rw [← hnr'] at h6
              exact h6
            have heq : insert_fixup_loop (fuel + 1) r n
                = insert_fixup_loop fuel
                    (right_rotate
                      (setColor
                        (setColor (left_rotate r ((getN r n).parent)) n .Black)
                        ((getN r ((getN r n).parent)).parent) .Red)
                      ((getN r ((getN r n).parent)).parent))
                    ((getN r n).parent) := by
              simp only [insert_fixup_loop]
              rw [if_pos ⟨hnroot, hpred⟩, if_pos hpl, if_neg hu, if_pos hnr]
              dsimp only
              rw [hp2, hg2]
            rw [heq]
            have hG1 : Good L (rotL t ((getN r n).parent))
                (left_rotate r ((getN r n).parent)) :=
              ⟨hA2.trans hlen, hA1, by rw [ids_rotL]; exact hnd⟩
            have hG3 : Good L (rotL t ((getN r n).parent))
                (setColor (setColor (left_rotate r ((getN r n).parent)) n .Black)
                  ((getN r ((getN r n).parent)).parent) .Red) :=
              Good_setColor L _ _ _ _ (Good_setColor L _ _ _ _ hG1)
            have hroot3 : (setColor
                (setColor (left_rotate r ((getN r n).parent)) n .Black)
                ((getN r ((getN r n).parent)).parent) .Red).root = r.root := hroot1
            have hA7g := hA7 (by
              have hg_ltM : (nodeAt r.nodes ((getN r n).parent)).parent
                  < r.nodes.length := hg_lt
              omega)
            have hA7L : (nodeAt (left_rotate r ((getN r n).parent)).nodes
                ((getN r ((getN r n).parent)).parent)).left
                = (if (getN r ((getN r ((getN r n).parent)).parent)).left
                    = (getN r n).parent
                  then (getN r ((getN r n).parent)).right
                  else (getN r ((getN r ((getN r n).parent)).parent)).left) :=
              hA7g.1
            have hGleft1 : (nodeAt (left_rotate r ((getN r n).parent)).nodes
                ((getN r ((getN r n).parent)).parent)).left = n := by
              rw [hA7L, if_pos hpl.symm, ← hnr]
            have l1 := (((setColor_skel
              (setColor (left_rotate r ((getN r n).parent)) n .Black)
              ((getN r ((getN r n).parent)).parent) .Red).2.2
              ((getN r ((getN r n).parent)).parent)).1).1
            have l2 := (((setColor_skel (left_rotate r ((getN r n).parent)) n
              .Black).2.2 ((getN r ((getN r n).parent)).parent)).1).1
            have hGleft3 : (nodeAt (setColor
                (setColor (left_rotate r ((getN r n).parent)) n .Black)
                ((getN r ((getN r n).parent)).parent) .Red).nodes
                ((getN r ((getN r n).parent)).parent)).left = n := by
              rw [l1, l2]
              exact hGleft1
            have hsz3 : (setColor
                (setColor (left_rotate r ((getN r n).parent)) n .Black)
                ((getN r ((getN r n).parent)).parent) .Red).nodes.length ≤ NIL := by
              rw [setColor_length, setColor_length, hA2]
              omega
            have hGmem1 : (getN r ((getN r n).parent)).parent
                ∈ (rotL t ((getN r n).parent)).ids := by
              rw [ids_rotL]
              exact hg_mem
            obtain ⟨hB1, hB2, hB3, hB4, hB5, hB6, hB7⟩ :=
              Repr_right_rotate _ (rotL t ((getN r n).parent))
                ((getN r ((getN r n).parent)).parent) hsz3 hG3.2.1 hG3.2.2 hGmem1
                (by rw [hGleft3]
                    have hn_lt2 : n < r.nodes.length := hn_lt
                    omega)
            have hG4 : Good L (rotR (rotL t ((getN r n).parent))
                  ((getN r ((getN r n).parent)).parent))
                (right_rotate (setColor
                  (setColor (left_rotate r ((getN r n).parent)) n .Black)
                  ((getN r ((getN r n).parent)).parent) .Red)
                  ((getN r ((getN r n).parent)).parent)) :=
              ⟨hB2.trans hG3.1, hB1, by rw [ids_rotR, ids_rotL]; exact hnd⟩
            have hdisj4 : (nodeAt (right_rotate (setColor
                  (setColor (left_rotate r ((getN r n).parent)) n .Black)
                  ((getN r ((getN r n).parent)).parent) .Red)
                  ((getN r ((getN r n).parent)).parent)).nodes
                (right_rotate (setColor
                  (setColor (left_rotate r ((getN r n).parent)) n .Black)
                  ((getN r ((getN r n).parent)).parent) .Red)
                  ((getN r ((getN r n).parent)).parent)).root).color = .Black ∨
                (getN r n).parent
                  = (right_rotate (setColor
                    (setColor (left_rotate r ((getN r n).parent)) n .Black)
                    ((getN r ((getN r n).parent)).parent) .Red)
                    ((getN r ((getN r n).parent)).parent)).root := by
              left
              by_cases hgr : (getN r ((getN r n).parent)).parent = r.root
              · have hr4root : (right_rotate (setColor
                    (setColor (left_rotate r ((getN r n).parent)) n .Black)
                    ((getN r ((getN r n).parent)).parent) .Red)
                    ((getN r ((getN r n).parent)).parent)).root = n := by
                  rw [hB3, if_pos (hgr.trans hroot3.symm)]
                  exact hGleft3
                rw [hr4root]
                have c1 := (hB4 n).2.2
                have c2 := setColor_color_ne
                  (setColor (left_rotate r ((getN r n).parent)) n .Black)
                  ((getN r ((getN r n).parent)).parent) n .Red hgn_ne
                have c3 := setColor_color_self (left_rotate r ((getN r n).parent))
                  n .Black (by rw [hA2]; exact hn_lt)
                rw [c1, c2, c3]
              · have hr4root : (right_rotate (setColor
                    (setColor (left_rotate r ((getN r n).parent)) n .Black)
                    ((getN r ((getN r n).parent)).parent) .Red)
                    ((getN r ((getN r n).parent)).parent)).root = r.root := by
                  rw [hB3, if_neg (fun hh => hgr (hh.trans hroot3)), hroot3]
                rw [hr4root]
                have c1 := (hB4 r.root).2.2
                have c2 := setColor_color_ne
                  (setColor (left_rotate r ((getN r n).parent)) n .Black)
                  ((getN r ((getN r n).parent)).parent) r.root .Red hgr
                have c3 := setColor_color_ne (left_rotate r ((getN r n).parent))
                  n r.root .Black hnroot
                have c4 := (hA4 r.root).2.2
                rw [c1, c2, c3, c4]
                exact hrootB
            have hPmem4 : (getN r n).parent ∈ (rotR (rotL t ((getN r n).parent))
                ((getN r ((getN r n).parent)).parent)).ids := by
              rw [ids_rotR, ids_rotL]
              exact hp_mem
            obtain ⟨t2, hG2, hids2, hkp2⟩ := ih _ _ _ hG4 hPmem4 hdisj4
            refine ⟨t2, hG2, ?_, ?_⟩
            · rw [hids2, ids_rotR, ids_rotL]
            · refine kpEq_trans _ _ _ hkp2 (kpEq_trans _ _ _
                (fun j => ⟨(hB4 j).1, (hB4 j).2.1⟩) (kpEq_trans _ _ _
                  (kpEq_trans _ _ _ (kpEq_setColor _ _ _) (kpEq_setColor _ _ _))
                  (fun j => ⟨(hA4 j).1, (hA4 j).2.1⟩)))
          · -- zig-zig: single rotation at the grandparent
            have heq : insert_fixup_loop (fuel + 1) r n
                = insert_fixup_loop fuel
                    (right_rotate
                      (setColor (setColor r ((getN r n).parent) .Black)
                        ((getN r ((getN r n).parent)).parent) .Red)
                      ((getN r ((getN r n).parent)).parent))
                    n := by
              simp only [insert_fixup_loop]
              rw [if_pos ⟨hnroot, hpred⟩, if_pos hpl, if_neg hu, if_neg hnr]
            rw [heq]
            have hG3 : Good L t
                (setColor (setColor r ((getN r n).parent) .Black)
                  ((getN r ((getN r n).parent)).parent) .Red) :=
              Good_setColor L _ _ _ _ (Good_setColor L _ _ _ _ ⟨hlen, hrep, hnd⟩)
            have l1 := (((setColor_skel
              (setColor r ((getN r n).parent) .Black)
              ((getN r ((getN r n).parent)).parent) .Red).2.2
              ((getN r ((getN r n).parent)).parent)).1).1
            have l2 := (((setColor_skel r ((getN r n).parent) .Black).2.2
              ((getN r ((getN r n).parent)).parent)).1).1
            have hGleft3 : (nodeAt (setColor
                (setColor r ((getN r n).parent) .Black)
                ((getN r ((getN r n).parent)).parent) .Red).nodes
                ((getN r ((getN r n).parent)).parent)).left
                = (getN r n).parent := by
              rw [l1, l2]
              exact hpl.symm
            have hsz3 : (setColor (setColor r ((getN r n).parent) .Black)
                ((getN r ((getN r n).parent)).parent) .Red).nodes.length ≤ NIL := by
              rw [setColor_length, setColor_length]
              omega
            obtain ⟨hB1, hB2, hB3, hB4, hB5, hB6, hB7⟩ :=
              Repr_right_rotate _ t ((getN r ((getN r n).parent)).parent) hsz3
                hG3.2.1 hG3.2.2 hg_mem
                (by rw [hGleft3]
                    have hp_lt2 : (getN r n).parent < r.nodes.length := hp_lt
                    omega)
            have hG4 : Good L (rotR t ((getN r ((getN r n).parent)).parent))
                (right_rotate (setColor (setColor r ((getN r n).parent) .Black)
                  ((getN r ((getN r n).parent)).parent) .Red)
                  ((getN r ((getN r n).parent)).parent)) :=
              ⟨hB2.trans hG3.1, hB1, by rw [ids_rotR]; exact hnd⟩
            have hroot3 : (setColor (setColor r ((getN r n).parent) .Black)
                ((getN r ((getN r n).parent)).parent) .Red).root = r.root := rfl
            have hdisj4 : (nodeAt (right_rotate
                  (setColor (setColor r ((getN r n).parent) .Black)
                    ((getN r ((getN r n).parent)).parent) .Red)
                  ((getN r ((getN r n).parent)).parent)).nodes
                (right_rotate
                  (setColor (setColor r ((getN r n).parent) .Black)
                    ((getN r ((getN r n).parent)).parent) .Red)
                  ((getN r ((getN r n).parent)).parent)).root).color = .Black ∨
                n = (right_rotate
                  (setColor (setColor r ((getN r n).parent) .Black)
                    ((getN r ((getN r n).parent)).parent) .Red)
                  ((getN r ((getN r n).parent)).parent)).root := by
              left
              by_cases hgr : (getN r ((getN r n).parent)).parent = r.root
              · have hr4root : (right_rotate
                    (setColor (setColor r ((getN r n).parent) .Black)
                      ((getN r ((getN r n).parent)).parent) .Red)
                    ((getN r ((getN r n).parent)).parent)).root
                    = (getN r n).parent := by
                  rw [hB3, if_pos (hgr.trans hroot3.symm)]
                  exact hGleft3
                rw [hr4root]
                have c1 := (hB4 ((getN r n).parent)).2.2
                have c2 := setColor_color_ne (setColor r ((getN r n).parent) .Black)
                  ((getN r ((getN r n).parent)).parent) ((getN r n).parent) .Red
                  hgp_ne
                have c3 := setColor_color_self r ((getN r n).parent) .Black hp_lt
                rw [c1, c2, c3]
              · have hr4root : (right_rotate
                    (setColor (setColor r ((getN r n).parent) .Black)
                      ((getN r ((getN r n).parent)).parent) .Red)
                    ((getN r ((getN r n).parent)).parent)).root = r.root := by
                  rw [hB3, if_neg (fun hh => hgr (hh.trans hroot3)), hroot3]
                rw [hr4root]
                have c1 := (hB4 r.root).2.2
                have c2 := setColor_color_ne (setColor r ((getN r n).parent) .Black)
                  ((getN r ((getN r n).parent)).parent) r.root .Red hgr
                have c3 := setColor_color_ne r ((getN r n).parent) r.root .Black
                  hpnroot
                rw [c1, c2, c3]
                exact hrootB
            have hnmem4 : n ∈ (rotR t ((getN r ((getN r n).parent)).parent)).ids := by
              rw [ids_rotR]
              exact hn
            obtain ⟨t2, hG2, hids2, hkp2⟩ := ih _ _ _ hG4 hnmem4 hdisj4
            refine ⟨t2, hG2, ?_, ?_⟩
            · rw [hids2, ids_rotR]
            · exact kpEq_trans _ _ _ hkp2 (kpEq_trans _ _ _
                (fun j => ⟨(hB4 j).1, (hB4 j).2.1⟩)
                (kpEq_trans _ _ _ (kpEq_setColor _ _ _) (kpEq_setColor _ _ _)))
      · -- parent is the right child of the grandparent
        have hchildg : (getN r ((getN r ((getN r n).parent)).parent)).left
              = (getN r n).parent ∨
            (getN r ((getN r ((getN r n).parent)).parent)).right
              = (getN r n).parent := hchild
        have hchildR : (getN r ((getN r ((getN r n).parent)).parent)).right
            = (getN r n).parent :=
          hchildg.resolve_left (fun hh => hpl hh.symm)
        by_cases hu : (getN r ((getN r ((getN r n).parent)).parent)).left ≠ NIL ∧
            (getN r ((getN r ((getN r ((getN r n).parent)).parent)).left)).color
              = .Red
        · -- red uncle: recolor and climb
          have heq : insert_fixup_loop (fuel + 1) r n
              = insert_fixup_loop fuel
                  (setColor (setColor (setColor r ((getN r n).parent) .Black)
                      ((getN r ((getN r ((getN r n).parent)).parent)).left) .Black)
                    ((getN r ((getN r n).parent)).parent) .Red)
                  ((getN r ((getN r n).parent)).parent) := by
            simp only [insert_fixup_loop]
            rw [if_pos ⟨hnroot, hpred⟩, if_neg hpl, if_pos hu]
          rw [heq]
          have hu_mem : (getN r ((getN r ((getN r n).parent)).parent)).left
              ∈ t.ids :=
            ReprAt_left_child_mem r.nodes hsz t r.root NIL
              ((getN r ((getN r n).parent)).parent) hrep hg_mem hu.1
          have hu_par : (nodeAt r.nodes
                ((getN r ((getN r ((getN r n).parent)).parent)).left)).parent
              = (getN r ((getN r n).parent)).parent :=
            ReprAt_left_child_parent r.nodes hsz t r.root NIL _ hrep hnd hNILn
              hg_mem hu.1
          have hu_root : (getN r ((getN r ((getN r n).parent)).parent)).left
              ≠ r.root := by
            intro hh
            rw [hh, hrootfacts.2] at hu_par
            have := ReprAt_ids_lt r.nodes t r.root NIL hrep _ hg_mem
            omega
          have hG3 : Good L t (setColor
              (setColor (setColor r ((getN r n).parent) .Black)
                ((getN r ((getN r ((getN r n).parent)).parent)).left) .Black)
              ((getN r ((getN r n).parent)).parent) .Red) :=
            Good_setColor L t _ _ _ (Good_setColor L t _ _ _
              (Good_setColor L t _ _ _ ⟨hlen, hrep, hnd⟩))
          have hkp3 : kpEq (setColor
              (setColor (setColor r ((getN r n).parent) .Black)
                ((getN r ((getN r ((getN r n).parent)).parent)).left) .Black)
              ((getN r ((getN r n).parent)).parent) .Red) r :=
            kpEq_trans _ _ _ (kpEq_setColor _ _ _)
              (kpEq_trans _ _ _ (kpEq_setColor _ _ _) (kpEq_setColor _ _ _))
          have hrb3 : (nodeAt (setColor
                  (setColor (setColor r ((getN r n).parent) .Black)
                    ((getN r ((getN r ((getN r n).parent)).parent)).left) .Black)
                  ((getN r ((getN r n).parent)).parent) .Red).nodes
                (setColor
                  (setColor (setColor r ((getN r n).parent) .Black)
                    ((getN r ((getN r ((getN r n).parent)).parent)).left) .Black)
                  ((getN r ((getN r n).parent)).parent) .Red).root).color
                = .Black ∨
              (getN r ((getN r n).parent)).parent
                = (setColor
                  (setColor (setColor r ((getN r n).parent) .Black)
                    ((getN r ((getN r ((getN r n).parent)).parent)).left) .Black)
                  ((getN r ((getN r n).parent)).parent) .Red).root := by
            by_cases hgr : (getN r ((getN r n).parent)).parent = r.root
            · exact Or.inr hgr
            · left
              have e1 := setColor_color_ne
                (setColor (setColor r ((getN r n).parent) .Black)
                  ((getN r ((getN r ((getN r n).parent)).parent)).left) .Black)
                ((getN r ((getN r n).parent)).parent) r.root .Red hgr
              have e2 := setColor_color_ne (setColor r ((getN r n).parent) .Black)
                ((getN r ((getN r ((getN r n).parent)).parent)).left) r.root
                .Black hu_root
              have e3 := setColor_color_ne r ((getN r n).parent) r.root .Black
                hpnroot
              exact e1.trans (e2.trans (e3.trans hrootB))
          obtain ⟨t2, hG2, hids2, hkp2⟩ := ih _ _ t hG3 hg_mem hrb3
          exact ⟨t2, hG2, hids2, kpEq_trans _ _ _ hkp2 hkp3⟩
        · -- black (or absent) uncle: rotate
          by_cases hnl : n = (getN r ((getN r n).parent)).left
          · -- zig-zag: first rotate right at the parent
            have hnl' : n = (nodeAt r.nodes ((getN r n).parent)).left := hnl
            obtain ⟨hA1, hA2, hA3, hA4, hA5, hA6, hA7⟩ :=
              Repr_right_rotate r t ((getN r n).parent) hsz hrep hnd hp_mem
                (by rw [← hnl']
                    have hn_lt2 : n < r.nodes.length := hn_lt
                    omega)
            have hroot1 : (right_rotate r ((getN r n).parent)).root = r.root := by
              rw [hA3, if_neg hpnroot]
            have hp2 : (getN (right_rotate r ((getN r n).parent))
                ((getN r n).parent)).parent = n :=
              hA5.trans hnl'.symm
            have hg2 : (getN (right_rotate r ((getN r n).parent)) n).parent
                = (getN r ((getN r n).parent)).parent := by
              have h6 := hA6
              rw [← hnl'] at h6
              exact h6
            have heq : insert_fixup_loop (fuel + 1) r n
                = insert_fixup_loop fuel
                    (left_rotate
                      (setColor
                        (setColor (right_rotate r ((getN r n).parent)) n .Black)
                        ((getN r ((getN r n).parent)).parent) .Red)
                      ((getN r ((getN r n).parent)).parent))
                    ((getN r n).parent) := by
              simp only [insert_fixup_loop]
              rw [if_pos ⟨hnroot, hpred⟩, if_neg hpl, if_neg hu, if_pos hnl]
              dsimp only
              rw [hp2, hg2]
            rw [heq]
            have hG1 : Good L (rotR t ((getN r n).parent))
                (right_rotate r ((getN r n).parent)) :=
              ⟨hA2.trans hlen, hA1, by rw [ids_rotR]; exact hnd⟩
            have hG3 : Good L (rotR t ((getN r n).parent))
                (setColor (setColor (right_rotate r ((getN r n).parent)) n .Black)
                  ((getN r ((getN r n).parent)).parent) .Red) :=
              Good_setColor L _ _ _ _ (Good_setColor L _ _ _ _ hG1)
            have hroot3 : (setColor
                (setColor (right_rotate r ((getN r n).parent)) n .Black)
                ((getN r ((getN r n).parent)).parent) .Red).root = r.root := hroot1
            have hA7g := hA7 (by
              have hg_ltM : (nodeAt r.nodes ((getN r n).parent)).parent
                  < r.nodes.length := hg_lt
              omega)
            have hA7R : (nodeAt (right_rotate r ((getN r n).parent)).nodes
                ((getN r ((getN r n).parent)).parent)).right
                = (if (getN r ((getN r ((getN r n).parent)).parent)).right
                    = (getN r n).parent
                  then (getN r ((getN r n).parent)).left
                  else (getN r ((getN r ((getN r n).parent)).parent)).right) :=
              hA7g.1
            have hGright1 : (nodeAt (right_rotate r ((getN r n).parent)).nodes
                ((getN r ((getN r n).parent)).parent)).right = n := by
              rw [hA7R, if_pos hchildR, ← hnl]
            have l1 := (((setColor_skel
              (setColor (right_rotate r ((getN r n).parent)) n .Black)
              ((getN r ((getN r n).parent)).parent) .Red).2.2
              ((getN r ((getN r n).parent)).parent)).1).2.1
            have l2 := (((setColor_skel (right_rotate r ((getN r n).parent)) n
              .Black).2.2 ((getN r ((getN r n).parent)).parent)).1).2.1
            have hGright3 : (nodeAt (setColor
                (setColor (right_rotate r ((getN r n).parent)) n .Black)
                ((getN r ((getN r n).parent)).parent) .Red).nodes
                ((getN r ((getN r n).parent)).parent)).right = n := by
              rw [l1, l2]
              exact hGright1
            have hsz3 : (setColor
                (setColor (right_rotate r ((getN r n).parent)) n .Black)
                ((getN r ((getN r n).parent)).parent) .Red).nodes.length ≤ NIL := by
              rw [setColor_length, setColor_length, hA2]
              omega
            have hGmem1 : (getN r ((getN r n).parent)).parent
                ∈ (rotR t ((getN r n).parent)).ids := by
              rw [ids_rotR]
              exact hg_mem
            obtain ⟨hB1, hB2, hB3, hB4, hB5, hB6, hB7⟩ :=
              Repr_left_rotate _ (rotR t ((getN r n).parent))
                ((getN r ((getN r n).parent)).parent) hsz3 hG3.2.1 hG3.2.2 hGmem1
                (by rw [hGright3]
                    have hn_lt2 : n < r.nodes.length := hn_lt
                    omega)
            have hG4 : Good L (rotL (rotR t ((getN r n).parent))
                  ((getN r ((getN r n).parent)).parent))
                (left_rotate (setColor
                  (setColor (right_rotate r ((getN r n).parent)) n .Black)
                  ((getN r ((getN r n).parent)).parent) .Red)
                  ((getN r ((getN r n).parent)).parent)) :=
              ⟨hB2.trans hG3.1, hB1, by rw [ids_rotL, ids_rotR]; exact hnd⟩
            have hdisj4 : (nodeAt (left_rotate (setColor
                  (setColor (right_rotate r ((getN r n).parent)) n .Black)
                  ((getN r ((getN r n).parent)).parent) .Red)
                  ((getN r ((getN r n).parent)).parent)).nodes
                (left_rotate (setColor
                  (setColor (right_rotate r ((getN r n).parent)) n .Black)
                  ((getN r ((getN r n).parent)).parent) .Red)
                  ((getN r ((getN r n).parent)).parent)).root).color = .Black ∨
                (getN r n).parent
                  = (left_rotate (setColor
                    (setColor (right_rotate r ((getN r n).parent)) n .Black)
                    ((getN r ((getN r n).parent)).parent) .Red)
                    ((getN r ((getN r n).parent)).parent)).root := by
              left
              by_cases hgr : (getN r ((getN r n).parent)).parent = r.root
              · have hr4root : (left_rotate (setColor
                    (setColor (right_rotate r ((getN r n).parent)) n .Black)
                    ((getN r ((getN r n).parent)).parent) .Red)
                    ((getN r ((getN r n).parent)).parent)).root = n := by
                  rw [hB3, if_pos (hgr.trans hroot3.symm)]
                  exact hGright3
                rw [hr4root]
                have c1 := (hB4 n).2.2
                have c2 := setColor_color_ne
                  (setColor (right_rotate r ((getN r n).parent)) n .Black)
                  ((getN r ((getN r n).parent)).parent) n .Red hgn_ne
                have c3 := setColor_color_self (right_rotate r ((getN r n).parent))
                  n .Black (by rw [hA2]; exact hn_lt)
                rw [c1, c2, c3]
              · have hr4root : (left_rotate (setColor
                    (setColor (right_rotate r ((getN r n).parent)) n .Black)
                    ((getN r ((getN r n).parent)).parent) .Red)
                    ((getN r ((getN r n).parent)).parent)).root = r.root := by
                  rw [hB3, if_neg (fun hh => hgr (hh.trans hroot3)), hroot3]
                rw [hr4root]
                have c1 := (hB4 r.root).2.2
                have c2 := setColor_color_ne
                  (setColor (right_rotate r ((getN r n).parent)) n .Black)
                  ((getN r ((getN r n).parent)).parent) r.root .Red hgr
                have c3 := setColor_color_ne (right_rotate r ((getN r n).parent))
                  n r.root .Black hnroot
                have c4 := (hA4 r.root).2.2
                rw [c1, c2, c3, c4]
                exact hrootB
            have hPmem4 : (getN r n).parent ∈ (rotL (rotR t ((getN r n).parent))
                ((getN r ((getN r n).parent)).parent)).ids := by
              rw [ids_rotL, ids_rotR]
              exact hp_mem
            obtain ⟨t2, hG2, hids2, hkp2⟩ := ih _ _ _ hG4 hPmem4 hdisj4
            refine ⟨t2, hG2, ?_, ?_⟩
            · rw [hids2, ids_rotL, ids_rotR]
            · refine kpEq_trans _ _ _ hkp2 (kpEq_trans _ _ _
                (fun j => ⟨(hB4 j).1, (hB4 j).2.1⟩) (kpEq_trans _ _ _
                  (kpEq_trans _ _ _ (kpEq_setColor _ _ _) (kpEq_setColor _ _ _))
                  (fun j => ⟨(hA4 j).1, (hA4 j).2.1⟩)))
          · -- zig-zig: single rotation at the grandparent
            have heq : insert_fixup_loop (fuel + 1) r n
                = insert_fixup_loop fuel
                    (left_rotate
                      (setColor (setColor r ((getN r n).parent) .Black)
                        ((getN r ((getN r n).parent)).parent) .Red)
                      ((getN r ((getN r n).parent)).parent))
                    n := by
              simp only [insert_fixup_loop]
              rw [if_pos ⟨hnroot, hpred⟩, if_neg hpl, if_neg hu, if_neg hnl]
            rw [heq]
            have hG3 : Good L t
                (setColor (setColor r ((getN r n).parent) .Black)
                  ((getN r ((getN r n).parent)).parent) .Red) :=
              Good_setColor L _ _ _ _ (Good_setColor L _ _ _ _ ⟨hlen, hrep, hnd⟩)
            have l1 := (((setColor_skel
              (setColor r ((getN r n).parent) .Black)
              ((getN r ((getN r n).parent)).parent) .Red).2.2
              ((getN r ((getN r n).parent)).parent)).1).2.1
            have l2 := (((setColor_skel r ((getN r n).parent) .Black).2.2
              ((getN r ((getN r n).parent)).parent)).1).2.1
            have hGright3 : (nodeAt (setColor
                (setColor r ((getN r n).parent) .Black)
                ((getN r ((getN r n).parent)).parent) .Red).nodes
                ((getN r ((getN r n).parent)).parent)).right
                = (getN r n).parent := by
              rw [l1, l2]
              exact hchildR
            have hsz3 : (setColor (setColor r ((getN r n).parent) .Black)
                ((getN r ((getN r n).parent)).parent) .Red).nodes.length ≤ NIL := by
              rw [setColor_length, setColor_length]
              omega
            have hroot3 : (setColor (setColor r ((getN r n).parent) .Black)
                ((getN r ((getN r n).parent)).parent) .Red).root = r.root := rfl
            obtain ⟨hB1, hB2, hB3, hB4, hB5, hB6, hB7⟩ :=
              Repr_left_rotate _ t ((getN r ((getN r n).parent)).parent) hsz3
                hG3.2.1 hG3.2.2 hg_mem
                (by rw [hGright3]
                    have hp_lt2 : (getN r n).parent < r.nodes.length := hp_lt
                    omega)
            have hG4 : Good L (rotL t ((getN r ((getN r n).parent)).parent))
                (left_rotate (setColor (setColor r ((getN r n).parent) .Black)
                  ((getN r ((getN r n).parent)).parent) .Red)
                  ((getN r ((getN r n).parent)).parent)) :=
              ⟨hB2.trans hG3.1, hB1, by rw [ids_rotL]; exact hnd⟩
            have hdisj4 : (nodeAt (left_rotate
                  (setColor (setColor r ((getN r n).parent) .Black)
                    ((getN r ((getN r n).parent)).parent) .Red)
                  ((getN r ((getN r n).parent)).parent)).nodes
                (left_rotate
                  (setColor (setColor r ((getN r n).parent) .Black)
                    ((getN r ((getN r n).parent)).parent) .Red)
                  ((getN r ((getN r n).parent)).parent)).root).color = .Black ∨
                n = (left_rotate
                  (setColor (setColor r ((getN r n).parent) .Black)
                    ((getN r ((getN r n).parent)).parent) .Red)
                  ((getN r ((getN r n).parent)).parent)).root := by
              left
              by_cases hgr : (getN r ((getN r n).parent)).parent = r.root
              · have hr4root : (left_rotate
                    (setColor (setColor r ((getN r n).parent) .Black)
                      ((getN r ((getN r n).parent)).parent) .Red)
                    ((getN r ((getN r n).parent)).parent)).root
                    = (getN r n).parent := by
                  rw [hB3, if_pos (hgr.trans hroot3.symm)]
                  exact hGright3
                rw [hr4root]
                have c1 := (hB4 ((getN r n).parent)).2.2
                have c2 := setColor_color_ne (setColor r ((getN r n).parent) .Black)
                  ((getN r ((getN r n).parent)).parent) ((getN r n).parent) .Red
                  hgp_ne
                have c3 := setColor_color_self r ((getN r n).parent) .Black hp_lt
                rw [c1, c2, c3]
              · have hr4root : (left_rotate
                    (setColor (setColor r ((getN r n).parent) .Black)
                      ((getN r ((getN r n).parent)).parent) .Red)
                    ((getN r ((getN r n).parent)).parent)).root = r.root := by
                  rw [hB3, if_neg (fun hh => hgr (hh.trans hroot3)), hroot3]
                rw [hr4root]
                have c1 := (hB4 r.root).2.2
                have c2 := setColor_color_ne (setColor r ((getN r n).parent) .Black)
                  ((getN r ((getN r n).parent)).parent) r.root .Red hgr
                have c3 := setColor_color_ne r ((getN r n).parent) r.root .Black
                  hpnroot
                rw [c1, c2, c3]
                exact hrootB
            have hnmem4 : n ∈ (rotL t ((getN r ((getN r n).parent)).parent)).ids := by
              rw [ids_rotL]
              exact hn
            obtain ⟨t2, hG2, hids2, hkp2⟩ := ih _ _ _ hG4 hnmem4 hdisj4
            refine ⟨t2, hG2, ?_, ?_⟩
            · rw [hids2, ids_rotL]
            · exact kpEq_trans _ _ _ hkp2 (kpEq_trans _ _ _
                (fun j => ⟨(hB4 j).1, (hB4 j).2.1⟩)
                (kpEq_trans _ _ _ (kpEq_setColor _ _ _) (kpEq_setColor _ _ _)))

theorem Good_skelEq (L : Nat) (t : BT) (r r2 : Rope) (hsk : skelEq r r2)
    (h : Good L t r) : Good L t r2 := by
  refine ⟨by rw [hsk.2.1]; exact h.1, ?_, h.2.2⟩
  rw [hsk.1]
  exact ReprAt_skelEq r r2 hsk t r.root NIL h.2.1

theorem kpEq_of_skelEq (r r2 : Rope) (hsk : skelEq r r2) : kpEq r2 r :=
  fun j => ⟨(hsk.2.2 j).2.2.1, (hsk.2.2 j).2.2.2⟩

/-- `insert_fixup` keeps the arena a representation of some rotation of the
same tree, leaves keys and payloads alone, and ends with a black root. -/
theorem insert_fixup_spec (L : Nat) (hL : L ≤ NIL) (r : Rope) (n : Nat)
    (t : BT) (hG : Good L t r) (hn : n ∈ t.ids)
    (hrb : (nodeAt r.nodes r.root).color = .Black ∨ n = r.root) :
    ∃ t2, Good L t2 (insert_fixup r n) ∧ t2.ids = t.ids ∧
      kpEq (insert_fixup r n) r ∧
      (nodeAt (insert_fixup r n).nodes (insert_fixup r n).root).color
        = .Black := by
  obtain ⟨t2, hG2, hids2, hkp2⟩ :=
    insert_fixup_loop_spec L hL (fuelOf r) r n t hG hn hrb
  have hn2 : n ∈ t2.ids := by rw [hids2]; exact hn
  have hroot_mem : (insert_fixup_loop (fuelOf r) r n).1.root ∈ t2.ids := by
    cases t2 with
    | nil => exact absurd hn2 (by simp [BT.ids])
    | node a c b =>
      rw [hG2.2.1.1]
      exact mem_ids_node_self a c b
  have hroot_lt : (insert_fixup_loop (fuelOf r) r n).1.root
      < (insert_fixup_loop (fuelOf r) r n).1.nodes.length :=
    ReprAt_ids_lt _ t2 _ NIL hG2.2.1 _ hroot_mem
  have hG3 : Good L t2 (setColor (insert_fixup_loop (fuelOf r) r n).1
      (insert_fixup_loop (fuelOf r) r n).1.root .Black) :=
    Good_setColor L t2 _ _ _ hG2
  have hsk := update_ancestors_skelEq
    (fuelOf (setColor (insert_fixup_loop (fuelOf r) r n).1
      (insert_fixup_loop (fuelOf r) r n).1.root .Black))
    (setColor (insert_fixup_loop (fuelOf r) r n).1
      (insert_fixup_loop (fuelOf r) r n).1.root .Black)
    (insert_fixup_loop (fuelOf r) r n).2
  refine ⟨t2, Good_skelEq L t2 _ _ hsk hG3, hids2, ?_, ?_⟩
  · exact kpEq_trans _ _ _ (kpEq_of_skelEq _ _ hsk)
      (kpEq_trans _ _ _ (kpEq_setColor _ _ _) hkp2)
  · have hr : (update_ancestors
        (fuelOf (setColor (insert_fixup_loop (fuelOf r) r n).1
          (insert_fixup_loop (fuelOf r) r n).1.root .Black))
        (setColor (insert_fixup_loop (fuelOf r) r n).1
          (insert_fixup_loop (fuelOf r) r n).1.root .Black)
        (insert_fixup_loop (fuelOf r) r n).2).root
        = (insert_fixup_loop (fuelOf r) r n).1.root := hsk.1
    have hc := (hsk.2.2 ((insert_fixup_loop (fuelOf r) r n).1.root)).2.1
    rw [show insert_fixup r n = update_ancestors
      (fuelOf (setColor (insert_fixup_loop (fuelOf r) r n).1
        (insert_fixup_loop (fuelOf r) r n).1.root .Black))
      (setColor (insert_fixup_loop (fuelOf r) r n).1
        (insert_fixup_loop (fuelOf r) r n).1.root .Black)
      (insert_fixup_loop (fuelOf r) r n).2 from rfl, hr, hc]
    exact setColor_color_self _ _ .Black hroot_lt

/-- The id of the rightmost node of a tree (`NIL` for the empty tree). -/
def BT.rightmost : BT → Nat
  | .nil => NIL
  | .node _ i r =>
    match r with
    | .nil => i
    | .node a c b => BT.rightmost (.node a c b)

/-- The id of the leftmost node of a tree (`NIL` for the empty tree). -/
def BT.leftmost : BT → Nat
  | .nil => NIL
  | .node l i _ =>
    match l with
    | .nil => i
    | .node a c b => BT.leftmost (.node a c b)

theorem rightmost_node_nil (l : BT) (i : Nat) :
    (BT.node l i .nil).rightmost = i := rfl

theorem rightmost_node_node (l : BT) (i : Nat) (a : BT) (c : Nat) (b : BT) :
    (BT.node l i (.node a c b)).rightmost = (BT.node a c b).rightmost := rfl

theorem leftmost_node_nil (i : Nat) (r : BT) :
    (BT.node .nil i r).leftmost = i := rfl

theorem leftmost_node_node (a : BT) (c : Nat) (b : BT) (i : Nat) (r : BT) :
    (BT.node (.node a c b) i r).leftmost = (BT.node a c b).leftmost := rfl

theorem BT.rightmost_mem : ∀ (t : BT), t ≠ .nil → t.rightmost ∈ t.ids
  | .nil, h => absurd rfl h
  | .node l i .nil, _ => by
    rw [rightmost_node_nil]
    exact mem_ids_node_self l i .nil
  | .node l i (.node a c b), _ => by
    rw [rightmost_node_node]
    exact mem_ids_node_right l i _ _
      (BT.rightmost_mem (.node a c b) (fun hh => BT.noConfusion hh))

theorem BT.leftmost_mem : ∀ (t : BT), t ≠ .nil → t.leftmost ∈ t.ids
  | .nil, h => absurd rfl h
  | .node .nil i r, _ => by
    rw [leftmost_node_nil]
    exact mem_ids_node_self .nil i r
  | .node (.node a c b) i r, _ => by
    rw [leftmost_node_node]
    exact mem_ids_node_left _ i r _
      (BT.leftmost_mem (.node a c b) (fun hh => BT.noConfusion hh))

/-- The rightmost node's `right` pointer is `NIL`. -/
theorem rightmost_right_nil (ns : List Node) :
    ∀ (t : BT) (i p : Nat), ReprAt ns t i p → t ≠ .nil →
      (nodeAt ns t.rightmost).right = NIL
  | .nil, _, _, _, h => absurd rfl h
  | .node l i .nil, j, p, h, _ => by
    rw [rightmost_node_nil]
    have h1 : j = i := h.1
    subst h1
    exact h.2.2.2.2
  | .node l i (.node a c b), j, p, h, _ => by
    rw [rightmost_node_node]
    have h1 : j = i := h.1
    subst h1
    exact rightmost_right_nil ns (.node a c b) _ j h.2.2.2.2
      (fun hh => BT.noConfusion hh)

/-- The leftmost node's `left` pointer is `NIL`. -/
theorem leftmost_left_nil (ns : List Node) :
    ∀ (t : BT) (i p : Nat), ReprAt ns t i p → t ≠ .nil →
      (nodeAt ns t.leftmost).left = NIL
  | .nil, _, _, _, h => absurd rfl h
  | .node .nil i r, j, p, h, _ => by
    rw [leftmost_node_nil]
    have h1 : j = i := h.1
    subst h1
    exact h.2.2.2.1
  | .node (.node a c b) i r, j, p, h, _ => by
    rw [leftmost_node_node]
    have h1 : j = i := h.1
    subst h1
    exact leftmost_left_nil ns (.node a c b) _ j h.2.2.2.1
      (fun hh => BT.noConfusion hh)

theorem BT.ids_ne_nil : ∀ (t : BT), t ≠ .nil → t.ids ≠ []
  | .nil, h => absurd rfl h
  | .node l i r, _ => by
    rw [BT.ids]
    simp

theorem BT.ids_getLast : ∀ (t : BT), t ≠ .nil → t.ids.getLast? = some t.rightmost
  | .nil, h => absurd rfl h
  | .node l i .nil, _ => by
    rw [rightmost_node_nil, BT.ids]
    simp [BT.ids, List.getLast?_append]
  | .node l i (.node a c b), _ => by
    have ih := BT.ids_getLast (.node a c b) (fun hh => BT.noConfusion hh)
    rw [rightmost_node_node, BT.ids, List.getLast?_append,
      show (i :: (BT.node a c b).ids) = [i] ++ (BT.node a c b).ids from rfl,
      List.getLast?_append, ih]
    rfl

theorem BT.ids_head : ∀ (t : BT), t ≠ .nil → t.ids.head? = some t.leftmost
  | .nil, h => absurd rfl h
  | .node .nil i r, _ => by
    rw [leftmost_node_nil, BT.ids]
    rfl
  | .node (.node a c b) i r, _ => by
    have ih := BT.ids_head (.node a c b) (fun hh => BT.noConfusion hh)
    rw [leftmost_node_node, BT.ids, List.head?_append, ih]
    rfl

theorem BT.ids_length_node (l : BT) (i : Nat) (r : BT) :
    (BT.node l i r).ids.length = l.ids.length + 1 + r.ids.length := by
  rw [BT.ids]
  simp [List.length_append]
  omega

/-- `descend` with a key above every present key walks to the rightmost node
and reports it as a prospective right-child parent. -/
theorem descend_spec (r : Rope) (k : Nat) (hsz : r.nodes.length ≤ NIL) :
    ∀ (t : BT) (fuel i p : Nat), ReprAt r.nodes t i p → t ≠ .nil →
      t.ids.length < fuel →
      (∀ j ∈ t.ids, (nodeAt r.nodes j).key < k) →
      descend fuel r k i p false = (t.rightmost, false)
  | .nil, _, _, _, _, hne, _, _ => absurd rfl hne
  | .node l i' r', fuel, i, p, h, hne, hfuel, hkeys => by
    obtain ⟨hik, hlt, hpar, hl, hr⟩ := h
    subst hik
    have hlen := BT.ids_length_node l i r'
    cases fuel with
    | zero => exact absurd hfuel (by omega)
    | succ f =>
      have hiNIL : i ≠ NIL := by omega
      have hkey : ¬ k < (getN r i).key := by
        have hki : (getN r i).key < k := hkeys i (mem_ids_node_self l i r')
        omega
      simp only [descend]
      rw [if_neg hiNIL, if_neg hkey]
      cases r' with
      | nil =>
        have hright : (getN r i).right = NIL := hr
        rw [hright, rightmost_node_nil]
        cases f with
        | zero =>
          exfalso
          have := BT.ids_length_node l i .nil
          omega
        | succ f2 =>
          simp only [descend]
          rfl
      | node a c b =>
        have hright : (getN r i).right = c := hr.1
        have hr' : ReprAt r.nodes (.node a c b) c i := hr.1 ▸ hr
        rw [hright, rightmost_node_node]
        refine descend_spec r k hsz (.node a c b) f c i hr'
          (fun hh => BT.noConfusion hh) ?_
          (fun j hj => hkeys j (mem_ids_node_right l i _ j hj))
        omega

/-- `min_node` walks to the leftmost node of a represented subtree. -/
theorem min_node_spec (r : Rope) (hsz : r.nodes.length ≤ NIL) :
    ∀ (t : BT) (fuel i p : Nat), ReprAt r.nodes t i p → t ≠ .nil →
      t.ids.length < fuel →
      min_node fuel r i = t.leftmost
  | .nil, _, _, _, _, hne, _ => absurd rfl hne
  | .node l i' r', fuel, i, p, h, hne, hfuel => by
    obtain ⟨hik, hlt, hpar, hl, hr⟩ := h
    subst hik
    have hlen := BT.ids_length_node l i r'
    cases fuel with
    | zero => exact absurd hfuel (by omega)
    | succ f =>
      have hiNIL : i ≠ NIL := by omega
      simp only [min_node]
      rw [if_neg hiNIL]
      cases l with
      | nil =>
        have hleft : (getN r i).left = NIL := hl
        rw [hleft, leftmost_node_nil]
        simp
      | node a c b =>
        have hleft : (getN r i).left = c := hl.1
        have hl' : ReprAt r.nodes (.node a c b) c i := hl.1 ▸ hl
        rw [hleft, leftmost_node_node]
        have hcNIL : c ≠ NIL := by
          have := ReprAt_ids_lt r.nodes (.node a c b) c i hl' c
            (mem_ids_node_self a c b)
          omega
        rw [if_pos hcNIL]
        refine min_node_spec r hsz (.node a c b) f c i hl'
          (fun hh => BT.noConfusion hh) ?_
        omega

/-- Length of the right spine (number of `succ_up` climb steps from the
rightmost node back to the subtree root). -/
def BT.rspine : BT → Nat
  | .nil => 0
  | .node _ _ r =>
    match r with
    | .nil => 0
    | .node a c b => BT.rspine (.node a c b) + 1

theorem rspine_node_nil (l : BT) (i : Nat) : (BT.node l i .nil).rspine = 0 := rfl

theorem rspine_node_node (l : BT) (i : Nat) (a : BT) (c : Nat) (b : BT) :
    (BT.node l i (.node a c b)).rspine = (BT.node a c b).rspine + 1 := rfl

theorem rspine_le_ids : ∀ (t : BT), t.rspine ≤ t.ids.length
  | .nil => Nat.le_refl 0
  | .node l i .nil => by
    rw [rspine_node_nil]
    omega
  | .node l i (.node a c b) => by
    rw [rspine_node_node]
    have h1 := rspine_le_ids (.node a c b)
    have h2 := BT.ids_length_node l i (.node a c b)
    omega

/-- Climbing from the rightmost node of a represented subtree exits through
its root. -/
theorem succ_up_climb (r : Rope) (hsz : r.nodes.length ≤ NIL) :
    ∀ (t : BT) (i p fuel : Nat), ReprAt r.nodes t i p → t ≠ .nil →
      t.rspine ≤ fuel →
      succ_up fuel r t.rightmost ((getN r t.rightmost).parent)
        = succ_up (fuel - t.rspine) r i p
  | .nil, _, _, _, _, hne, _ => absurd rfl hne
  | .node l i' .nil, i, p, fuel, h, _, _ => by
    obtain ⟨hik, hlt, hpar, hl, hr⟩ := h
    subst hik
    have hparG : (getN r i).parent = p := hpar
    rw [rightmost_node_nil, rspine_node_nil, Nat.sub_zero, hparG]
  | .node l i' (.node a c b), i, p, fuel, h, _, hfuel => by
    obtain ⟨hik, hlt, hpar, hl, hr⟩ := h
    subst hik
    have hparG : (getN r i).parent = p := hpar
    have hr' : ReprAt r.nodes (.node a c b) c i := hr.1 ▸ hr
    have hright : (getN r i).right = c := hr.1
    rw [rightmost_node_node, rspine_node_node] at *
    rw [succ_up_climb r hsz (.node a c b) c i fuel hr'
      (fun hh => BT.noConfusion hh) (by omega)]
    have hstep : fuel - (BT.node a c b).rspine
        = (fuel - ((BT.node a c b).rspine + 1)) + 1 := by omega
    rw [hstep]
    simp only [succ_up]
    rw [if_pos ⟨by omega, hright.symm⟩, hparG]

/-- The successor of the global rightmost node is `NIL`. -/
theorem successor_rightmost (r : Rope) (hsz : r.nodes.length ≤ NIL) (t : BT)
    (h : ReprAt r.nodes t r.root NIL) (hne : t ≠ .nil)
    (hcard : t.ids.length ≤ r.nodes.length) :
    successor r t.rightmost = NIL := by
  have hrm_lt : t.rightmost < r.nodes.length :=
    ReprAt_ids_lt r.nodes t r.root NIL h _ (BT.rightmost_mem t hne)
  have hrmNIL : t.rightmost ≠ NIL := by omega
  have hrr : (getN r t.rightmost).right = NIL :=
    rightmost_right_nil r.nodes t r.root NIL h hne
  simp only [successor]
  rw [if_neg hrmNIL, hrr, if_neg (show ¬ NIL ≠ NIL from fun hh => hh rfl)]
  rw [succ_up_climb r hsz t r.root NIL (fuelOf r) h hne
    (by have := rspine_le_ids t
        rw [fuelOf]
        omega)]
  cases hcase : fuelOf r - t.rspine with
  | zero => rfl
  | succ m =>
    simp only [succ_up]
    rw [if_neg (fun hh => hh.1 rfl)]

/-- The in-order id list is linked by `successor`. -/
theorem chain_inorder (r : Rope) (hsz : r.nodes.length ≤ NIL) :
    ∀ (t : BT) (i p : Nat), ReprAt r.nodes t i p → t.ids.Nodup →
      t.ids.length ≤ r.nodes.length →
      List.Chain' (fun a b => successor r a = b) t.ids
  | .nil, _, _, _, _, _ => List.chain'_nil
  | .node l k r', i, p, h, hnd, hcard => by
    obtain ⟨hik, hlt, hpar, hl, hr⟩ := h
    subst hik
    have hlen := BT.ids_length_node l i r'
    obtain ⟨hndl, hndr, hil, hir, hdisj⟩ := nodup_parts l i r' hnd
    have hiNIL : i ≠ NIL := by omega
    rw [BT.ids, List.chain'_append]
    refine ⟨chain_inorder r hsz l _ i hl hndl (by omega), ?_, ?_⟩
    · rw [List.chain'_cons']
      constructor
      · intro y hy
        have hrne : r' ≠ .nil := by
          intro hh
          rw [hh] at hy
          simp [BT.ids] at hy
        rw [BT.ids_head r' hrne] at hy
        have hyl : r'.leftmost = y := by simpa using hy
        subst hyl
        cases r' with
        | nil => exact absurd rfl hrne
        | node a c b =>
          have hr' : ReprAt r.nodes (.node a c b) c i := hr.1 ▸ hr
          have hright : (getN r i).right = c := hr.1
          have hcNIL : c ≠ NIL := by
            have := ReprAt_ids_lt r.nodes (.node a c b) c i hr' c
              (mem_ids_node_self a c b)
            omega
          simp only [successor]
          rw [if_neg hiNIL, hright, if_pos hcNIL]
          exact min_node_spec r hsz (.node a c b) (fuelOf r) c i hr'
            (fun hh => BT.noConfusion hh)
            (by rw [fuelOf]; omega)
      · exact chain_inorder r hsz r' _ i hr hndr (by omega)
    · intro x hx y hy
      have hyi : i = y := by simpa using hy
      subst hyi
      have hlne : l ≠ .nil := by
        intro hh
        rw [hh] at hx
        simp [BT.ids] at hx
      rw [BT.ids_getLast l hlne] at hx
      have hxl : l.rightmost = x := by simpa using hx
      subst hxl
      have hrm_lt : l.rightmost < r.nodes.length :=
        ReprAt_ids_lt r.nodes l _ i hl _ (BT.rightmost_mem l hlne)
      have hrmNIL : l.rightmost ≠ NIL := by omega
      have hrr : (getN r l.rightmost).right = NIL :=
        rightmost_right_nil r.nodes l _ i hl hlne
      simp only [successor]
      rw [if_neg hrmNIL, hrr, if_neg (show ¬ NIL ≠ NIL from fun hh => hh rfl)]
      rw [succ_up_climb r hsz l ((nodeAt r.nodes i).left) i (fuelOf r) hl hlne
        (by have := rspine_le_ids l
            rw [fuelOf]
            omega)]
      cases hcase : fuelOf r - l.rspine with
      | zero => rfl
      | succ m =>
        have hnotcond : ¬ (i ≠ NIL ∧
            (nodeAt r.nodes i).left = (getN r i).right) := by
          rintro ⟨-, h2⟩
          cases l with
          | nil => exact absurd rfl hlne
          | node a2 c2 b2 =>
            have hc2 : (nodeAt r.nodes i).left = c2 := hl.1
            have hc2lt : c2 < r.nodes.length :=
              ReprAt_ids_lt r.nodes (.node a2 c2 b2) _ i (hl.1 ▸ hl) c2
                (mem_ids_node_self a2 c2 b2)
            rw [hc2] at h2
            cases r' with
            | nil =>
              have hrNIL : (getN r i).right = NIL := hr
              rw [hrNIL] at h2
              omega
            | node a3 c3 b3 =>
              have hr3 : (getN r i).right = c3 := hr.1
              rw [hr3] at h2
              subst h2
              exact hdisj c2 (mem_ids_node_self a2 c2 b2)
                (mem_ids_node_self a3 c2 b3)
        simp only [succ_up]
        rw [if_neg hnotcond]

/-- `set_payload` only changes a payload. -/
theorem setPayload_skel (r : Rope) (i : Nat) (l : Leaf) :
    (setPayload r i l).root = r.root ∧
    (setPayload r i l).nodes.length = r.nodes.length ∧
    ∀ j, linksEq (nodeAt (setPayload r i l).nodes j) (nodeAt r.nodes j) ∧
      (nodeAt (setPayload r i l).nodes j).key = (nodeAt r.nodes j).key ∧
      (nodeAt (setPayload r i l).nodes j).color
        = (nodeAt r.nodes j).color := by
  refine ⟨rfl, setPayload_length r i l, fun j => ?_⟩
  by_cases hij : i = j
  · subst hij
    by_cases hlt : i < r.nodes.length
    · rw [setPayload_nodeAt_self r i l hlt]
      exact ⟨⟨rfl, rfl, rfl⟩, rfl, rfl⟩
    · have hset : (setPayload r i l).nodes = r.nodes :=
        nodeAt_set_oob r.nodes i _ hlt
      rw [hset]
      exact ⟨linksEq_refl _, rfl, rfl⟩
  · rw [setPayload_nodeAt_ne r i j l hij]
    exact ⟨linksEq_refl _, rfl, rfl⟩

theorem ReprAt_setPayload (r : Rope) (i : Nat) (l : Leaf) (t : BT) (j p : Nat)
    (h : ReprAt r.nodes t j p) : ReprAt (setPayload r i l).nodes t j p :=
  ReprAt_congr r.nodes _ (setPayload_skel r i l).2.1 t j p
    (fun k _ => ((setPayload_skel r i l).2.2 k).1) h

/-- Append a node as the new global maximum: it becomes the right child of
the rightmost node. -/
def addRight : BT → Nat → BT
  | .nil, k => .node .nil k .nil
  | .node l i r, k =>
    match r with
    | .nil => .node l i (.node .nil k .nil)
    | .node a c b => .node l i (addRight (.node a c b) k)

theorem addRight_node_nil (l : BT) (i k : Nat) :
    addRight (.node l i .nil) k = .node l i (.node .nil k .nil) := rfl

theorem addRight_node_node (l : BT) (i : Nat) (a : BT) (c : Nat) (b : BT)
    (k : Nat) :
    addRight (.node l i (.node a c b)) k
      = .node l i (addRight (.node a c b) k) := rfl

theorem ids_addRight : ∀ (t : BT) (k : Nat), t ≠ .nil →
    (addRight t k).ids = t.ids ++ [k]
  | .nil, _, h => absurd rfl h
  | .node l i .nil, k, _ => by
    rw [addRight_node_nil]
    simp [BT.ids]
  | .node l i (.node a c b), k, _ => by
    rw [addRight_node_node]
    rw [BT.ids, BT.ids,
      ids_addRight (.node a c b) k (fun hh => BT.noConfusion hh)]
    simp

/-- Linking a fresh node under the rightmost node preserves representation. -/
theorem ReprAt_addRight (ns ns2 : List Node) (newid key rm : Nat)
    (hlen2 : ns2.length = ns.length + 1)
    (hrm2 : nodeAt ns2 rm = { nodeAt ns rm with right := newid })
    (hnew2 : nodeAt ns2 newid = { Node.new key with parent := rm })
    (hframe : ∀ j, j ≠ rm → j ≠ newid → nodeAt ns2 j = nodeAt ns j)
    (hnewbig : ns.length ≤ newid) (hnewlt : newid < ns2.length)
    (hsz : ns.length ≤ NIL) :
    ∀ (t : BT) (i p : Nat), ReprAt ns t i p → t.ids.Nodup → t ≠ .nil →
      t.rightmost = rm → ReprAt ns2 (addRight t newid) i p
  | .nil, _, _, _, _, hne, _ => absurd rfl hne
  | .node l i' .nil, i, p, h, hnd, _, hrm => by
    obtain ⟨hik, hlt, hpar, hl, hr⟩ := h
    subst hik
    rw [rightmost_node_nil] at hrm
    subst hrm
    obtain ⟨hndl, -, hil, -, -⟩ := nodup_parts l i .nil hnd
    rw [addRight_node_nil]
    refine ⟨rfl, by omega, by rw [hrm2]; exact hpar, ?_, ?_⟩
    · have hleq : (nodeAt ns2 i).left = (nodeAt ns i).left := by rw [hrm2]
      rw [hleq]
      refine ReprAt_congr_le ns ns2 (by omega) l _ i ?_ hl
      intro j hj
      have hjlt := ReprAt_ids_lt ns l _ i hl j hj
      refine linksEq_of_eq _ _ (hframe j (fun hh => hil (hh ▸ hj))
        (by omega))
    · have hreq : (nodeAt ns2 i).right = newid := by rw [hrm2]
      rw [hreq]
      refine ⟨rfl, hnewlt, by rw [hnew2], ?_, ?_⟩
      · rw [show (nodeAt ns2 newid).left = NIL from by rw [hnew2]; rfl]
        exact ReprAt_nil ns2 newid
      · rw [show (nodeAt ns2 newid).right = NIL from by rw [hnew2]; rfl]
        exact ReprAt_nil ns2 newid
  | .node l i' (.node a c b), i, p, h, hnd, _, hrm => by
    obtain ⟨hik, hlt, hpar, hl, hr⟩ := h
    subst hik
    rw [rightmost_node_node] at hrm
    obtain ⟨hndl, hndr, hil, hir, hdisj⟩ := nodup_parts l i (.node a c b) hnd
    have hrm_mem : rm ∈ (BT.node a c b).ids := by
      rw [← hrm]
      exact BT.rightmost_mem _ (fun hh => BT.noConfusion hh)
    have hirm : i ≠ rm := fun hh => hir (hh ▸ hrm_mem)
    have hinode : nodeAt ns2 i = nodeAt ns i :=
      hframe i hirm (by omega)
    rw [addRight_node_node]
    refine ⟨rfl, by omega, by rw [hinode]; exact hpar, ?_, ?_⟩
    · have hleq : (nodeAt ns2 i).left = (nodeAt ns i).left := by rw [hinode]
      rw [hleq]
      refine ReprAt_congr_le ns ns2 (by omega) l _ i ?_ hl
      intro j hj
      have hjlt := ReprAt_ids_lt ns l _ i hl j hj
      refine linksEq_of_eq _ _ (hframe j
        (fun hh => hdisj j hj (hh ▸ hrm_mem)) (by omega))
    · have hreq : (nodeAt ns2 i).right = (nodeAt ns i).right := by rw [hinode]
      rw [hreq]
      exact ReprAt_addRight ns ns2 newid key rm hlen2 hrm2 hnew2 hframe
        hnewbig hnewlt hsz (.node a c b) _ i hr hndr
        (fun hh => BT.noConfusion hh) hrm

/-- `insert_with_id` with a fresh maximal key appends the node under the
rightmost leaf and restores the invariant via `insert_fixup`. -/
theorem insert_with_id_spec (r : Rope) (key : Nat) (t : BT)
    (hszS : r.nodes.length < NIL)
    (hrep : ReprAt r.nodes t r.root NIL) (hnd : t.ids.Nodup)
    (hne : t ≠ .nil)
    (hcard : t.ids.length ≤ r.nodes.length)
    (hkeys : ∀ j ∈ t.ids, (nodeAt r.nodes j).key < key)
    (hrootB : (nodeAt r.nodes r.root).color = .Black) :
    (insert_with_id r key).2 = .ok r.nodes.length ∧
    ∃ t2, Good (r.nodes.length + 1) t2 (insert_with_id r key).1 ∧
      t2.ids = t.ids ++ [r.nodes.length] ∧
      (∀ j, j ≠ r.nodes.length →
        (nodeAt (insert_with_id r key).1.nodes j).key
          = (nodeAt r.nodes j).key ∧
        (nodeAt (insert_with_id r key).1.nodes j).payload
          = (nodeAt r.nodes j).payload) ∧
      (nodeAt (insert_with_id r key).1.nodes r.nodes.length).key = key ∧
      (nodeAt (insert_with_id r key).1.nodes r.nodes.length).payload
        = Leaf.new ∧
      (nodeAt (insert_with_id r key).1.nodes
        (insert_with_id r key).1.root).color = .Black := by
  have hsz : r.nodes.length ≤ NIL := by omega
  have hlenNIL : ¬ (r.nodes.length = NIL) := by omega
  have hrootmem : r.root ∈ t.ids := by
    cases t with
    | nil => exact absurd rfl hne
    | node a c b =>
      rw [hrep.1]
      exact mem_ids_node_self a c b
  have hroot_lt : r.root < r.nodes.length :=
    ReprAt_ids_lt r.nodes t r.root NIL hrep _ hrootmem
  have hrootNIL : ¬ (({ r with nodes := r.nodes ++ [Node.new key] }
      : Rope).root = NIL) := by
    intro hh
    have : r.root = NIL := hh
    omega
  have hrep1 : ReprAt ({ r with nodes := r.nodes ++ [Node.new key] }
        : Rope).nodes t
      ({ r with nodes := r.nodes ++ [Node.new key] } : Rope).root NIL :=
    ReprAt_append r.nodes (Node.new key) t r.root NIL hrep
  have hsz1 : ({ r with nodes := r.nodes ++ [Node.new key] }
      : Rope).nodes.length ≤ NIL := by
    simp
    omega
  have hfuel1 : t.ids.length
      < fuelOf ({ r with nodes := r.nodes ++ [Node.new key] } : Rope) := by
    rw [fuelOf]
    simp
    omega
  have hkeys1 : ∀ j ∈ t.ids,
      (nodeAt ({ r with nodes := r.nodes ++ [Node.new key] }
        : Rope).nodes j).key < key := by
    intro j hj
    have hjlt := ReprAt_ids_lt r.nodes t r.root NIL hrep j hj
    rw [show nodeAt ({ r with nodes := r.nodes ++ [Node.new key] }
        : Rope).nodes j = nodeAt r.nodes j from
      nodeAt_append_lt r.nodes (Node.new key) j hjlt]
    exact hkeys j hj
  have hdescend : descend
      (fuelOf ({ r with nodes := r.nodes ++ [Node.new key] } : Rope))
      ({ r with nodes := r.nodes ++ [Node.new key] } : Rope) key
      ({ r with nodes := r.nodes ++ [Node.new key] } : Rope).root NIL false
      = (t.rightmost, false) :=
    descend_spec _ key hsz1 t _ _ NIL hrep1 hne hfuel1 hkeys1
  have heq : insert_with_id r key
      = (insert_fixup
          (setRight
            (setParent ({ r with nodes := r.nodes ++ [Node.new key] } : Rope)
              r.nodes.length t.rightmost)
            t.rightmost r.nodes.length)
          r.nodes.length, .ok r.nodes.length) := by
    simp only [insert_with_id]
    rw [if_neg hlenNIL, if_neg hrootNIL, hdescend]
    rfl
  rw [heq]
  refine ⟨rfl, ?_⟩
  have hrm_mem := BT.rightmost_mem t hne
  have hrm_lt : t.rightmost < r.nodes.length :=
    ReprAt_ids_lt r.nodes t r.root NIL hrep _ hrm_mem
  have hrm_ne_new : t.rightmost ≠ r.nodes.length := by omega
  have hproj : ({ r with nodes := r.nodes ++ [Node.new key] } : Rope).nodes
      = r.nodes ++ [Node.new key] := rfl
  have hlen1 : ({ r with nodes := r.nodes ++ [Node.new key] }
      : Rope).nodes.length = r.nodes.length + 1 := by
    rw [hproj]
    simp
  have hlen3 : (setRight
      (setParent ({ r with nodes := r.nodes ++ [Node.new key] } : Rope)
        r.nodes.length t.rightmost)
      t.rightmost r.nodes.length).nodes.length = r.nodes.length + 1 := by
    rw [setRight_length, setParent_length, hlen1]
  have hrm2 : nodeAt (setRight
      (setParent ({ r with nodes := r.nodes ++ [Node.new key] } : Rope)
        r.nodes.length t.rightmost)
      t.rightmost r.nodes.length).nodes t.rightmost
      = { nodeAt r.nodes t.rightmost with right := r.nodes.length } := by
    rw [setRight_nodeAt_self _ _ _ (by rw [setParent_length, hlen1]; omega)]
    rw [setParent_nodeAt_ne _ _ _ _ (fun hh => hrm_ne_new hh.symm)]
    rw [hproj, nodeAt_append_lt r.nodes (Node.new key) _ hrm_lt]
  have hnew2 : nodeAt (setRight
      (setParent ({ r with nodes := r.nodes ++ [Node.new key] } : Rope)
        r.nodes.length t.rightmost)
      t.rightmost r.nodes.length).nodes r.nodes.length
      = { Node.new key with parent := t.rightmost } := by
    rw [setRight_nodeAt_ne _ _ _ _ hrm_ne_new]
    rw [setParent_nodeAt_self _ _ _ (by rw [hlen1]; omega)]
    rw [hproj, nodeAt_append_self r.nodes (Node.new key)]
  have hframe : ∀ j, j ≠ t.rightmost → j ≠ r.nodes.length →
      nodeAt (setRight
        (setParent ({ r with nodes := r.nodes ++ [Node.new key] } : Rope)
          r.nodes.length t.rightmost)
        t.rightmost r.nodes.length).nodes j = nodeAt r.nodes j := by
    intro j hj1 hj2
    rw [setRight_nodeAt_ne _ _ _ _ (fun hh => hj1 hh.symm),
      setParent_nodeAt_ne _ _ _ _ (fun hh => hj2 hh.symm), hproj]
    by_cases hjlt : j < r.nodes.length
    · exact nodeAt_append_lt r.nodes (Node.new key) j hjlt
    · rw [nodeAt_oob (r.nodes ++ [Node.new key]) j (by simp; omega),
        nodeAt_oob r.nodes j (by omega)]
  have hrepT : ReprAt (setRight
      (setParent ({ r with nodes := r.nodes ++ [Node.new key] } : Rope)
        r.nodes.length t.rightmost)
      t.rightmost r.nodes.length).nodes (addRight t r.nodes.length)
      r.root NIL :=
    ReprAt_addRight r.nodes _ r.nodes.length key t.rightmost hlen3 hrm2 hnew2
      hframe (Nat.le_refl _) (by omega) hsz t r.root NIL hrep hnd hne rfl
  have hndT : (addRight t r.nodes.length).ids.Nodup := by
    rw [ids_addRight t _ hne, List.nodup_append]
    refine ⟨hnd, by simp, ?_⟩
    intro a ha hb
    have := ReprAt_ids_lt r.nodes t r.root NIL hrep a ha
    simp at hb
    omega
  have hGood3 : Good (r.nodes.length + 1) (addRight t r.nodes.length)
      (setRight
        (setParent ({ r with nodes := r.nodes ++ [Node.new key] } : Rope)
          r.nodes.length t.rightmost)
        t.rightmost r.nodes.length) :=
    ⟨hlen3, hrepT, hndT⟩
  have hnmem : r.nodes.length ∈ (addRight t r.nodes.length).ids := by
    rw [ids_addRight t _ hne]
    simp
  have hrb3 : (nodeAt (setRight
        (setParent ({ r with nodes := r.nodes ++ [Node.new key] } : Rope)
          r.nodes.length t.rightmost)
        t.rightmost r.nodes.length).nodes
      (setRight
        (setParent ({ r with nodes := r.nodes ++ [Node.new key] } : Rope)
          r.nodes.length t.rightmost)
        t.rightmost r.nodes.length).root).color = .Black ∨
      r.nodes.length = (setRight
        (setParent ({ r with nodes := r.nodes ++ [Node.new key] } : Rope)
          r.nodes.length t.rightmost)
        t.rightmost r.nodes.length).root := by
    left
    have hcolor : ∀ j, j ≠ r.nodes.length →
        (nodeAt (setRight
          (setParent ({ r with nodes := r.nodes ++ [Node.new key] } : Rope)
            r.nodes.length t.rightmost)
          t.rightmost r.nodes.length).nodes j).color
          = (nodeAt r.nodes j).color := by
      intro j hj
      by_cases hjrm : j = t.rightmost
      · subst hjrm
        rw [hrm2]
      · rw [hframe j hjrm hj]
    show (nodeAt _ r.root).color = .Black
    exact (hcolor r.root (by omega)).trans hrootB
  obtain ⟨t2, hG2, hids2, hkp2, hblack2⟩ :=
    insert_fixup_spec (r.nodes.length + 1) (by omega) _ r.nodes.length
      (addRight t r.nodes.length) hGood3 hnmem hrb3
  refine ⟨t2, hG2, by rw [hids2, ids_addRight t _ hne], ?_, ?_, ?_, hblack2⟩
  · intro j hj
    refine ⟨(hkp2 j).1.trans ?_, (hkp2 j).2.trans ?_⟩
    · by_cases hjrm : j = t.rightmost
      · rw [hjrm, hrm2]
      · rw [hframe j hjrm hj]
    · by_cases hjrm : j = t.rightmost
      · rw [hjrm, hrm2]
      · rw [hframe j hjrm hj]
  · rw [(hkp2 r.nodes.length).1, hnew2]
    rfl
  · rw [(hkp2 r.nodes.length).2, hnew2]
    rfl

theorem insert_newline_indices_fields (l : Leaf) (a : Nat) (d : List Nat) :
    (l.insert_newline_indices a d).buf = l.buf ∧
    (l.insert_newline_indices a d).gap_lo = l.gap_lo ∧
    (l.insert_newline_indices a d).gap_hi = l.gap_hi := by
  simp only [Leaf.insert_newline_indices]
  split_ifs <;> exact ⟨rfl, rfl, rfl⟩

theorem range_map_getD :
    ∀ (l : List Nat), (List.range l.length).map (fun i => l.getD i 0) = l
  | [] => rfl
  | a :: tl => by
    rw [List.length_cons, List.range_succ_eq_map, List.map_cons, List.map_map]
    rw [show ((fun i => (a :: tl).getD i 0) ∘ Nat.succ)
      = (fun i => tl.getD i 0) from rfl]
    rw [range_map_getD tl]
    rfl

theorem readBuf_copySlice (b : Buf) (c : List Nat) :
    readBuf (copySlice b 0 c) 0 c.length = c := by
  rw [readBuf]
  have hmap : (List.range c.length).map (fun i => copySlice b 0 c (0 + i))
      = (List.range c.length).map (fun i => c.getD i 0) := by
    refine List.map_congr_left ?_
    intro i hi
    rw [List.mem_range] at hi
    rw [copySlice, if_pos (by omega)]
    rw [show 0 + i - 0 = i from by omega]
  rw [hmap, range_map_getD]

/-- Filling a fresh leaf from offset zero. -/
theorem fresh_insert (c : List Nat) (h1 : c ≠ []) (h2 : c.length ≤ LEAF_CAPACITY) :
    (Leaf.new.insert 0 c).2 = .ok c.length ∧
    (Leaf.new.insert 0 c).1.gap_lo = c.length ∧
    (Leaf.new.insert 0 c).1.gap_hi = LEAF_CAPACITY ∧
    (Leaf.new.insert 0 c).1.buf = copySlice (fun _ => 0) 0 c := by
  have hgap : Leaf.new.gap_size = LEAF_CAPACITY := rfl
  have hmin : min Leaf.new.gap_size c.length = c.length := by
    rw [hgap]
    omega
  have hmove : Leaf.new.move_gap_to 0 = Leaf.new := rfl
  have hE : Leaf.new.insert 0 c
      = (({ Leaf.new with
            buf := copySlice Leaf.new.buf Leaf.new.gap_lo c,
            gap_lo := Leaf.new.gap_lo + c.length
          } : Leaf).insert_newline_indices 0 c, .ok c.length) := by
    simp only [Leaf.insert]
    rw [if_neg (show ¬ (0 > Leaf.new.byte_len) from by decide)]
    rw [if_neg (show ¬ (c.isEmpty = true) from by
      simp [List.isEmpty_iff, h1])]
    rw [if_neg (show ¬ (Leaf.new.gap_size = 0) from by decide)]
    rw [hmove, hmin, List.take_length]
  rw [hE]
  obtain ⟨hb, hlo, hhi⟩ := insert_newline_indices_fields
    ({ Leaf.new with
        buf := copySlice Leaf.new.buf Leaf.new.gap_lo c,
        gap_lo := Leaf.new.gap_lo + c.length } : Leaf) 0 c
  refine ⟨rfl, ?_, ?_, ?_⟩
  · rw [hlo]
    exact Nat.zero_add c.length
  · rw [hhi]
    exact rfl
  · rw [hb]
    exact rfl

theorem fresh_byte_len (c : List Nat) (h1 : c ≠ [])
    (h2 : c.length ≤ LEAF_CAPACITY) :
    (Leaf.new.insert 0 c).1.byte_len = c.length := by
  obtain ⟨-, hlo, hhi, -⟩ := fresh_insert c h1 h2
  rw [Leaf.byte_len, hlo, hhi]
  omega

/-- Reading a freshly filled leaf back in full. -/
theorem fresh_read (c : List Nat) (h1 : c ≠ []) (h2 : c.length ≤ LEAF_CAPACITY)
    (out : List Nat) (hout : out.length = c.length) :
    (Leaf.new.insert 0 c).1.read_into 0 out = (c, .ok c.length) := by
  obtain ⟨-, hlo, hhi, hb⟩ := fresh_insert c h1 h2
  have hbl := fresh_byte_len c h1 h2
  have hcpos : 0 < c.length := by
    cases c with
    | nil => exact absurd rfl h1
    | cons a tl => simp
  simp only [Leaf.read_into]
  rw [hbl, if_neg (show ¬ (0 > c.length) from by omega)]
  rw [Nat.sub_zero, hout, min_self]
  rw [if_neg (show ¬ (c.length = 0) from by omega)]
  rw [hlo, if_pos hcpos]
  rw [Nat.sub_zero, min_self]
  rw [hb, readBuf_copySlice]
  rw [Nat.sub_self, if_neg (show ¬ ((0 : Nat) > 0) from by omega)]
  rw [writeRange, List.take_zero, Nat.zero_add, ← hout, List.drop_length]
  simp

theorem BT.eq_nil_of_ids_nil (t : BT) (h : t.ids = []) : t = .nil := by
  cases t with
  | nil => rfl
  | node l i r => exact absurd h (by simp [BT.ids])

theorem getD_append_lt {α : Type} (l l2 : List α) (j : Nat) (d : α)
    (h : j < l.length) : (l ++ l2).getD j d = l.getD j d := by
  rw [List.getD_eq_getElem?_getD, List.getD_eq_getElem?_getD,
    List.getElem?_append_left h]

theorem getD_concat_self {α : Type} (l : List α) (a : α) (d : α) :
    (l ++ [a]).getD l.length d = a := by
  rw [List.getD_eq_getElem?_getD, List.getElem?_append_right (Nat.le_refl _)]
  simp

/-- The very first insertion into an empty rope. -/
theorem insert_first (key : Nat) :
    (insert_with_id Rope.new key).2 = .ok 0 ∧
    (insert_with_id Rope.new key).1.nodes.length = 1 ∧
    ReprAt (insert_with_id Rope.new key).1.nodes (.node .nil 0 .nil)
      (insert_with_id Rope.new key).1.root NIL ∧
    (nodeAt (insert_with_id Rope.new key).1.nodes 0).key = key ∧
    (nodeAt (insert_with_id Rope.new key).1.nodes 0).payload = Leaf.new ∧
    (nodeAt (insert_with_id Rope.new key).1.nodes
      (insert_with_id Rope.new key).1.root).color = .Black := by
  have hE : insert_with_id Rope.new key
      = (setColor { root := 0, nodes := [Node.new key] } 0 .Black, .ok 0) := by
    simp only [insert_with_id]
    rw [if_neg (show ¬ (Rope.new.nodes.length = NIL) from by decide)]
    rw [if_pos (show ({ Rope.new with
        nodes := Rope.new.nodes ++ [Node.new key] } : Rope).root = NIL
      from rfl)]
    rfl
  rw [hE]
  exact ⟨rfl, rfl, ⟨rfl, Nat.one_pos, rfl, rfl, rfl⟩, rfl, rfl, rfl⟩

/-- The invariant `build_from_bytes` maintains: `k` nodes with ids `0..k-1`
in in-order (= key) order, keys `0..k-1`, each payload a freshly filled
leaf, and a black root. -/
def BuildInv (k : Nat) (cs : List (List Nat)) (t : BT) (r : Rope) : Prop :=
  r.nodes.length = k ∧ ReprAt r.nodes t r.root NIL ∧
  t.ids = List.range k ∧
  (0 < k → (nodeAt r.nodes r.root).color = .Black) ∧
  cs.length = k ∧
  ∀ j, j < k → (nodeAt r.nodes j).key = j ∧
    (nodeAt r.nodes j).payload = (Leaf.new.insert 0 (cs.getD j [])).1

/-- One `insert_with_id` call during the build. -/
theorem build_insert_step (k : Nat) (cs : List (List Nat)) (t : BT) (r : Rope)
    (hInv : BuildInv k cs t r) (hkNIL : k + 1 < NIL) :
    (insert_with_id r k).2 = .ok k ∧
    ∃ t2, (insert_with_id r k).1.nodes.length = k + 1 ∧
      ReprAt (insert_with_id r k).1.nodes t2 (insert_with_id r k).1.root NIL ∧
      t2.ids = List.range (k + 1) ∧
      (nodeAt (insert_with_id r k).1.nodes
        (insert_with_id r k).1.root).color = .Black ∧
      (∀ j, j < k → (nodeAt (insert_with_id r k).1.nodes j).key = j ∧
        (nodeAt (insert_with_id r k).1.nodes j).payload
          = (Leaf.new.insert 0 (cs.getD j [])).1) ∧
      (nodeAt (insert_with_id r k).1.nodes k).key = k ∧
      (nodeAt (insert_with_id r k).1.nodes k).payload = Leaf.new := by
  obtain ⟨hlen, hrep, hids, hblack, hcsl, hkp⟩ := hInv
  by_cases hk : k = 0
  · subst hk
    have htnil : t = .nil := BT.eq_nil_of_ids_nil t (by rw [hids]; rfl)
    subst htnil
    have hnodes : r.nodes = [] := List.length_eq_zero.mp hlen
    have hroot : r.root = NIL := hrep
    have hrE : r = Rope.new := by
      cases r with
      | mk a b =>
        rw [show a = NIL from hroot, show b = ([] : List Node) from hnodes]
        rfl
    rw [hrE]
    obtain ⟨h1, h2, h3, h4, h5, h6⟩ := insert_first 0
    exact ⟨h1, ⟨.node .nil 0 .nil, h2, h3, by decide, h6,
      fun j hj => absurd hj (by omega), h4, h5⟩⟩
  · have htne : t ≠ .nil := by
      intro hh
      rw [hh] at hids
      have : List.range k = [] := hids.symm
      rw [List.range_eq_nil] at this
      exact hk this
    have hnd : t.ids.Nodup := by
      rw [hids]
      exact List.nodup_range k
    have hcard : t.ids.length ≤ r.nodes.length := by
      rw [hids, List.length_range, hlen]
    have hkeys : ∀ j ∈ t.ids, (nodeAt r.nodes j).key < k := by
      intro j hj
      rw [hids, List.mem_range] at hj
      rw [(hkp j hj).1]
      exact hj
    obtain ⟨h1, t2, hGood, hids2, hpres, hkeyk, hpayk, hblack2⟩ :=
      insert_with_id_spec r k t (by omega) hrep hnd htne hcard hkeys
        (hblack (by omega))
    rw [hlen] at h1 hids2 hpres hkeyk hpayk
    refine ⟨h1, t2, ?_, ?_, ?_, hblack2, ?_, hkeyk, hpayk⟩
    · rw [hGood.1, hlen]
    · exact hGood.2.1
    · rw [hids2, hids, List.range_succ]
    · intro j hj
      obtain ⟨hk1, hk2⟩ := hpres j (by omega)
      rw [hk1, hk2]
      exact hkp j hj

/-- The chunking loop of the build: it consumes `data` chunk by chunk,
returning `Ok(data.len())` and an arena satisfying the invariant whose
chunks flatten back to `data`. -/
theorem build_loop_spec (data : List Nat) (hdata : data.length < 2 ^ 63) :
    ∀ (fuel : Nat) (k inserted : Nat) (cs : List (List Nat)) (t : BT)
      (r : Rope),
      BuildInv k cs t r →
      cs.flatten = data.take inserted →
      (∀ c ∈ cs, c ≠ [] ∧ c.length ≤ LEAF_USABLE) →
      inserted ≤ data.length →
      k ≤ inserted →
      data.length - inserted < fuel →
      ∃ k2 cs2 t2,
        (build_loop data fuel r inserted k).2 = .ok data.length ∧
        BuildInv k2 cs2 t2 (build_loop data fuel r inserted k).1 ∧
        cs2.flatten = data ∧
        (∀ c ∈ cs2, c ≠ [] ∧ c.length ≤ LEAF_USABLE) := by
  intro fuel
  induction fuel with
  | zero =>
    intro k inserted cs t r hInv hflat hqual hle hki hfuel
    exact absurd hfuel (by omega)
  | succ fuel ih =>
    intro k inserted cs t r hInv hflat hqual hle hki hfuel
    by_cases hlt : inserted < data.length
    · -- one more chunk to insert
      have hkNIL : k + 1 < NIL := by
        rw [NIL]
        omega
      obtain ⟨hins2, t2, hlen2, hrep2, hids2, hblack2, hpres2, hkeyk2,
        hpayk2⟩ := build_insert_step k cs t r hInv hkNIL
      have htk : (if data.length - inserted > LEAF_USABLE then LEAF_USABLE
          else data.length - inserted)
          = min LEAF_USABLE (data.length - inserted) := by
        split_ifs <;> omega
      have hclen : ((data.drop inserted).take
          (min LEAF_USABLE (data.length - inserted))).length
          = min LEAF_USABLE (data.length - inserted) := by
        rw [List.length_take, List.length_drop]
        omega
      have hcne : (data.drop inserted).take
          (min LEAF_USABLE (data.length - inserted)) ≠ [] := by
        intro hh
        have := hclen
        rw [hh] at this
        simp at this
        rw [LEAF_USABLE, LEAF_CAPACITY] at this
        omega
      have hcle : ((data.drop inserted).take
          (min LEAF_USABLE (data.length - inserted))).length
          ≤ LEAF_USABLE := by
        rw [hclen]
        omega
      have hfresh := fresh_insert _ hcne
        (by rw [hclen, LEAF_USABLE, LEAF_CAPACITY]; omega)
      have hleafG : (getN (insert_with_id r k).1 k).payload = Leaf.new :=
        hpayk2
      have hsat : satAdd1 k = k + 1 := by
        rw [satAdd1]
        exact Nat.min_eq_left (Nat.le_of_lt hkNIL)
      simp only [build_loop]
      rw [if_pos hlt, htk, hins2]
      dsimp only
      rw [hleafG, hfresh.1]
      dsimp only
      rw [hsat]
      -- re-establish the invariant on the written-back arena
      have hkltlen : k < (insert_with_id r k).1.nodes.length := by omega
      have hsk := update_ancestors_skelEq
        (fuelOf (setPayload (insert_with_id r k).1 k
          (Leaf.new.insert 0 ((data.drop inserted).take
            (min LEAF_USABLE (data.length - inserted)))).1))
        (setPayload (insert_with_id r k).1 k
          (Leaf.new.insert 0 ((data.drop inserted).take
            (min LEAF_USABLE (data.length - inserted)))).1)
        k
      have hsp := setPayload_skel (insert_with_id r k).1 k
        (Leaf.new.insert 0 ((data.drop inserted).take
          (min LEAF_USABLE (data.length - inserted)))).1
      have hUSB : LEAF_USABLE = 1638 := by norm_num [LEAF_USABLE, LEAF_CAPACITY]
      have hInv3 : BuildInv (k + 1)
          (cs ++ [(data.drop inserted).take
            (min LEAF_USABLE (data.length - inserted))]) t2
          (update_ancestors
            (fuelOf (setPayload (insert_with_id r k).1 k
              (Leaf.new.insert 0 ((data.drop inserted).take
                (min LEAF_USABLE (data.length - inserted)))).1))
            (setPayload (insert_with_id r k).1 k
              (Leaf.new.insert 0 ((data.drop inserted).take
                (min LEAF_USABLE (data.length - inserted)))).1)
            k) := by
        obtain ⟨hInvLen, hInvRep, hInvIds, hInvBlack, hInvCs, hInvKP⟩ :=
          hInv
        refine ⟨?_, ?_, hids2, ?_, ?_, ?_⟩
        · rw [hsk.2.1, hsp.2.1, hlen2]
        · rw [hsk.1]
          refine ReprAt_skelEq _ _ hsk t2 _ NIL ?_
          exact ReprAt_setPayload _ _ _ t2 _ NIL hrep2
        · intro _
          rw [hsk.1]
          rw [(hsk.2.2 _).2.1]
          rw [((hsp.2.2 _).2.2)]
          exact hblack2
        · rw [List.length_append, hInvCs]
          simp
        · intro j hj
          refine ⟨?_, ?_⟩
          · rw [(hsk.2.2 j).2.2.1, (hsp.2.2 j).2.1]
            by_cases hjk : j = k
            · rw [hjk]
              exact hkeyk2
            · exact (hpres2 j (by omega)).1
          · rw [(hsk.2.2 j).2.2.2]
            by_cases hjk : j = k
            · rw [hjk]
              rw [setPayload_nodeAt_self _ _ _ hkltlen]
              rw [show ((cs ++ [(data.drop inserted).take
                  (min LEAF_USABLE (data.length - inserted))]).getD k
                  ([] : List Nat))
                  = (data.drop inserted).take
                    (min LEAF_USABLE (data.length - inserted)) from by
                rw [← hInvCs]
                exact getD_concat_self cs _ []]
            · rw [setPayload_nodeAt_ne _ _ _ _ (fun hh => hjk hh.symm)]
              rw [show ((cs ++ [(data.drop inserted).take
                  (min LEAF_USABLE (data.length - inserted))]).getD j
                  ([] : List Nat)) = cs.getD j [] from
                getD_append_lt cs _ j [] (by omega)]
              exact (hpres2 j (by omega)).2
      have hflat2 : (cs ++ [(data.drop inserted).take
          (min LEAF_USABLE (data.length - inserted))]).flatten
          = data.take (inserted + ((data.drop inserted).take
            (min LEAF_USABLE (data.length - inserted))).length) := by
        rw [List.flatten_append, hflat]
        simp only [List.flatten_cons, List.flatten_nil, List.append_nil]
        rw [hclen]
        rw [show inserted + min LEAF_USABLE (data.length - inserted)
          = inserted + min LEAF_USABLE (data.length - inserted) from rfl]
        rw [List.take_add]
      have hqual2 : ∀ c ∈ cs ++ [(data.drop inserted).take
          (min LEAF_USABLE (data.length - inserted))],
          c ≠ [] ∧ c.length ≤ LEAF_USABLE := by
        intro c hc
        rcases List.mem_append.mp hc with hc1 | hc2
        · exact hqual c hc1
        · rw [List.mem_singleton] at hc2
          subst hc2
          exact ⟨hcne, hcle⟩
      exact ih (k + 1)
        (inserted + ((data.drop inserted).take
          (min LEAF_USABLE (data.length - inserted))).length)
        _ t2 _ hInv3 hflat2 hqual2
        (by rw [hclen]; omega)
        (by rw [hclen]; omega)
        (by rw [hclen]; omega)
    · -- done: everything inserted
      have hieq : inserted = data.length := by omega
      have heq : build_loop data (fuel + 1) r inserted k = (r, .ok inserted) := by
        simp only [build_loop]
        rw [if_neg hlt]
      rw [heq]
      refine ⟨k, cs, t, ?_, hInv, ?_, hqual⟩
      · rw [hieq]
      · rw [hflat, hieq, List.take_length]


/-- Pointwise description of the arena payload lengths turns the arena sum
into a sum over indices. -/
theorem map_byte_len_sum :
    ∀ (ns : List Node) (g : Nat → Nat),
      (∀ j, j < ns.length → (nodeAt ns j).payload.byte_len = g j) →
      (ns.map (fun n => n.payload.byte_len)).sum
        = ((List.range ns.length).map g).sum
  | [], _, _ => rfl
  | n :: ns, g, h => by
    rw [List.map_cons, List.sum_cons, List.length_cons, List.range_succ_eq_map,
      List.map_cons, List.map_map, List.sum_cons]
    have h0 : n.payload.byte_len = g 0 := h 0 (Nat.succ_pos _)
    have htl := map_byte_len_sum ns (fun j => g (j + 1))
      (fun j hj => h (j + 1) (Nat.succ_lt_succ hj))
    rw [h0, htl]
    rfl

theorem flatten_length_sum :
    ∀ (cs : List (List Nat)),
      ((List.range cs.length).map (fun j => (cs.getD j []).length)).sum
        = cs.flatten.length
  | [] => rfl
  | c :: cs => by
    rw [List.length_cons, List.range_succ_eq_map, List.map_cons, List.map_map,
      List.sum_cons, List.flatten_cons, List.length_append]
    rw [show ((fun j => (((c :: cs).getD j []).length)) ∘ Nat.succ)
      = (fun j => ((cs.getD j []).length)) from rfl]
    rw [flatten_length_sum cs]
    rfl

/-- Under the build invariant, `Rope::len` is the total chunk length. -/
theorem BuildInv_len (k : Nat) (cs : List (List Nat)) (t : BT) (r : Rope)
    (hInv : BuildInv k cs t r)
    (hqual : ∀ c ∈ cs, c ≠ [] ∧ c.length ≤ LEAF_USABLE) :
    r.len = cs.flatten.length := by
  obtain ⟨hlen, hrep, hids, hblack, hcsl, hkp⟩ := hInv
  rw [Rope.len]
  rw [map_byte_len_sum r.nodes (fun j => (cs.getD j []).length) ?_]
  · rw [hlen, ← hcsl, flatten_length_sum]
  · intro j hj
    rw [(hkp j (by omega)).2]
    have hmem : cs.getD j [] ∈ cs := by
      rw [List.getD_eq_getElem?_getD, List.getElem?_eq_getElem (by omega)]
      exact List.getElem_mem _
    obtain ⟨hne, hle⟩ := hqual _ hmem
    exact fresh_byte_len _ hne (by rw [LEAF_USABLE, LEAF_CAPACITY] at hle; rw [LEAF_CAPACITY]; omega)

theorem min_node_NIL (fuel : Nat) (r : Rope) : min_node fuel r NIL = NIL := by
  cases fuel with
  | zero => rfl
  | succ f => simp [min_node]

theorem length_le_flatten_length :
    ∀ (cs : List (List Nat)), (∀ c ∈ cs, c ≠ []) → cs.length ≤ cs.flatten.length
  | [], _ => Nat.le_refl 0
  | c :: cs, h => by
    rw [List.length_cons, List.flatten_cons, List.length_append]
    have hcpos : 0 < c.length :=
      List.length_pos.mpr (h c (List.mem_cons_self c cs))
    have := length_le_flatten_length cs
      (fun x hx => h x (List.mem_cons_of_mem c hx))
    omega

/-- The leaf-walking loop of `read_bytes_global`, run from the first leaf
with no skip, copies the chunk contents back in document order. -/
theorem read_loop_spec (r : Rope) (idsL : List Nat) :
    ∀ (csL : List (List Nat)) (cur fuel written : Nat) (out : List Nat),
      (idsL = [] → cur = NIL) →
      (∀ a, idsL.head? = some a → cur = a) →
      List.Chain' (fun a b => successor r a = b) idsL →
      (∀ x, idsL.getLast? = some x → successor r x = NIL) →
      List.Forall₂ (fun a c => (getN r a).payload = (Leaf.new.insert 0 c).1)
        idsL csL →
      (∀ c ∈ csL, c ≠ [] ∧ c.length ≤ LEAF_USABLE) →
      (∀ a ∈ idsL, a ≠ NIL) →
      out.length = written + csL.flatten.length →
      idsL.length < fuel →
      read_loop fuel r cur out written 0
        = (out.take written ++ csL.flatten, .ok out.length) := by
  induction idsL with
  | nil =>
    intro csL cur fuel written out hnil _ _ _ hf2 _ _ hout hfuel
    cases hf2
    have hcur : cur = NIL := hnil rfl
    subst hcur
    have hwr : out.length = written := by simpa using hout
    cases fuel with
    | zero => exact absurd hfuel (by omega)
    | succ f =>
      simp only [read_loop]
      rw [if_neg (fun hh => hh.1 rfl)]
      rw [show List.flatten ([] : List (List Nat)) = [] from rfl,
        List.append_nil, ← hwr, List.take_length]
  | cons a rest ih =>
    intro csL cur fuel written out _ hhead hchain hlast hf2 hqual hids hout hfuel
    cases csL with
    | nil => cases hf2
    | cons c csR =>
      rw [List.forall₂_cons] at hf2
      obtain ⟨hpay, hf2t⟩ := hf2
      have hcur : a = cur := (hhead a rfl).symm
      subst hcur
      obtain ⟨hcne, hcle⟩ := hqual c (List.mem_cons_self c csR)
      have hcap : c.length ≤ LEAF_CAPACITY := by
        rw [LEAF_USABLE, LEAF_CAPACITY] at hcle
        rw [LEAF_CAPACITY]
        omega
      have hcpos : 0 < c.length := List.length_pos.mpr hcne
      have haNIL : a ≠ NIL := hids a (List.mem_cons_self a rest)
      have houtlen : out.length = written + c.length + csR.flatten.length := by
        rw [hout, List.flatten_cons, List.length_append]
        omega
      have hwlt : written < out.length := by omega
      cases fuel with
      | zero => exact absurd hfuel (by omega)
      | succ f =>
        have hbl : (Leaf.new.insert 0 c).1.byte_len = c.length :=
          fresh_byte_len c hcne hcap
        have hlenarg : ((out.drop written).take c.length).length = c.length := by
          rw [List.length_take, List.length_drop]
          omega
        have hread := fresh_read c hcne hcap ((out.drop written).take c.length)
          hlenarg
        have heq : read_loop (f + 1) r a out written 0
            = read_loop f r (successor r a)
              (out.take written ++ c ++ out.drop (written + c.length))
              (written + c.length) 0 := by
          simp only [read_loop]
          rw [if_pos ⟨haNIL, hwlt⟩, hpay, hbl]
          rw [if_neg (show ¬ (0 ≥ c.length) from by omega)]
          rw [Nat.sub_zero,
            show min (out.length - written) c.length = c.length from by omega]
          rw [hread]
        rw [heq]
        obtain ⟨hheadlink, hchaint⟩ := List.chain'_cons'.mp hchain
        have hlastt : ∀ x, rest.getLast? = some x → successor r x = NIL := by
          intro x hx
          apply hlast
          cases rest with
          | nil => simp at hx
          | cons b t =>
            rw [List.getLast?_cons_cons]
            exact hx
        have hout1 : (out.take written ++ c
            ++ out.drop (written + c.length)).length = out.length := by
          rw [List.length_append, List.length_append, List.length_take,
            List.length_drop]
          omega
        have hih := ih csR (successor r a) f (written + c.length)
          (out.take written ++ c ++ out.drop (written + c.length))
          (fun hre => hlast a (by rw [hre]; rfl))
          (fun b hb => hheadlink b hb)
          hchaint hlastt hf2t
          (fun x hx => hqual x (List.mem_cons_of_mem c hx))
          (fun x hx => hids x (List.mem_cons_of_mem a hx))
          (by rw [hout1]; omega)
          (by rw [List.length_cons] at hfuel; omega)
        rw [hih]
        have hl1 : (out.take written ++ c).length = written + c.length := by
          rw [List.length_append, List.length_take]
          omega
        have htake : (out.take written ++ c
            ++ out.drop (written + c.length)).take (written + c.length)
            = out.take written ++ c := List.take_left' hl1
        rw [htake, hout1, List.append_assoc]
        rfl

theorem forall₂_range_payload (r : Rope) (cs : List (List Nat)) (k : Nat)
    (hcsl : cs.length = k)
    (h : ∀ j, j < k →
      (nodeAt r.nodes j).payload = (Leaf.new.insert 0 (cs.getD j [])).1) :
    List.Forall₂ (fun a c => (getN r a).payload = (Leaf.new.insert 0 c).1)
      (List.range k) cs := by
  rw [List.forall₂_iff_get]
  refine ⟨by rw [List.length_range, hcsl], ?_⟩
  intro i h1 h2
  have h1' : i < k := by rwa [List.length_range] at h1
  have hg : cs.getD i [] = cs.get ⟨i, h2⟩ := by
    rw [List.getD_eq_getElem?_getD, List.getElem?_eq_getElem h2]
    simp [List.get_eq_getElem]
  have hr : (List.range k).get ⟨i, h1⟩ = i := by
    simp
  rw [hr, ← hg]
  exact h i h1'

/-- C1: for every byte sequence `data`, `build_from_bytes(data)` returns
`Ok(data.len())`; afterwards `len()` equals `data.len()`, and
`read_bytes_global(0, out)` into a buffer of length `data.len()` fills it
with exactly the bytes of `data` in order (returning `Ok(out.len())`). -/
theorem c1_build_read_roundtrip (data out : List Nat)
    (hdata : data.length < 2 ^ 63) (hout : out.length = data.length) :
    (build_from_bytes Rope.new data).2 = .ok data.length ∧
    (build_from_bytes Rope.new data).1.len = data.length ∧
    (read_bytes_global (build_from_bytes Rope.new data).1 0 out).1 = data ∧
    (read_bytes_global (build_from_bytes Rope.new data).1 0 out).2
      = .ok data.length := by
  have hInv0 : BuildInv 0 [] .nil Rope.new :=
    ⟨rfl, rfl, rfl, fun h => absurd h (by omega), rfl,
      fun j hj => absurd hj (by omega)⟩
  obtain ⟨k2, cs2, t2, hok, hInv2, hflat2, hqual2⟩ :=
    build_loop_spec data hdata (data.length + 1) 0 0 [] .nil Rope.new hInv0
      rfl (fun c hc => absurd hc (List.not_mem_nil c))
      (by omega) (by omega) (by omega)
  have hB : build_from_bytes Rope.new data
      = build_loop data (data.length + 1) Rope.new 0 0 := rfl
  rw [hB]
  obtain ⟨hlenB, hrepB, hidsB, hblackB, hcslB, hkpB⟩ := hInv2
  have hk2le : k2 ≤ data.length := by
    have h1 : cs2.length ≤ cs2.flatten.length :=
      length_le_flatten_length cs2 (fun c hc => (hqual2 c hc).1)
    rw [hflat2] at h1
    omega
  have hlenEq : (build_loop data (data.length + 1) Rope.new 0 0).1.len
      = data.length := by
    rw [BuildInv_len k2 cs2 t2 _ ⟨hlenB, hrepB, hidsB, hblackB, hcslB, hkpB⟩
      hqual2, hflat2]
  have hszB : (build_loop data (data.length + 1) Rope.new 0 0).1.nodes.length
      ≤ NIL := by
    rw [hlenB, NIL]
    omega
  have hRead : read_bytes_global (build_loop data (data.length + 1)
      Rope.new 0 0).1 0 out = (data, .ok data.length) := by
    have hRB : read_bytes_global (build_loop data (data.length + 1)
        Rope.new 0 0).1 0 out
        = read_loop (fuelOf (build_loop data (data.length + 1)
            Rope.new 0 0).1)
          (build_loop data (data.length + 1) Rope.new 0 0).1
          (min_node (fuelOf (build_loop data (data.length + 1)
            Rope.new 0 0).1)
            (build_loop data (data.length + 1) Rope.new 0 0).1
            (build_loop data (data.length + 1) Rope.new 0 0).1.root)
          out 0 0 := rfl
    by_cases hk0 : k2 = 0
    · subst hk0
      have hcs0 : cs2 = [] := List.length_eq_zero.mp hcslB
      subst hcs0
      have hd0 : data = [] := by
        rw [← hflat2]
        rfl
      have ht0 : t2 = .nil := BT.eq_nil_of_ids_nil t2 (by rw [hidsB]; rfl)
      subst ht0
      have hroot0 : (build_loop data (data.length + 1) Rope.new 0 0).1.root
          = NIL := hrepB
      rw [hRB, hroot0, min_node_NIL]
      rw [read_loop_spec _ ([] : List Nat) ([] : List (List Nat)) NIL _ 0 out
        (fun _ => rfl) (fun a ha => by simp at ha)
        List.chain'_nil (fun x hx => by simp at hx)
        List.Forall₂.nil (fun c hc => absurd hc (List.not_mem_nil c))
        (fun a ha => absurd ha (List.not_mem_nil a))
        (by rw [hout, hd0]; rfl)
        (by rw [fuelOf]; exact Nat.succ_pos _)]
      rw [hd0] at hout
      rw [hd0]
      rw [show out.length = 0 from hout, show out = ([] : List Nat) from
        List.length_eq_zero.mp hout]
      rfl
    · have htne : t2 ≠ .nil := by
        intro hh
        rw [hh] at hidsB
        have : (List.range k2).length = 0 := by rw [← hidsB]; rfl
        rw [List.length_range] at this
        omega
      have hidslen : t2.ids.length = k2 := by
        rw [hidsB, List.length_range]
      have hnd : t2.ids.Nodup := by
        rw [hidsB]
        exact List.nodup_range k2
      have hcard : t2.ids.length ≤ (build_loop data (data.length + 1)
          Rope.new 0 0).1.nodes.length := by
        rw [hidslen, hlenB]
      have hmin : min_node (fuelOf (build_loop data (data.length + 1)
          Rope.new 0 0).1) (build_loop data (data.length + 1) Rope.new 0 0).1
          (build_loop data (data.length + 1) Rope.new 0 0).1.root
          = t2.leftmost :=
        min_node_spec _ hszB t2 _ _ NIL hrepB htne
          (by rw [hidslen, fuelOf, hlenB]; omega)
      have hf2 : List.Forall₂ (fun a c =>
          (getN (build_loop data (data.length + 1) Rope.new 0 0).1 a).payload
            = (Leaf.new.insert 0 c).1) t2.ids cs2 := by
        rw [hidsB]
        exact forall₂_range_payload _ cs2 k2 hcslB (fun j hj => (hkpB j hj).2)
      rw [hRB, hmin]
      rw [read_loop_spec _ t2.ids cs2 t2.leftmost _ 0 out
        (fun hh => absurd (BT.eq_nil_of_ids_nil t2 hh) htne)
        (fun a ha => by
          rw [BT.ids_head t2 htne] at ha
          exact (Option.some_inj.mp ha))
        (chain_inorder _ hszB t2 _ NIL hrepB hnd hcard)
        (fun x hx => by
          rw [BT.ids_getLast t2 htne] at hx
          rw [← Option.some_inj.mp hx]
          exact successor_rightmost _ hszB t2 hrepB htne hcard)
        hf2 hqual2
        (fun a ha => by
          rw [hidsB, List.mem_range] at ha
          rw [NIL]
          omega)
        (by rw [hout, ← hflat2]; omega)
        (by rw [hidslen, fuelOf, hlenB]; omega)]
      rw [List.take_zero, List.nil_append, hflat2, hout]
  exact ⟨hok, hlenEq, by rw [hRead], by rw [hRead]⟩

theorem c1_build_read_roundtrip_witness :
    ([97, 10, 98] : List Nat).length < 2 ^ 63 ∧
    ([0, 0, 0] : List Nat).length = ([97, 10, 98] : List Nat).length ∧
    (build_from_bytes Rope.new [97, 10, 98]).2 = .ok 3 ∧
    (build_from_bytes Rope.new [97, 10, 98]).1.len = 3 ∧
    (read_bytes_global (build_from_bytes Rope.new [97, 10, 98]).1 0
      [0, 0, 0]).1 = [97, 10, 98] ∧
    (read_bytes_global (build_from_bytes Rope.new [97, 10, 98]).1 0
      [0, 0, 0]).2 = .ok 3 := by
  have h := c1_build_read_roundtrip [97, 10, 98] [0, 0, 0]
    (by norm_num) rfl
  exact ⟨by norm_num, rfl, h.1, h.2.1, h.2.2.1, h.2.2.2⟩


end Niv
